import Mathlib

/-!
# particle-life-cli: the simulation core of `src/main.c`

A shallow embedding of the force kernel, the boundary wrap, the grid-accelerated
`update` step, the density rasterizer and the matrix initializer.

Numbers: the C code computes in `float`.  The embedding has two layers.

* The main layer is generic over a linearly ordered field `K` with a floor
  function (so it covers the reals, and is executable over the rationals); a
  statement about it is a statement about exact arithmetic.
* The definitions with the suffix `32` (section `Binary32`) are over the
  rationals and round the result of each `float` operation to the nearest
  `float` (`round32`).  They cover the places where rounding changes the outcome
  of the code grossly and not only in the last digit: the loops of `boundary`,
  the grid size and the cell index of the grid build phase, and the position
  pass of `update`.  The statements about them evaluate the code at concrete
  `float` inputs.

C `int`s are unbounded integers: the overflow of `(int) floor(...)` and of
`gridSize * gridSize` is not modelled.  C arrays are maps from an integer index
to a value (`Arr`); buffer capacities are not tracked.
-/

namespace ParticleLife

section Kernel

variable {K : Type} [LinearOrderedField K]

/-- The constant `beta` of `force` (`const float beta = 0.3`). -/
def beta : K := 3 / 10

/-- The function `force` of main.c: the radial force for a normalized distance
`r` and an attraction coefficient `a`. -/
def force (r a : K) : K :=
  if r < beta then
    r / beta - 1
  else if beta < r ∧ r < 1 then
    a * (1 - |2 * r - 1 - beta| / (1 - beta))
  else
    0

/-- The first loop of `boundary`: `do { x += 2.0f; } while (x < -1.0f);`, in
exact arithmetic, where every round brings `x` closer to -1; `boundaryUp32` is
the loop in `float` arithmetic. -/
def boundaryUp [FloorRing K] (x : K) : K :=
  if x + 2 < -1 then boundaryUp (x + 2) else x + 2
termination_by (Int.toNat ⌈-1 - x⌉)
decreasing_by
  rename_i h
  have h1 : (0 : K) < -1 - (x + 2) := by linarith
  have h2 : 0 < ⌈-1 - (x + 2)⌉ := Int.ceil_pos.mpr h1
  have h3 : ⌈-1 - x⌉ = ⌈-1 - (x + 2)⌉ + 2 := by
    rw [show -1 - x = (-1 - (x + 2)) + ((2 : ℤ) : K) by push_cast; ring]
    exact Int.ceil_add_int _ _
  omega

/-- The second loop of `boundary`: `do { x -= 2.0f; } while (x >= 1.0f);`, in
exact arithmetic, where every round brings `x` closer to 1; `boundaryDown32` is
the loop in `float` arithmetic. -/
def boundaryDown [FloorRing K] (x : K) : K :=
  if 1 ≤ x - 2 then boundaryDown (x - 2) else x - 2
termination_by (Int.toNat ⌊x⌋)
decreasing_by
  rename_i h
  have h2 : 1 ≤ ⌊x - 2⌋ := Int.le_floor.mpr (by push_cast; exact h)
  have h3 : ⌊x⌋ = ⌊x - 2⌋ + 2 := by
    rw [show x = (x - 2) + ((2 : ℤ) : K) by push_cast; ring]
    rw [Int.floor_add_int]
    simp
  omega

/-- The function `boundary` of main.c in exact arithmetic: folds a coordinate
into `[-1, 1)`. -/
def boundary [FloorRing K] (x : K) : K :=
  if x < -1 then boundaryUp x
  else if 1 ≤ x then boundaryDown x
  else x

/-- The wrap as the specification words it: `((x+1) mod 2) - 1` with the mod
normalized to be non-negative. -/
def wrapSpec [FloorRing K] (x : K) : K := (x + 1 - 2 * (⌊(x + 1) / 2⌋ : K)) - 1

end Kernel

section State

variable {K : Type}

/-- A C array (a pointer to a buffer): the map from an index to the value
stored there. -/
structure Arr (α : Type) where
  get : Int → α

/-- The array after the assignment `a[i] = v`. -/
def Arr.set {α : Type} (a : Arr α) (i : Int) (v : α) : Arr α :=
  ⟨Function.update a.get i v⟩

/-- The struct `Particle` of main.c. -/
structure Particle (K : Type) where
  type : Int
  x : K
  y : K
  vx : K
  vy : K

/-- The struct `ParticleSystem` of main.c. -/
structure ParticleSystem (K : Type) where
  rMax : K
  frictionHalfLife : K
  forceFactor : K
  dt : K
  n : Int
  particles : Arr (Particle K)
  gridSize : Int
  grid : Arr Int
  gridMap : Arr Int
  m : Int
  matrix : Arr K

/-- The index sequence of a loop `for (int i = lo; i < hi; i++)`. -/
def intRange (lo hi : Int) : List Int :=
  (List.range (hi - lo).toNat).map (fun (k : Nat) => lo + (k : Int))

/-- The macro `NUM_MATRIX_MODES`. -/
def NUM_MATRIX_MODES : Int := 2

/-- The macro `NUM_POSITION_MODES`. -/
def NUM_POSITION_MODES : Int := 4

end State

section Matrix

variable {K : Type} [LinearOrderedField K]

/-- The body of the mode-1 loops of `randomizeMatrix`: entry `[i][j]` is set to
`randFloat() * 2.0f - 1.0f`.  The state is the matrix and the number of values
drawn so far from the random source `rnd`. -/
def randomEntry (rnd : Nat → K) (m i : Int) (st : Arr K × Nat) (j : Int) :
    Arr K × Nat :=
  (st.1.set (i * m + j) (rnd st.2 * 2 - 1), st.2 + 1)

/-- The body of the mode-2 ("snakes") loops of `randomizeMatrix`. -/
def snakesEntry (m i : Int) (mat : Arr K) (j : Int) : Arr K :=
  let val : K := 0
  let val := if i = j then 1 else val
  let val := if i = Int.tmod (j + 1) m then 1 / 2 else val
  mat.set (i * m + j) val

/-- The function `randomizeMatrix` of main.c.  `rnd` is the sequence of values
that successive calls of `randFloat()` return and `c` the number of values
already drawn; the result carries the new count. -/
def randomizeMatrix (rnd : Nat → K) (s : ParticleSystem K) (mode : Int) (c : Nat) :
    ParticleSystem K × Nat :=
  if mode < 1 ∨ mode > NUM_MATRIX_MODES then (s, c)
  else if mode = 1 then
    let r := (intRange 0 s.m).foldl
      (fun st i => (intRange 0 s.m).foldl (randomEntry rnd s.m i) st) (s.matrix, c)
    ({ s with matrix := r.1 }, r.2)
  else if mode = 2 then
    let mat := (intRange 0 s.m).foldl
      (fun mat i => (intRange 0 s.m).foldl (snakesEntry s.m i) mat) s.matrix
    ({ s with matrix := mat }, c)
  else (s, c)

end Matrix

section Positions

variable {K : Type} [LinearOrderedField K]

/-- The body of the mode-1 ("uniform") loop of `initPositions`.  The state is
the particle array and the number of values drawn so far from `rnd`. -/
def uniformStep (rnd : Nat → K) (st : Arr (Particle K) × Nat) (i : Int) :
    Arr (Particle K) × Nat :=
  let particle := st.1.get i
  let particle := { particle with x := rnd st.2 * 2 - 1 }
  let particle := { particle with y := rnd (st.2 + 1) * 2 - 1 }
  (st.1.set i particle, st.2 + 2)

/-- The body of the mode-2 ("centered") loop of `initPositions`; the operands
of `randFloat() * randFloat()` are drawn from left to right. -/
def centeredStep (cos sin : K → K) (pi : K) (rnd : Nat → K)
    (st : Arr (Particle K) × Nat) (i : Int) : Arr (Particle K) × Nat :=
  let particle := st.1.get i
  let angle := rnd st.2 * 2 * pi
  let radius := rnd (st.2 + 1) * rnd (st.2 + 2) * (3 / 10)
  let particle := { particle with x := cos angle * radius }
  let particle := { particle with y := sin angle * radius }
  (st.1.set i particle, st.2 + 3)

/-- The body of the mode-3 ("horizontal") loop of `initPositions`; the two draws
of the expression for `y` are taken from left to right. -/
def horizontalStep (rnd : Nat → K) (st : Arr (Particle K) × Nat) (i : Int) :
    Arr (Particle K) × Nat :=
  let particle := st.1.get i
  let particle := { particle with x := rnd st.2 * 2 - 1 }
  let particle :=
    { particle with y := (rnd (st.2 + 1) - 1 / 2) * (2 / 10) * rnd (st.2 + 2) }
  (st.1.set i particle, st.2 + 3)

/-- The body of the mode-4 (spiral) loop of `initPositions`. -/
def spiralStep (cos sin : K → K) (pi : K) (rnd : Nat → K)
    (st : Arr (Particle K) × Nat) (i : Int) : Arr (Particle K) × Nat :=
  let particle := st.1.get i
  let angle := rnd st.2 * 2 * pi
  let radius := 1 / 10 + angle * (1 / 10)
  let particle := { particle with x := cos angle * radius }
  let particle := { particle with y := sin angle * radius }
  (st.1.set i particle, st.2 + 1)

/-- The function `initPositions` of main.c.  `cos`, `sin` and `pi` are the C
library's `cos`, `sin` and `M_PI`; `rnd` is the sequence of values that
successive calls of `randFloat()` return and `c` the number of values already
drawn; the result carries the new count. -/
def initPositions (cos sin : K → K) (pi : K) (rnd : Nat → K) (s : ParticleSystem K)
    (mode : Int) (c : Nat) : ParticleSystem K × Nat :=
  if mode < 1 ∨ mode > NUM_POSITION_MODES then (s, c)
  else if mode = 1 then
    let r := (intRange 0 s.n).foldl (uniformStep rnd) (s.particles, c)
    ({ s with particles := r.1 }, r.2)
  else if mode = 2 then
    let r := (intRange 0 s.n).foldl (centeredStep cos sin pi rnd) (s.particles, c)
    ({ s with particles := r.1 }, r.2)
  else if mode = 3 then
    let r := (intRange 0 s.n).foldl (horizontalStep rnd) (s.particles, c)
    ({ s with particles := r.1 }, r.2)
  else if mode = 4 then
    let r := (intRange 0 s.n).foldl (spiralStep cos sin pi rnd) (s.particles, c)
    ({ s with particles := r.1 }, r.2)
  else (s, c)

end Positions

section Update

variable {K : Type} [LinearOrderedField K] [FloorRing K]

/-- The cell coordinate of a position coordinate:
`(int) floor((x + 1.0f) * 0.5f * (float) gridSize)`, in exact arithmetic;
`cellCoord32` is the cell coordinate in `float` arithmetic. -/
def cellCoord (gridSize : Int) (x : K) : Int :=
  ⌊(x + 1) * (1 / 2) * (gridSize : K)⌋

/-- The cell index of a particle: `gridIndex = cx + cy * gridSize`. -/
def gridIndexOf (gridSize : Int) (p : Particle K) : Int :=
  cellCoord gridSize p.x + cellCoord gridSize p.y * gridSize

/-- The loop "clear grid" of `update`. -/
def clearGrid (gridSize : Int) (grid : Arr Int) : Arr Int :=
  (intRange 0 (gridSize * gridSize)).foldl (fun g i => g.set i 0) grid

/-- The loop "count particles in cells" of `update`. -/
def countCells (n : Int) (particles : Arr (Particle K)) (gridSize : Int)
    (grid : Arr Int) : Arr Int :=
  (intRange 0 n).foldl
    (fun g i =>
      let gridIndex := gridIndexOf gridSize (particles.get i)
      g.set gridIndex (g.get gridIndex + 1))
    grid

/-- The loop "cumsum" of `update`; the state is the grid and the variable `sum`. -/
def cumsum (gridSize : Int) (grid : Arr Int) : Arr Int × Int :=
  (intRange 0 (gridSize * gridSize)).foldl
    (fun st i =>
      let temp := st.1.get i
      (st.1.set i st.2, st.2 + temp))
    (grid, 0)

/-- The loop "pointers to cell index" of `update`; the state is the grid and
the gridMap. -/
def scatter (n : Int) (particles : Arr (Particle K)) (gridSize : Int)
    (st : Arr Int × Arr Int) : Arr Int × Arr Int :=
  (intRange 0 n).foldl
    (fun st i =>
      let gridIndex := gridIndexOf gridSize (particles.get i)
      let particleIndex := st.1.get gridIndex
      (st.1.set gridIndex (st.1.get gridIndex + 1), st.2.set particleIndex i))
    st

/-- The loop "undo changes to grid" of `update`
(`for (int i = gridSize * gridSize; i > 0; i--) grid[i] = grid[i - 1];`)
followed by `grid[0] = 0`. -/
def undoGrid (gridSize : Int) (grid : Arr Int) : Arr Int :=
  let g := (intRange 1 (gridSize * gridSize + 1)).reverse.foldl
    (fun g i => g.set i (g.get (i - 1))) grid
  g.set 0 0

/-- The grid build phase of `update` (lines "clear grid" to `grid[0] = 0`):
the resulting grid and gridMap. -/
def buildGrid (n : Int) (particles : Arr (Particle K)) (gridSize : Int)
    (grid gridMap : Arr Int) : Arr Int × Arr Int :=
  let grid1 := clearGrid gridSize grid
  let grid2 := countCells n particles gridSize grid1
  let grid3 := (cumsum gridSize grid2).1
  let st := scatter n particles gridSize (grid3, gridMap)
  (undoGrid gridSize st.1, st.2)

/-- The "wrap around" of a neighbour cell coordinate:
`if (c < 0) c += gridSize; if (c >= gridSize) c -= gridSize;`. -/
def wrapCell (gridSize c : Int) : Int :=
  let c := if c < 0 then c + gridSize else c
  if c ≥ gridSize then c - gridSize else c

/-- The body of the innermost loop of `update` after `if (i_ == i) continue;`:
the contribution of the particle `p_` to the force on `p`, added to the
accumulators `(totalForceX, totalForceY)`. -/
def pairForce (sqrtf : K → K) (rMax : K) (m : Int) (matrix : Arr K)
    (p p_ : Particle K) (acc : K × K) : K × K :=
  let rx := boundary (p_.x - p.x)
  let ry := boundary (p_.y - p.y)
  let rSquared := rx * rx + ry * ry
  let r := sqrtf rSquared
  if 0 < r ∧ r < rMax then
    let a := matrix.get (p.type * m + p_.type)
    let f := force (r / rMax) a
    (acc.1 + rx / r * f, acc.2 + ry / r * f)
  else acc

/-- The loops over `dy`, `dx` and `k_` of `update` for the particle `i` met in
cell `(cx, cy)`: the accumulated `(totalForceX, totalForceY)`. -/
def totalForce (sqrtf : K → K) (rMax : K) (m : Int) (matrix : Arr K)
    (gridSize : Int) (grid gridMap : Arr Int) (particles : Arr (Particle K))
    (cx cy i : Int) : K × K :=
  (intRange (-1) 2).foldl
    (fun acc dy =>
      (intRange (-1) 2).foldl
        (fun acc dx =>
          let cx_ := wrapCell gridSize (cx + dx)
          let cy_ := wrapCell gridSize (cy + dy)
          let c_ := cx_ + cy_ * gridSize
          (intRange (grid.get c_) (grid.get (c_ + 1))).foldl
            (fun acc k_ =>
              let i_ := gridMap.get k_
              if i_ = i then acc
              else pairForce sqrtf rMax m matrix (particles.get i) (particles.get i_) acc)
            acc)
        acc)
    (0, 0)

/-- The body of the loop over `k` of the velocity pass of `update`: the
particle `gridMap[k]`, met in cell `(cx, cy)`, gets its new velocity. -/
def velocityStep (sqrtf : K → K) (rMax forceFactor dt frictionFactor : K) (m : Int)
    (matrix : Arr K) (gridSize : Int) (grid gridMap : Arr Int)
    (particles : Arr (Particle K)) (item : Int × Int × Int) : Arr (Particle K) :=
  let cy := item.1
  let cx := item.2.1
  let k := item.2.2
  let i := gridMap.get k
  let p := particles.get i
  let total := totalForce sqrtf rMax m matrix gridSize grid gridMap particles cx cy i
  let totalForceX := total.1 * (rMax * forceFactor)
  let totalForceY := total.2 * (rMax * forceFactor)
  let vx := p.vx * frictionFactor
  let vy := p.vy * frictionFactor
  particles.set i { p with vx := vx + totalForceX * dt, vy := vy + totalForceY * dt }

/-- The work items `(cy, cx, k)` of the velocity pass of `update`, in the
order of the loops over `cy`, `cx` and `k`. -/
def velocityWork (gridSize : Int) (grid : Arr Int) : List (Int × Int × Int) :=
  (intRange 0 gridSize).flatMap (fun cy =>
    (intRange 0 gridSize).flatMap (fun cx =>
      (intRange (grid.get (cx + cy * gridSize)) (grid.get (cx + cy * gridSize + 1))).map
        (fun k => (cy, cx, k))))

/-- The velocity pass over a list of work items, updating the particle array
in place item after item. -/
def velocityPass (sqrtf : K → K) (rMax forceFactor dt frictionFactor : K) (m : Int)
    (matrix : Arr K) (gridSize : Int) (grid gridMap : Arr Int)
    (work : List (Int × Int × Int)) (particles : Arr (Particle K)) : Arr (Particle K) :=
  work.foldl
    (velocityStep sqrtf rMax forceFactor dt frictionFactor m matrix gridSize grid gridMap)
    particles

/-- The loop "velocities" of `update`: three nested loops over `cy`, `cx`, `k`. -/
def velocities (sqrtf : K → K) (rMax forceFactor dt frictionFactor : K) (m : Int)
    (matrix : Arr K) (gridSize : Int) (grid gridMap : Arr Int)
    (particles : Arr (Particle K)) : Arr (Particle K) :=
  (intRange 0 gridSize).foldl
    (fun ps cy =>
      (intRange 0 gridSize).foldl
        (fun ps cx =>
          let gridIndex := cx + cy * gridSize
          (intRange (grid.get gridIndex) (grid.get (gridIndex + 1))).foldl
            (fun ps k =>
              velocityStep sqrtf rMax forceFactor dt frictionFactor m matrix gridSize
                grid gridMap ps (cy, cx, k))
            ps)
        ps)
    particles

/-- The body of the loop "positions" of `update`. -/
def positionStep (dt : K) (particles : Arr (Particle K)) (i : Int) : Arr (Particle K) :=
  let particle := particles.get i
  let particle := { particle with x := boundary (particle.x + particle.vx * dt) }
  let particle := { particle with y := boundary (particle.y + particle.vy * dt) }
  particles.set i particle

/-- The loop "positions" of `update`. -/
def positions (n : Int) (dt : K) (particles : Arr (Particle K)) : Arr (Particle K) :=
  (intRange 0 n).foldl (positionStep dt) particles

/-- The function `update` of main.c in exact arithmetic.  `pow` and `sqrtf`
are the C library functions of these names.  `realloc` keeps the stored grid
values.  `update32` is the function with `float` rounding in the grid size, the
cell indices and the position pass. -/
def update (pow : K → K → K) (sqrtf : K → K) (s : ParticleSystem K) : ParticleSystem K :=
  let frictionFactor := pow (1 / 2) (s.dt / s.frictionHalfLife)
  let gridSize : Int := ⌊2 / s.rMax⌋
  let s := if gridSize ≠ s.gridSize then { s with gridSize := gridSize } else s
  if gridSize < 3 then s
  else
    let built := buildGrid s.n s.particles gridSize s.grid s.gridMap
    let grid := built.1
    let gridMap := built.2
    let particles := velocities sqrtf s.rMax s.forceFactor s.dt frictionFactor s.m
      s.matrix gridSize grid gridMap s.particles
    let particles := positions s.n s.dt particles
    { s with grid := grid, gridMap := gridMap, particles := particles }

/-- The number of particles of the list `l` of indices that lie in cell `c`. -/
def cellCount (particles : Arr (Particle K)) (gridSize : Int) (l : List Int) (c : Int) : Int :=
  ((l.countP (fun i => gridIndexOf gridSize (particles.get i) = c) : Nat) : Int)

/-- The sum of the values of `f` over the indices `0 .. c-1`. -/
def prefixSum (f : Int → Int) (c : Int) : Int := ((intRange 0 c).map f).sum

/-- The nine cells that `update` scans around the cell `(cx, cy)`, in scan order. -/
def neighbourCells (gridSize cx cy : Int) : List Int :=
  (intRange (-1) 2).flatMap (fun dy =>
    (intRange (-1) 2).map (fun dx =>
      wrapCell gridSize (cx + dx) + wrapCell gridSize (cy + dy) * gridSize))

/-- The particle indices `i_` that the loops over `dy`, `dx` and `k_` of
`update` visit around the cell `(cx, cy)`, in visiting order. -/
def scanList (gridSize : Int) (grid gridMap : Arr Int) (cx cy : Int) : List Int :=
  (neighbourCells gridSize cx cy).flatMap (fun c_ =>
    (intRange (grid.get c_) (grid.get (c_ + 1))).map gridMap.get)

/-- What one visit of particle `j` adds to the force accumulators of particle
`i` in `update`: nothing for `j = i`, else the pair force. -/
def contribution (sqrtf : K → K) (rMax : K) (m : Int) (matrix : Arr K)
    (particles : Arr (Particle K)) (i j : Int) : K × K :=
  if j = i then 0
  else pairForce sqrtf rMax m matrix (particles.get i) (particles.get j) (0, 0)

/-- The particle `p` with the velocity that the velocity pass of `update`
gives it when its force sum is `total`: scaling of the force, damping of the
old velocity, then the impulse. -/
def withNewVelocity (rMax forceFactor dt frictionFactor : K) (p : Particle K)
    (total : K × K) : Particle K :=
  { p with
    vx := p.vx * frictionFactor + total.1 * (rMax * forceFactor) * dt,
    vy := p.vy * frictionFactor + total.2 * (rMax * forceFactor) * dt }

/-- The particle `p` moved by its velocity for the time `dt`, as the position
pass of `update` does. -/
def withNewPosition (dt : K) (p : Particle K) : Particle K :=
  { p with x := boundary (p.x + p.vx * dt), y := boundary (p.y + p.vy * dt) }

/-- The O(n²) reference of the specification: the sum, over all particles
`j ≠ i` whose periodic distance `r` to particle `i` satisfies `0 < r < rMax`, of
`(wrap(p_j - p_i) / r) * force(r / rMax, matrix[type_i][type_j])`. -/
def referenceForce (sqrtf : K → K) (rMax : K) (m : Int) (matrix : Arr K)
    (n : Int) (particles : Arr (Particle K)) (i : Int) : K × K :=
  let dx := fun j => boundary ((particles.get j).x - (particles.get i).x)
  let dy := fun j => boundary ((particles.get j).y - (particles.get i).y)
  let dist := fun j => sqrtf (dx j * dx j + dy j * dy j)
  let coef := fun j => matrix.get ((particles.get i).type * m + (particles.get j).type)
  let near := (intRange 0 n).filter (fun j => j ≠ i ∧ 0 < dist j ∧ dist j < rMax)
  ((near.map (fun j => dx j / dist j * force (dist j / rMax) (coef j))).sum,
   (near.map (fun j => dy j / dist j * force (dist j / rMax) (coef j))).sum)

end Update

section Render

variable {K : Type} [LinearOrderedField K] [FloorRing K]

/-- The macro `CHAR_RATIO` (`2.0f`). -/
def CHAR_RATIO : K := 2

/-- The C conversion of a floating value to `int`: truncation toward zero. -/
def truncToInt (x : K) : Int := if 0 ≤ x then ⌊x⌋ else ⌈x⌉

/-- The value of `int h_cw = h * CHAR_RATIO;` in `renderDensity`. -/
def heightCw (h : Int) : Int := truncToInt ((h : K) * ( CHAR_RATIO : K))

/-- The column `x` that `renderDensity` computes for a particle:
`x_cw = (p->x + shiftX) * zoom * h_cw / 2 + w_cw / 2; x = (int) floor(x_cw)`,
where `w_cw / 2` divides two `int`s. -/
def rasterX (w h : Int) (zoom shiftX : K) (p : Particle K) : Int :=
  let w_cw : Int := w
  let h_cw : Int := heightCw (K := K) h
  let x_cw : K := (p.x + shiftX) * zoom * (h_cw : K) / 2 + ((Int.tdiv w_cw 2 : Int) : K)
  ⌊x_cw⌋

/-- The row `y` that `renderDensity` computes for a particle:
`y_cw = (p->y + shiftY) * zoom * h_cw / 2 + h_cw / 2;
y = (int) floor(y_cw / CHAR_RATIO)`, where `h_cw / 2` divides two `int`s. -/
def rasterY (h : Int) (zoom shiftY : K) (p : Particle K) : Int :=
  let h_cw : Int := heightCw (K := K) h
  let y_cw : K := (p.y + shiftY) * zoom * (h_cw : K) / 2 + ((Int.tdiv h_cw 2 : Int) : K)
  ⌊y_cw / CHAR_RATIO⌋

/-- The call `memset(grid, 0, count * sizeof(int))`. -/
def memsetZero (grid : Arr Int) (count : Int) : Arr Int :=
  ⟨fun i => if 0 ≤ i ∧ i < count then 0 else grid.get i⟩

/-- The body of the particle loop of `renderDensity`. -/
def renderStep (w h : Int) (s : ParticleSystem K) (zoom shiftX shiftY : K)
    (grid : Arr Int) (i : Int) : Arr Int :=
  let p := s.particles.get i
  let x := rasterX w h zoom shiftX p
  let y := rasterY h zoom shiftY p
  if x ≥ 0 ∧ x < w ∧ y ≥ 0 ∧ y < h then
    grid.set (y * w * s.m + x * s.m + p.type)
      (grid.get (y * w * s.m + x * s.m + p.type) + 1)
  else grid

/-- The function `renderDensity` of main.c; the result is the density buffer
`grid` after the call. -/
def renderDensity (grid : Arr Int) (w h : Int) (s : ParticleSystem K)
    (zoom shiftX shiftY : K) (clear : Bool) : Arr Int :=
  let n := s.n
  let m := s.m
  let grid := if clear then memsetZero grid (w * h * m) else grid
  (intRange 0 n).foldl (renderStep w h s zoom shiftX shiftY) grid

/-- Whether `renderDensity` finds the projection of particle `i` inside the
raster. -/
def inRaster (w h : Int) (s : ParticleSystem K) (zoom shiftX shiftY : K) (i : Int) : Prop :=
  rasterX w h zoom shiftX (s.particles.get i) ≥ 0 ∧
  rasterX w h zoom shiftX (s.particles.get i) < w ∧
  rasterY h zoom shiftY (s.particles.get i) ≥ 0 ∧
  rasterY h zoom shiftY (s.particles.get i) < h

instance (w h : Int) (s : ParticleSystem K) (zoom shiftX shiftY : K) (i : Int) :
    Decidable (inRaster w h s zoom shiftX shiftY i) := by
  unfold inRaster
  infer_instance

/-- The index of the counter `renderDensity` increments for particle `i`. -/
def rasterIndex (w h : Int) (s : ParticleSystem K) (zoom shiftX shiftY : K) (i : Int) : Int :=
  rasterY h zoom shiftY (s.particles.get i) * w * s.m +
    rasterX w h zoom shiftX (s.particles.get i) * s.m + (s.particles.get i).type

end Render

section Inputs

/-- A concrete system: three particles (two near the centre, one near the
corner of the domain), four types, rMax = 1/2 so that the grid has 4 x 4 cells. -/
def demoSystemOver (K : Type) [LinearOrderedField K] : ParticleSystem K :=
  { rMax := 1 / 2, frictionHalfLife := 1 / 25, forceFactor := 10, dt := 1 / 50, n := 3,
    particles := ⟨fun i =>
      if i = 0 then ⟨0, -1 / 10, 0, 0, 0⟩
      else if i = 1 then ⟨0, 1 / 10, 0, 0, 0⟩
      else ⟨1, 99 / 100, -99 / 100, 0, 0⟩⟩,
    gridSize := 4, grid := ⟨fun _ => 0⟩, gridMap := ⟨fun _ => 0⟩, m := 4,
    matrix := ⟨fun _ => 1⟩ }

/-- The concrete system over the rationals. -/
def demoSystem : ParticleSystem ℚ := demoSystemOver ℚ

/-- The system `demoSystem` after the interaction radius was set to 1, so that
the derived grid size is 2 while the stored one is still 4. -/
def wideRadiusSystem : ParticleSystem ℚ := { demoSystem with rMax := 1 }

/-- The end-to-end scenario: n = 2, m = 1, particles at (-0.1, 0) and (0.1, 0)
with zero velocity, rMax = 0.5, matrix[0][0] = 1, dt = 0.02. -/
def pairSystemOver (K : Type) [LinearOrderedField K] (forceFactor frictionHalfLife : K) :
    ParticleSystem K :=
  { rMax := 1 / 2, frictionHalfLife := frictionHalfLife, forceFactor := forceFactor,
    dt := 2 / 100, n := 2,
    particles := ⟨fun i =>
      if i = 0 then ⟨0, -1 / 10, 0, 0, 0⟩ else ⟨0, 1 / 10, 0, 0, 0⟩⟩,
    gridSize := 4, grid := ⟨fun _ => 0⟩, gridMap := ⟨fun _ => 0⟩, m := 1,
    matrix := ⟨fun _ => 1⟩ }

/-- A system with a single particle of type `t` at `(x, y)`. -/
def singleParticleSystem (K : Type) [LinearOrderedField K] (t m : Int) (x y : K) :
    ParticleSystem K :=
  { rMax := 1 / 2, frictionHalfLife := 1 / 25, forceFactor := 10, dt := 1 / 50, n := 1,
    particles := ⟨fun _ => ⟨t, x, y, 0, 0⟩⟩,
    gridSize := 4, grid := ⟨fun _ => 0⟩, gridMap := ⟨fun _ => 0⟩, m := m,
    matrix := ⟨fun _ => 1⟩ }

end Inputs

section Binary32

/-- Rounding of a rational to the nearest integer, a tie going to the even
neighbour. -/
def roundHalfEven (r : ℚ) : Int :=
  let f := ⌊r⌋
  if r - f < 1 / 2 then f
  else if 1 / 2 < r - f then f + 1
  else if f % 2 = 0 then f else f + 1

/-- The C `float` (IEEE 754 binary32: a significand of 24 bits, rounding to
nearest, a tie going to the even significand) that the exact result `q` of an
operation is stored as.  The exponent range is not bounded: overflow to
infinity and subnormal numbers are not modelled. -/
def round32 (q : ℚ) : ℚ :=
  if q = 0 then 0
  else
    let e := Int.log 2 |q|
    (roundHalfEven (q / 2 ^ (e - 23)) : ℚ) * 2 ^ (e - 23)

/-- The first loop of `boundary` in `float` arithmetic:
`do { x += 2.0f; } while (x < -1.0f);`.  Every round of the loop uses one unit
of `fuel`; the result is `none` when the loop has not ended within `fuel`
rounds. -/
def boundaryUp32 : Nat → ℚ → Option ℚ
  | 0, _ => none
  | fuel + 1, x =>
    let x := round32 (x + 2)
    if x < -1 then boundaryUp32 fuel x else some x

/-- The second loop of `boundary` in `float` arithmetic:
`do { x -= 2.0f; } while (x >= 1.0f);`, with `fuel` as in `boundaryUp32`. -/
def boundaryDown32 : Nat → ℚ → Option ℚ
  | 0, _ => none
  | fuel + 1, x =>
    let x := round32 (x - 2)
    if 1 ≤ x then boundaryDown32 fuel x else some x

/-- The function `boundary` of main.c in `float` arithmetic; `none` when a loop
has not ended within `fuel` rounds. -/
def boundary32 (fuel : Nat) (x : ℚ) : Option ℚ :=
  if x < -1 then boundaryUp32 fuel x
  else if 1 ≤ x then boundaryDown32 fuel x
  else some x

/-- The cell coordinate in `float` arithmetic:
`(int) floor((x + 1.0f) * 0.5f * (float) gridSize)`, the sum, the two products
and the conversion of `gridSize` each rounded to `float`. -/
def cellCoord32 (gridSize : Int) (x : ℚ) : Int :=
  ⌊round32 (round32 (round32 (x + 1) * (1 / 2)) * round32 (gridSize : ℚ))⌋

/-- The cell index of a particle, `gridIndex = cx + cy * gridSize`, with the
cell coordinates computed in `float` arithmetic. -/
def gridIndexOf32 (gridSize : Int) (p : Particle ℚ) : Int :=
  cellCoord32 gridSize p.x + cellCoord32 gridSize p.y * gridSize

/-- The loop "count particles in cells" of `update`, the cell index computed in
`float` arithmetic. -/
def countCells32 (n : Int) (particles : Arr (Particle ℚ)) (gridSize : Int)
    (grid : Arr Int) : Arr Int :=
  (intRange 0 n).foldl
    (fun g i =>
      let gridIndex := gridIndexOf32 gridSize (particles.get i)
      g.set gridIndex (g.get gridIndex + 1))
    grid

/-- The loop "pointers to cell index" of `update`, the cell index computed in
`float` arithmetic. -/
def scatter32 (n : Int) (particles : Arr (Particle ℚ)) (gridSize : Int)
    (st : Arr Int × Arr Int) : Arr Int × Arr Int :=
  (intRange 0 n).foldl
    (fun st i =>
      let gridIndex := gridIndexOf32 gridSize (particles.get i)
      let particleIndex := st.1.get gridIndex
      (st.1.set gridIndex (st.1.get gridIndex + 1), st.2.set particleIndex i))
    st

/-- The grid build phase of `update` (lines "clear grid" to `grid[0] = 0`), the
cell indices computed in `float` arithmetic. -/
def buildGrid32 (n : Int) (particles : Arr (Particle ℚ)) (gridSize : Int)
    (grid gridMap : Arr Int) : Arr Int × Arr Int :=
  let grid1 := clearGrid gridSize grid
  let grid2 := countCells32 n particles gridSize grid1
  let grid3 := (cumsum gridSize grid2).1
  let st := scatter32 n particles gridSize (grid3, gridMap)
  (undoGrid gridSize st.1, st.2)

/-- The body of the loop "positions" of `update` in `float` arithmetic:
`particle->x = boundary(particle->x + particle->vx * system->dt)` and the same
for `y`, the product and the sum each rounded to `float`; `none` when a loop
of `boundary` has not ended within `fuel` rounds. -/
def positionStep32 (fuel : Nat) (dt : ℚ) (particles : Arr (Particle ℚ)) (i : Int) :
    Option (Arr (Particle ℚ)) :=
  let particle := particles.get i
  (boundary32 fuel (round32 (particle.x + round32 (particle.vx * dt)))).bind (fun x =>
    (boundary32 fuel (round32 (particle.y + round32 (particle.vy * dt)))).bind (fun y =>
      some (particles.set i { particle with x := x, y := y })))

/-- The loop "positions" of `update` in `float` arithmetic; `none` when the
loop does not get past some particle. -/
def positions32 (fuel : Nat) (n : Int) (dt : ℚ) (particles : Arr (Particle ℚ)) :
    Option (Arr (Particle ℚ)) :=
  (intRange 0 n).foldl (fun acc i => acc.bind (fun ps => positionStep32 fuel dt ps i))
    (some particles)

/-- The function `update` of main.c with `float` rounding in the grid size, in
the cell indices of the build phase and in the position pass, the three
places where rounding changes which cell a particle is filed in or whether
`boundary` returns.  The velocity pass is the one of `update`, in exact
arithmetic.  The result is `none` when a loop of `boundary` has not ended
within `fuel` rounds. -/
def update32 (fuel : Nat) (pow : ℚ → ℚ → ℚ) (sqrtf : ℚ → ℚ) (s : ParticleSystem ℚ) :
    Option (ParticleSystem ℚ) :=
  let frictionFactor := pow (1 / 2) (s.dt / s.frictionHalfLife)
  let gridSize : Int := ⌊round32 (2 / s.rMax)⌋
  let s := if gridSize ≠ s.gridSize then { s with gridSize := gridSize } else s
  if gridSize < 3 then some s
  else
    let built := buildGrid32 s.n s.particles gridSize s.grid s.gridMap
    let grid := built.1
    let gridMap := built.2
    let particles := velocities sqrtf s.rMax s.forceFactor s.dt frictionFactor s.m
      s.matrix gridSize grid gridMap s.particles
    (positions32 fuel s.n s.dt particles).map
      (fun particles => { s with grid := grid, gridMap := gridMap, particles := particles })

end Binary32

section FloatInputs

/-- The largest `float` below 1: 0.99999994f, that is 1 - 2^-24. -/
def belowOne : ℚ := 16777215 / 16777216

/-- Two particles at rest at the periodic distance 5/16, with rMax = 0.5 (a
grid of 4 x 4 cells): particle 0 at (0.81249994f, -0.25f) and particle 1 at
(0.99999994f, 0); one type, matrix[0][0] = 1, dt = 1/64.  Every number is a
`float`. -/
def misfiledPair : ParticleSystem ℚ :=
  { rMax := 1 / 2, frictionHalfLife := 1 / 32, forceFactor := 10, dt := 1 / 64, n := 2,
    particles := ⟨fun i =>
      if i = 0 then ⟨0, belowOne - 3 / 16, -1 / 4, 0, 0⟩ else ⟨0, belowOne, 0, 0, 0⟩⟩,
    gridSize := 4, grid := ⟨fun _ => 0⟩, gridMap := ⟨fun _ => 0⟩, m := 1,
    matrix := ⟨fun _ => 1⟩ }

/-- The grid and the gridMap that the build phase of `update` yields for
`misfiledPair` in `float` arithmetic. -/
def misfiledGrid : Arr Int × Arr Int :=
  buildGrid32 misfiledPair.n misfiledPair.particles 4 misfiledPair.grid misfiledPair.gridMap

/-- Two particles whose exact cell indices are the cell indices that `float`
arithmetic gives the particles of `misfiledPair`: 7 and 12. -/
def pairFiled : Arr (Particle ℚ) :=
  ⟨fun i => if i = 0 then ⟨0, belowOne - 3 / 16, -1 / 4, 0, 0⟩ else ⟨0, -7 / 8, 5 / 8, 0, 0⟩⟩

/-- A single particle at (0.99999994f, 0.75f) with the velocity (0, 1), with
rMax = 0.5 (a grid of 4 x 4 cells) and dt = 1/64.  Every number is a `float`. -/
def edgeParticle : ParticleSystem ℚ :=
  { rMax := 1 / 2, frictionHalfLife := 1 / 32, forceFactor := 10, dt := 1 / 64, n := 1,
    particles := ⟨fun _ => ⟨0, belowOne, 3 / 4, 0, 1⟩⟩,
    gridSize := 4, grid := ⟨fun _ => 0⟩, gridMap := ⟨fun _ => 0⟩, m := 1,
    matrix := ⟨fun _ => 1⟩ }

/-- A particle whose exact cell index is the cell index 16 that `float`
arithmetic gives the particle of `edgeParticle`. -/
def edgeFiled : Arr (Particle ℚ) := ⟨fun _ => ⟨0, 9 / 8, 3 / 4, 0, 1⟩⟩

/-- A single particle at (0, 0) with the velocity (1e10f, 0), with rMax = 0.5
and dt = frictionHalfLife = 0.02f (the `float` 5368709 / 2^28). -/
def fastParticle : ParticleSystem ℚ :=
  { rMax := 1 / 2, frictionHalfLife := 5368709 / 268435456, forceFactor := 10,
    dt := 5368709 / 268435456, n := 1,
    particles := ⟨fun _ => ⟨0, 0, 0, 10000000000, 0⟩⟩,
    gridSize := 4, grid := ⟨fun _ => 0⟩, gridMap := ⟨fun _ => 0⟩, m := 1,
    matrix := ⟨fun _ => 1⟩ }

end FloatInputs

/-! ## Theorems -/

section KernelFacts

variable {K : Type} [LinearOrderedField K] [FloorRing K]

theorem wrapSpec_of_mem (x : K) (h1 : -1 ≤ x) (h2 : x < 1) : wrapSpec x = x := by
  have h : ⌊(x + 1) / 2⌋ = 0 := by
    rw [Int.floor_eq_iff]
    constructor
    · simp only [Int.cast_zero]; apply div_nonneg <;> linarith
    · simp only [Int.cast_zero, zero_add]; rw [div_lt_one (by norm_num)]; linarith
  simp [wrapSpec, h]

theorem wrapSpec_add_two (x : K) : wrapSpec (x + 2) = wrapSpec x := by
  have h : ⌊(x + 2 + 1) / 2⌋ = ⌊(x + 1) / 2⌋ + 1 := by
    rw [show (x + 2 + 1) / 2 = (x + 1) / 2 + ((1 : ℤ) : K) by push_cast; ring]
    exact Int.floor_add_int _ _
  simp only [wrapSpec, h]
  push_cast
  ring

theorem wrapSpec_sub_two (x : K) : wrapSpec (x - 2) = wrapSpec x := by
  have := wrapSpec_add_two (x - 2)
  rw [sub_add_cancel] at this
  exact this.symm

theorem wrapSpec_mem (x : K) : -1 ≤ wrapSpec x ∧ wrapSpec x < 1 := by
  have h1 := Int.floor_le ((x + 1) / 2)
  have h2 := Int.lt_floor_add_one ((x + 1) / 2)
  rw [le_div_iff₀ (by norm_num : (0 : K) < 2)] at h1
  rw [div_lt_iff₀ (by norm_num : (0 : K) < 2)] at h2
  unfold wrapSpec
  constructor <;> linarith

theorem boundaryUp_eq (x : K) (hx : x < -1) : boundaryUp x = wrapSpec x := by
  induction x using boundaryUp.induct with
  | case1 x h ih =>
    rw [boundaryUp, if_pos h, ih h, wrapSpec_add_two]
  | case2 x h =>
    rw [boundaryUp, if_neg h, ← wrapSpec_add_two, wrapSpec_of_mem]
    · linarith
    · linarith

theorem boundaryDown_eq (x : K) (hx : 1 ≤ x) : boundaryDown x = wrapSpec x := by
  induction x using boundaryDown.induct with
  | case1 x h ih =>
    rw [boundaryDown, if_pos h, ih h, wrapSpec_sub_two]
  | case2 x h =>
    rw [boundaryDown, if_neg h, ← wrapSpec_sub_two, wrapSpec_of_mem]
    · linarith
    · linarith

theorem boundary_eq_wrapSpec (x : K) : boundary x = wrapSpec x := by
  unfold boundary
  split_ifs with h1 h2
  · exact boundaryUp_eq x h1
  · exact boundaryDown_eq x h2
  · exact (wrapSpec_of_mem x (not_lt.mp h1) (not_le.mp h2)).symm

end KernelFacts

section Basics

@[simp] theorem Arr.get_set {α : Type} (a : Arr α) (i : Int) (v : α) (j : Int) :
    (a.set i v).get j = if j = i then v else a.get j := by
  simp [Arr.set, Function.update_apply]

theorem Arr.ext_get {α : Type} {a b : Arr α} (h : ∀ i, a.get i = b.get i) : a = b := by
  cases a; cases b
  congr
  funext i
  exact h i

theorem mem_intRange {lo hi i : Int} : i ∈ intRange lo hi ↔ lo ≤ i ∧ i < hi := by
  unfold intRange
  simp only [List.mem_map, List.mem_range]
  constructor
  · rintro ⟨k, hk, rfl⟩
    omega
  · rintro ⟨h1, h2⟩
    exact ⟨(i - lo).toNat, by omega, by omega⟩

theorem intRange_of_le {lo hi : Int} (h : hi ≤ lo) : intRange lo hi = [] := by
  unfold intRange
  rw [show (hi - lo).toNat = 0 by omega]
  rfl

theorem intRange_succ {lo hi : Int} (h : lo ≤ hi) :
    intRange lo (hi + 1) = intRange lo hi ++ [hi] := by
  unfold intRange
  rw [show (hi + 1 - lo).toNat = (hi - lo).toNat + 1 by omega, List.range_succ, List.map_append]
  simp only [List.map_cons, List.map_nil, List.append_cancel_left_eq, List.cons.injEq, and_true]
  omega

theorem intRange_cons {lo hi : Int} (h : lo < hi) :
    intRange lo hi = lo :: intRange (lo + 1) hi := by
  unfold intRange
  rw [show (hi - lo).toNat = (hi - (lo + 1)).toNat + 1 by omega, List.range_succ_eq_map]
  simp only [List.map_cons, List.map_map, Nat.cast_zero, add_zero, List.cons.injEq, true_and]
  apply List.map_congr_left
  intro k _
  simp only [Function.comp_apply, Nat.cast_succ]
  omega

theorem intRange_nodup (lo hi : Int) : (intRange lo hi).Nodup := by
  unfold intRange
  apply List.Nodup.map _ (List.nodup_range _)
  intro a b h
  simpa using h

theorem intRange_zero_four : intRange 0 4 = [0, 1, 2, 3] := by
  rw [intRange_cons (by norm_num), intRange_cons (by norm_num), intRange_cons (by norm_num),
    intRange_cons (by norm_num), intRange_of_le (by norm_num)]
  rfl

theorem intRange_neg_one_two : intRange (-1) 2 = [-1, 0, 1] := by
  rw [intRange_cons (by norm_num), intRange_cons (by norm_num), intRange_cons (by norm_num),
    intRange_of_le (by norm_num)]
  rfl

end Basics

section MatrixFacts

variable {K : Type} [LinearOrderedField K]

/-- What "snakes" stores when m = 4: 1/2 at `[(j+1) % 4][j]`, 1 on the diagonal
and 0 elsewhere. -/
theorem snakes_entries (rnd : Nat → K) (s : ParticleSystem K) (c : Nat) (hm : s.m = 4)
    (i j : Int) (hi0 : 0 ≤ i) (hi4 : i < 4) (hj0 : 0 ≤ j) (hj4 : j < 4) :
    (randomizeMatrix rnd s 2 c).1.matrix.get (i * 4 + j) =
      if i = (j + 1) % 4 then 1 / 2 else if i = j then 1 else 0 := by
  have hmode : ¬ ((2 : Int) < 1 ∨ (2 : Int) > NUM_MATRIX_MODES) := by
    unfold NUM_MATRIX_MODES; omega
  unfold randomizeMatrix
  rw [if_neg hmode, if_neg (by norm_num), if_pos rfl]
  simp only [hm, intRange_zero_four, List.foldl_cons, List.foldl_nil, snakesEntry, Arr.get_set]
  interval_cases i <;> interval_cases j <;> simp [Int.tmod]

end MatrixFacts

section KernelClaims

variable {K : Type} [LinearOrderedField K] [FloorRing K]

theorem wrapSpec_congr (x : K) : ∃ k : ℤ, x - wrapSpec x = 2 * (k : K) :=
  ⟨⌊(x + 1) / 2⌋, by unfold wrapSpec; ring⟩

theorem wrapSpec_unique (x y : K) (h1 : -1 ≤ y) (h2 : y < 1)
    (h : ∃ k : ℤ, x - y = 2 * (k : K)) : y = wrapSpec x := by
  obtain ⟨k, hk⟩ := h
  obtain ⟨k', hk'⟩ := wrapSpec_congr x
  obtain ⟨hw1, hw2⟩ := wrapSpec_mem x
  have e : y - wrapSpec x = 2 * (((k' - k : ℤ)) : K) := by push_cast; linarith
  have hlt : ((k' - k : ℤ) : K) < ((1 : ℤ) : K) := by push_cast; push_cast at e; linarith
  have hgt : (((-1 : ℤ)) : K) < ((k' - k : ℤ) : K) := by push_cast; push_cast at e; linarith
  have a1 : k' - k < 1 := Int.cast_lt.mp hlt
  have a2 : -1 < k' - k := Int.cast_lt.mp hgt
  have a3 : k' - k = 0 := by omega
  rw [a3] at e
  simp at e
  linarith

theorem wrapSpec_odd (d : K) (k : ℤ) (h : d = 2 * (k : K) + 1) : wrapSpec d = -1 := by
  have hf : ⌊(d + 1) / 2⌋ = k + 1 := by
    rw [h, show (2 * (k : K) + 1 + 1) / 2 = ((k + 1 : ℤ) : K) by push_cast; ring]
    exact Int.floor_intCast _
  unfold wrapSpec
  rw [hf, h]
  push_cast
  ring

/-- In exact arithmetic, for every x, `boundary x` is defined (both loops
terminate) and is the unique representative of x modulo 2 in [-1, 1), namely
`((x+1) mod 2) - 1` with the non-negative mod; so it lies in [-1, 1) and
`boundary` is idempotent. -/
theorem boundary_is_wrap (x : K) :
    boundary x = wrapSpec x ∧
    (-1 ≤ boundary x ∧ boundary x < 1) ∧
    (∃ k : ℤ, x - boundary x = 2 * (k : K)) ∧
    (∀ y : K, -1 ≤ y → y < 1 → (∃ k : ℤ, x - y = 2 * (k : K)) → y = boundary x) ∧
    boundary (boundary x) = boundary x := by
  refine ⟨boundary_eq_wrapSpec x, ?_, ?_, ?_, ?_⟩
  · rw [boundary_eq_wrapSpec]; exact wrapSpec_mem x
  · rw [boundary_eq_wrapSpec]; exact wrapSpec_congr x
  · intro y h1 h2 h
    rw [boundary_eq_wrapSpec]; exact wrapSpec_unique x y h1 h2 h
  · rw [boundary_eq_wrapSpec (boundary x), boundary_eq_wrapSpec x]
    exact wrapSpec_of_mem _ (wrapSpec_mem x).1 (wrapSpec_mem x).2

/-- C6: periodic displacement symmetry: `boundary (b - a) = -boundary (a - b)`
unless `b - a` is an odd integer, and in that exceptional case both
`boundary (b - a)` and `boundary (a - b)` are the boundary representative -1. -/
theorem boundary_displacement_symmetry (a b : K) :
    ((¬ ∃ k : ℤ, b - a = 2 * (k : K) + 1) → boundary (b - a) = -boundary (a - b)) ∧
    ((∃ k : ℤ, b - a = 2 * (k : K) + 1) →
      boundary (b - a) = -1 ∧ boundary (a - b) = -1) := by
  simp only [boundary_eq_wrapSpec]
  constructor
  · intro hodd
    obtain ⟨k, hk⟩ := wrapSpec_congr (a - b)
    obtain ⟨h1, h2⟩ := wrapSpec_mem (a - b)
    have hne : wrapSpec (a - b) ≠ -1 := by
      intro e
      apply hodd
      refine ⟨-k, ?_⟩
      rw [e] at hk
      push_cast
      linarith
    have hlt : -1 < wrapSpec (a - b) := lt_of_le_of_ne h1 (Ne.symm hne)
    symm
    apply wrapSpec_unique
    · linarith
    · linarith
    · exact ⟨-k, by push_cast; linarith⟩
  · rintro ⟨k, hk⟩
    refine ⟨wrapSpec_odd _ k hk, wrapSpec_odd _ (-k - 1) ?_⟩
    push_cast
    linarith

end KernelClaims

section ForceClaims

variable {K : Type} [LinearOrderedField K]

/-- C7: on `0 ≤ r < beta` (beta = 0.3) the force is the repulsive ramp
`r / beta - 1`: it is independent of the coefficient, strictly negative, equal
to -1 at r = 0, and strictly increasing in r on the interval. -/
theorem force_repulsion_zone (r a : K) (_hr0 : 0 ≤ r) (hb : r < beta) :
    force r a = r / beta - 1 ∧
    (∀ a' : K, force r a' = force r a) ∧
    force r a < 0 ∧
    force (0 : K) a = -1 ∧
    (∀ r' : K, r < r' → r' < beta → force r a < force r' a) := by
  have hbeta : (0 : K) < beta := by unfold beta; norm_num
  have hf : ∀ (s b : K), s < beta → force s b = s / beta - 1 := by
    intro s b hs
    unfold force
    rw [if_pos hs]
  refine ⟨hf r a hb, ?_, ?_, ?_, ?_⟩
  · intro a'
    rw [hf r a hb, hf r a' hb]
  · rw [hf r a hb, sub_neg, div_lt_one hbeta]
    exact hb
  · rw [hf 0 a hbeta]
    simp
  · intro r' hr hr'
    rw [hf r a hb, hf r' a hr']
    have := div_lt_div_of_pos_right hr hbeta
    linarith

/-- Witness for C7 at r = 1/10, a = 1 over the rationals. -/
theorem force_repulsion_zone_witness :
    force (1 / 10 : ℚ) 1 = (1 / 10) / beta - 1 ∧
    (∀ a' : ℚ, force (1 / 10 : ℚ) a' = force (1 / 10 : ℚ) 1) ∧
    force (1 / 10 : ℚ) 1 < 0 ∧
    force (0 : ℚ) 1 = -1 ∧
    (∀ r' : ℚ, 1 / 10 < r' → r' < beta → force (1 / 10 : ℚ) 1 < force r' 1) :=
  force_repulsion_zone (1 / 10 : ℚ) 1 (by norm_num) (by unfold beta; norm_num)

/-- C8: on `beta ≤ r < 1` the force is the tent
`a * (1 - |2r - 1 - beta| / (1 - beta))`, which is `a` at `r = (1 + beta) / 2`
and 0 at `r = beta`; for every `r ≥ 1` (in particular r = 1) the force is 0. -/
theorem force_tent_zone (a : K) :
    (∀ r : K, beta ≤ r → r < 1 →
      force r a = a * (1 - |2 * r - 1 - beta| / (1 - beta))) ∧
    force ((1 + beta) / 2) a = a ∧
    force beta a = 0 ∧
    (∀ r : K, 1 ≤ r → force r a = 0) ∧
    force 1 a = 0 := by
  have hb1 : (beta : K) < 1 := by unfold beta; norm_num
  have hb0 : (0 : K) < 1 - beta := by linarith
  have tent : ∀ r : K, beta ≤ r → r < 1 →
      force r a = a * (1 - |2 * r - 1 - beta| / (1 - beta)) := by
    intro r h1 h2
    unfold force
    rw [if_neg (not_lt.mpr h1)]
    rcases eq_or_lt_of_le h1 with h | h
    · rw [if_neg (by rw [h]; simp), ← h]
      have e : |2 * beta - 1 - beta| = 1 - (beta : K) := by
        rw [show 2 * beta - 1 - beta = -(1 - (beta : K)) by ring, abs_neg, abs_of_pos hb0]
      rw [e, div_self (ne_of_gt hb0)]
      simp
    · rw [if_pos ⟨h, h2⟩]
  have ge1 : ∀ r : K, 1 ≤ r → force r a = 0 := by
    intro r h
    unfold force
    rw [if_neg (not_lt.mpr (le_trans hb1.le h)), if_neg (fun hc => absurd hc.2 (not_lt.mpr h))]
  refine ⟨tent, ?_, ?_, ge1, ge1 1 le_rfl⟩
  · rw [tent _ (by linarith) (by linarith)]
    rw [show 2 * ((1 + beta) / 2) - 1 - (beta : K) = 0 by ring]
    simp
  · rw [tent _ le_rfl hb1]
    have e : |2 * beta - 1 - beta| = 1 - (beta : K) := by
      rw [show 2 * beta - 1 - beta = -(1 - (beta : K)) by ring, abs_neg, abs_of_pos hb0]
    rw [e, div_self (ne_of_gt hb0)]
    simp

end ForceClaims

section MatrixClaims

variable {K : Type} [LinearOrderedField K]

/-- C1 (amended): "snakes" (mode 2) on a system with m = 4 stores, for all i, j
in 0..3, `matrix[i*4 + j] = 1` when `i = j`, `1/2` when `i = (j + 1) % 4` (the
row is the cyclic successor of the column, that is `matrix[i][(i+3) % 4]`), and
0 everywhere else. -/
theorem randomizeMatrix_snakes_m4 (rnd : Nat → K) (s : ParticleSystem K) (c : Nat)
    (hm : s.m = 4) (i j : Int) (hi0 : 0 ≤ i) (hi4 : i < 4) (hj0 : 0 ≤ j) (hj4 : j < 4) :
    (randomizeMatrix rnd s 2 c).1.matrix.get (i * 4 + j) =
      if i = j then 1 else if i = (j + 1) % 4 then 1 / 2 else 0 := by
  rw [snakes_entries rnd s c hm i j hi0 hi4 hj0 hj4]
  by_cases h : i = j
  · have : ¬ i = (j + 1) % 4 := by omega
    rw [if_neg this, if_pos h, if_pos h]
  · rw [if_neg h, if_neg h]

/-- Witness for C1: the entry `[1][0]` of the demo system after "snakes". -/
theorem randomizeMatrix_snakes_m4_witness :
    (randomizeMatrix (fun _ => (0 : ℚ)) demoSystem 2 0).1.matrix.get (1 * 4 + 0) =
      if (1 : Int) = 0 then 1 else if (1 : Int) = (0 + 1) % 4 then 1 / 2 else 0 :=
  randomizeMatrix_snakes_m4 (fun _ => (0 : ℚ)) demoSystem 0 rfl 1 0
    (by decide) (by decide) (by decide) (by decide)

/-- C1 as stated fails: on the demo system (m = 4) "snakes" does not store 1/2
at `[i][(i+1) % 4]`; the entry `[0][1]` is 0. -/
theorem randomizeMatrix_snakes_next_counterexample :
    ¬ ∀ i j : Int, 0 ≤ i → i < 4 → 0 ≤ j → j < 4 →
      (randomizeMatrix (fun _ => (0 : ℚ)) demoSystem 2 0).1.matrix.get (i * 4 + j) =
        if i = j then 1 else if j = (i + 1) % 4 then 1 / 2 else 0 := by
  intro h
  have h01 := h 0 1 (by decide) (by decide) (by decide) (by decide)
  rw [snakes_entries (fun _ => (0 : ℚ)) demoSystem 0 rfl 0 1
    (by decide) (by decide) (by decide) (by decide)] at h01
  norm_num at h01

end MatrixClaims

section UpdateReject

variable {K : Type} [LinearOrderedField K] [FloorRing K]

theorem update_of_small_grid (pow : K → K → K) (sqrtf : K → K) (s : ParticleSystem K)
    (h : ⌊2 / s.rMax⌋ < 3) :
    update pow sqrtf s = { s with gridSize := ⌊2 / s.rMax⌋ } := by
  unfold update
  simp only [ne_eq, ite_not, if_pos h]
  split_ifs with h1
  · rw [h1]
  · rfl

/-- C3 (amended): when the derived gridSize = floor(2 / rMax) is below 3,
`update` returns without touching the particles (positions, velocities,
types), the matrix, the parameters or gridMap; the
stored `gridSize` is set to the derived value, so the whole state is unchanged
exactly when the stored gridSize already had that value. -/
theorem update_rejects_small_grid (pow : K → K → K) (sqrtf : K → K) (s : ParticleSystem K)
    (h : ⌊2 / s.rMax⌋ < 3) :
    (update pow sqrtf s).particles = s.particles ∧
    (update pow sqrtf s).matrix = s.matrix ∧
    (update pow sqrtf s).n = s.n ∧ (update pow sqrtf s).m = s.m ∧
    (update pow sqrtf s).rMax = s.rMax ∧
    (update pow sqrtf s).frictionHalfLife = s.frictionHalfLife ∧
    (update pow sqrtf s).forceFactor = s.forceFactor ∧
    (update pow sqrtf s).dt = s.dt ∧
    (update pow sqrtf s).gridMap = s.gridMap ∧
    (update pow sqrtf s).gridSize = ⌊2 / s.rMax⌋ ∧
    (update pow sqrtf s = s ↔ s.gridSize = ⌊2 / s.rMax⌋) := by
  rw [update_of_small_grid pow sqrtf s h]
  refine ⟨rfl, rfl, rfl, rfl, rfl, rfl, rfl, rfl, rfl, rfl, ?_⟩
  constructor
  · intro e
    have := congrArg ParticleSystem.gridSize e
    exact this.symm
  · intro e
    rw [← e]

theorem wideRadius_gridSize : ⌊2 / wideRadiusSystem.rMax⌋ = 2 := by
  show ⌊(2 : ℚ) / 1⌋ = 2
  rw [Int.floor_eq_iff]
  norm_num

/-- Witness for C3 at the system whose radius was widened to 1. -/
theorem update_rejects_small_grid_witness :
    (update (fun _ _ => (1 / 2 : ℚ)) id wideRadiusSystem).particles =
      wideRadiusSystem.particles ∧
    (update (fun _ _ => (1 / 2 : ℚ)) id wideRadiusSystem).gridSize =
      ⌊2 / wideRadiusSystem.rMax⌋ :=
  have h := update_rejects_small_grid (fun _ _ => (1 / 2 : ℚ)) id wideRadiusSystem
    (by rw [wideRadius_gridSize]; decide)
  ⟨h.1, h.2.2.2.2.2.2.2.2.2.1⟩

/-- C3 as stated fails: with rMax = 1 the derived gridSize is 2 < 3, and the call
changes the stored gridSize from 4 to 2. -/
theorem update_small_grid_counterexample :
    ⌊2 / wideRadiusSystem.rMax⌋ < 3 ∧
    wideRadiusSystem.gridSize = 4 ∧
    (update (fun _ _ => (1 / 2 : ℚ)) id wideRadiusSystem).gridSize = 2 ∧
    update (fun _ _ => (1 / 2 : ℚ)) id wideRadiusSystem ≠ wideRadiusSystem := by
  have h : ⌊2 / wideRadiusSystem.rMax⌋ < 3 := by rw [wideRadius_gridSize]; decide
  refine ⟨h, rfl, ?_, ?_⟩
  · rw [update_of_small_grid _ _ _ h]
    exact wideRadius_gridSize
  · intro e
    have e2 := congrArg ParticleSystem.gridSize e
    rw [update_of_small_grid _ _ _ h] at e2
    have e3 : ⌊2 / wideRadiusSystem.rMax⌋ = 4 := e2
    rw [wideRadius_gridSize] at e3
    exact absurd e3 (by decide)

end UpdateReject

section RasterColumn

variable {K : Type} [LinearOrderedField K] [FloorRing K]

theorem heightCw_eq (h : Int) : heightCw (K := K) h = 2 * h := by
  unfold heightCw truncToInt CHAR_RATIO
  have e : (h : K) * 2 = ((2 * h : Int) : K) := by push_cast; ring
  rw [e]
  split_ifs
  · exact Int.floor_intCast _
  · exact Int.ceil_intCast _

theorem rasterX_eq (w h : Int) (zoom shiftX : K) (p : Particle K) :
    rasterX w h zoom shiftX p =
      ⌊(p.x + shiftX) * zoom * ((h : K) * 2) / 2⌋ + Int.tdiv w 2 := by
  unfold rasterX
  simp only [heightCw_eq]
  rw [Int.floor_add_int]
  congr 2
  push_cast
  ring

/-- C10 (amended): the column that `renderDensity` uses for a particle is
`floor((pos.x + shiftX) * zoom * effectiveHeight / 2 + (w / 2))` with
effectiveHeight = 2 * height and `w / 2` the integer quotient of the C `int`
division (rounded toward zero): the exact half only for an even width, and
(w - 1) / 2 for an odd positive width (40 for width 81). -/
theorem rasterX_integer_half (w h : Int) (zoom shiftX : K) (p : Particle K) :
    rasterX w h zoom shiftX p =
      ⌊(p.x + shiftX) * zoom * ((h : K) * 2) / 2 + ((Int.tdiv w 2 : Int) : K)⌋ ∧
    (w % 2 = 0 →
      rasterX w h zoom shiftX p =
        ⌊(p.x + shiftX) * zoom * ((h : K) * 2) / 2 + (w : K) / 2⌋) ∧
    (0 ≤ w → w % 2 = 1 →
      rasterX w h zoom shiftX p =
        ⌊(p.x + shiftX) * zoom * ((h : K) * 2) / 2 + ((w : K) - 1) / 2⌋) := by
  refine ⟨?_, ?_, ?_⟩
  · rw [rasterX_eq, Int.floor_add_int]
  · intro hw
    rw [rasterX_eq, ← Int.floor_add_int]
    have e : w = 2 * Int.tdiv w 2 := by
      have := Int.tdiv_add_tmod w 2
      have h2 : Int.tmod w 2 = 0 := by
        rcases Int.emod_two_eq_zero_or_one w with h0 | h1
        · exact Int.tmod_eq_zero_of_dvd (Int.dvd_of_emod_eq_zero h0)
        · omega
      omega
    have e2 : (w : K) / 2 = ((Int.tdiv w 2 : Int) : K) := by
      conv_lhs => rw [e]
      push_cast
      ring
    rw [e2]
  · intro hw0 hw
    rw [rasterX_eq, ← Int.floor_add_int]
    have e : w = 2 * Int.tdiv w 2 + 1 := by
      have h1 := Int.tdiv_add_tmod w 2
      have h2 : Int.tmod w 2 = w % 2 := Int.tmod_eq_emod hw0 (by decide)
      omega
    have e2 : ((w : K) - 1) / 2 = ((Int.tdiv w 2 : Int) : K) := by
      conv_lhs => rw [e]
      push_cast
      ring
    rw [e2]

/-- C10 as stated fails for an odd width: for width 81, height 1, zoom 1, no
shift and a particle at x = 1/2 the code computes column 40, while the floor
with the exact half 40.5 is 41. -/
theorem rasterX_exact_half_counterexample :
    rasterX 81 1 (1 : ℚ) 0 ⟨0, 1 / 2, 0, 0, 0⟩ = 40 ∧
    ⌊((1 / 2 : ℚ) + 0) * 1 * (((1 : Int) : ℚ) * 2) / 2 + ((81 : Int) : ℚ) / 2⌋ = 41 := by
  constructor
  · rw [rasterX_eq]
    have : ⌊((1 / 2 : ℚ) + 0) * 1 * (((1 : Int) : ℚ) * 2) / 2⌋ = 0 := by
      rw [Int.floor_eq_iff]
      norm_num
    rw [this]
    decide
  · rw [Int.floor_eq_iff]
    norm_num

end RasterColumn

section IndexArithmetic

/-- A row-major index `a * m + t` with `0 ≤ t < m` determines `a` and `t`. -/
theorem rowMajor_inj {m a a' t t' : Int} (ht : 0 ≤ t) (htm : t < m) (ht' : 0 ≤ t')
    (htm' : t' < m) (h : a * m + t = a' * m + t') : a = a' ∧ t = t' := by
  have hm : 0 ≤ m := by omega
  rcases lt_trichotomy a a' with hlt | heq | hgt
  · exfalso
    have := mul_le_mul_of_nonneg_right (show a + 1 ≤ a' by omega) hm
    nlinarith
  · subst heq
    exact ⟨rfl, by omega⟩
  · exfalso
    have := mul_le_mul_of_nonneg_right (show a' + 1 ≤ a by omega) hm
    nlinarith

theorem rowMajor_lt {m a b t : Int} (ht : 0 ≤ t) (htm : t < m) (hab : a < b) :
    a * m + t < b * m := by
  have hm : 0 ≤ m := by omega
  have := mul_le_mul_of_nonneg_right (show a + 1 ≤ b by omega) hm
  nlinarith

theorem rowMajor_nonneg {m a t : Int} (ht : 0 ≤ t) (hm : 0 ≤ m) (ha : 0 ≤ a) :
    0 ≤ a * m + t := by
  have := mul_nonneg ha hm
  omega

end IndexArithmetic

section ListSums

theorem sum_map_indicator {α : Type} [DecidableEq α] (L : List α) (hL : L.Nodup) (a : α) (P : Prop)
    [Decidable P] :
    (L.map (fun idx => if P ∧ a = idx then (1 : Int) else 0)).sum =
      if P ∧ a ∈ L then 1 else 0 := by
  induction L with
  | nil => simp
  | cons b L ih =>
    rw [List.nodup_cons] at hL
    rw [List.map_cons, List.sum_cons, ih hL.2]
    by_cases hP : P
    · by_cases hab : a = b
      · subst hab
        simp [hP, hL.1]
      · by_cases haL : a ∈ L
        · simp [hP, hab, haL]
        · simp [hP, hab, haL]
    · simp [hP]

theorem sum_countP_fiber {α β : Type} [DecidableEq β] (l : List α) (L : List β) (hL : L.Nodup)
    (P : α → Prop) [DecidablePred P] (f : α → β) :
    (L.map (fun idx => ((l.countP (fun i => P i ∧ f i = idx) : Nat) : Int))).sum =
      ((l.countP (fun i => P i ∧ f i ∈ L) : Nat) : Int) := by
  induction l with
  | nil => simp
  | cons a l ih =>
    simp only [List.countP_cons, Nat.cast_add, List.sum_map_add, ih]
    congr 1
    have := sum_map_indicator L hL (f a) (P a)
    simp only [decide_eq_true_eq, Nat.cast_ite, Nat.cast_one, Nat.cast_zero]
    exact this

end ListSums

section RenderFacts

variable {K : Type} [LinearOrderedField K] [FloorRing K]

theorem renderStep_get (w h : Int) (s : ParticleSystem K) (zoom shiftX shiftY : K)
    (g : Arr Int) (i idx : Int) :
    (renderStep w h s zoom shiftX shiftY g i).get idx =
      g.get idx + (if inRaster w h s zoom shiftX shiftY i ∧
        rasterIndex w h s zoom shiftX shiftY i = idx then 1 else 0) := by
  unfold renderStep inRaster rasterIndex
  simp only
  split_ifs with h1 h2 h3
  · rw [Arr.get_set, if_pos h2.2.symm, h2.2]
  · rw [Arr.get_set, if_neg (fun e => h2 ⟨h1, e.symm⟩)]
    simp
  · exact absurd h3.1 h1
  · simp

theorem render_fold_get (w h : Int) (s : ParticleSystem K) (zoom shiftX shiftY : K)
    (l : List Int) (g : Arr Int) (idx : Int) :
    (l.foldl (renderStep w h s zoom shiftX shiftY) g).get idx =
      g.get idx + ((l.countP (fun i => inRaster w h s zoom shiftX shiftY i ∧
        rasterIndex w h s zoom shiftX shiftY i = idx) : Nat) : Int) := by
  induction l generalizing g with
  | nil => simp
  | cons a l ih =>
    rw [List.foldl_cons, ih, renderStep_get, List.countP_cons]
    simp only [decide_eq_true_eq, Nat.cast_add, Nat.cast_ite, Nat.cast_one, Nat.cast_zero]
    ring

end RenderFacts

section RenderClaims

variable {K : Type} [LinearOrderedField K] [FloorRing K]

theorem rasterIndex_mem (w h : Int) (s : ParticleSystem K) (zoom shiftX shiftY : K) (i : Int)
    (hin : inRaster w h s zoom shiftX shiftY i)
    (ht : 0 ≤ (s.particles.get i).type ∧ (s.particles.get i).type < s.m) :
    rasterIndex w h s zoom shiftX shiftY i ∈ intRange 0 (w * h * s.m) := by
  obtain ⟨hx0, hxw, hy0, hyh⟩ := hin
  rw [mem_intRange]
  unfold rasterIndex
  set X := rasterX w h zoom shiftX (s.particles.get i)
  set Y := rasterY h zoom shiftY (s.particles.get i)
  set T := (s.particles.get i).type
  have hw : 0 ≤ w := by omega
  have hm : 0 ≤ s.m := by omega
  have e : Y * w * s.m + X * s.m + T = (Y * w + X) * s.m + T := by ring
  have hYw : 0 ≤ Y * w := mul_nonneg hy0 hw
  have h1 : Y * w + X < h * w := by
    have := mul_le_mul_of_nonneg_right (show Y + 1 ≤ h by omega) hw
    nlinarith
  rw [e]
  constructor
  · exact rowMajor_nonneg ht.1 hm (by omega)
  · have := rowMajor_lt ht.1 ht.2 h1
    rw [show w * h * s.m = h * w * s.m by ring]
    exact this

/-- C9: `renderDensity` computes the per-cell, per-type histogram of the
projected particles (types in `[0, m)`): for every raster cell `(x, y)` and
type `t` the counter `grid[y*w*m + x*m + t]` ends as its cleared (0) or previous
value plus the number of particles of type `t` whose projected cell is
`(x, y)`; in clear mode the counters sum to the number of particles projecting
inside the raster, which is at most `n`; and any counter at all changes only by
the number of particles that project inside the raster onto its index, so a
particle projecting outside changes no count. -/
theorem renderDensity_histogram (grid : Arr Int) (w h : Int) (s : ParticleSystem K)
    (zoom shiftX shiftY : K) (clear : Bool) (hn : 0 ≤ s.n)
    (htype : ∀ i, 0 ≤ i → i < s.n →
      0 ≤ (s.particles.get i).type ∧ (s.particles.get i).type < s.m) :
    (∀ x y t : Int, 0 ≤ x → x < w → 0 ≤ y → y < h → 0 ≤ t → t < s.m →
      (renderDensity grid w h s zoom shiftX shiftY clear).get (y * w * s.m + x * s.m + t) =
        (if clear then 0 else grid.get (y * w * s.m + x * s.m + t)) +
        (((intRange 0 s.n).countP (fun i =>
          (s.particles.get i).type = t ∧
          rasterX w h zoom shiftX (s.particles.get i) = x ∧
          rasterY h zoom shiftY (s.particles.get i) = y) : Nat) : Int)) ∧
    (clear = true →
      ((intRange 0 (w * h * s.m)).map
        (renderDensity grid w h s zoom shiftX shiftY clear).get).sum =
        (((intRange 0 s.n).countP (fun i => inRaster w h s zoom shiftX shiftY i) : Nat) : Int) ∧
      (((intRange 0 s.n).countP (fun i => inRaster w h s zoom shiftX shiftY i) : Nat) : Int)
        ≤ s.n) ∧
    (∀ idx : Int,
      (renderDensity grid w h s zoom shiftX shiftY clear).get idx =
        (if clear then memsetZero grid (w * h * s.m) else grid).get idx +
        (((intRange 0 s.n).countP (fun i => inRaster w h s zoom shiftX shiftY i ∧
          rasterIndex w h s zoom shiftX shiftY i = idx) : Nat) : Int)) := by
  refine ⟨?_, ?_, ?_⟩
  · intro x y t hx0 hxw hy0 hyh ht0 htm
    unfold renderDensity
    simp only
    rw [render_fold_get]
    have hidx : y * w * s.m + x * s.m + t ∈ intRange 0 (w * h * s.m) := by
      have hw : 0 ≤ w := by omega
      have hm : 0 ≤ s.m := by omega
      have e : y * w * s.m + x * s.m + t = (y * w + x) * s.m + t := by ring
      have hYw : 0 ≤ y * w := mul_nonneg hy0 hw
      have h1 : y * w + x < h * w := by
        have := mul_le_mul_of_nonneg_right (show y + 1 ≤ h by omega) hw
        nlinarith
      rw [mem_intRange, e]
      constructor
      · exact rowMajor_nonneg ht0 hm (by omega)
      · have := rowMajor_lt ht0 htm h1
        rw [show w * h * s.m = h * w * s.m by ring]
        exact this
    have hbase : (if clear = true then memsetZero grid (w * h * s.m) else grid).get
        (y * w * s.m + x * s.m + t) =
        (if clear = true then 0 else grid.get (y * w * s.m + x * s.m + t)) := by
      split_ifs
      · unfold memsetZero
        simp only
        rw [if_pos (mem_intRange.mp hidx)]
      · rfl
    rw [hbase]
    congr 2
    apply List.countP_congr
    intro i hi
    rw [mem_intRange] at hi
    have hti := htype i hi.1 hi.2
    simp only [decide_eq_true_eq]
    constructor
    · rintro ⟨⟨hx0', hxw', hy0', hyh'⟩, hidx'⟩
      unfold rasterIndex at hidx'
      have e1 : (rasterY h zoom shiftY (s.particles.get i) * w +
          rasterX w h zoom shiftX (s.particles.get i)) * s.m + (s.particles.get i).type =
          (y * w + x) * s.m + t := by
        rw [← show y * w * s.m + x * s.m + t = (y * w + x) * s.m + t by ring, ← hidx']
        ring
      obtain ⟨e2, e3⟩ := rowMajor_inj hti.1 hti.2 ht0 htm e1
      obtain ⟨e4, e5⟩ := rowMajor_inj hx0' hxw' hx0 hxw e2
      exact ⟨e3, e5, e4⟩
    · rintro ⟨e1, e2, e3⟩
      unfold inRaster rasterIndex
      rw [e1, e2, e3]
      exact ⟨⟨hx0, hxw, hy0, hyh⟩, rfl⟩
  · intro hc
    subst hc
    constructor
    · unfold renderDensity
      simp only [if_true]
      have e : (intRange 0 (w * h * s.m)).map
          (List.foldl (renderStep w h s zoom shiftX shiftY)
            (memsetZero grid (w * h * s.m)) (intRange 0 s.n)).get =
          (intRange 0 (w * h * s.m)).map (fun idx =>
            (((intRange 0 s.n).countP (fun i => inRaster w h s zoom shiftX shiftY i ∧
              rasterIndex w h s zoom shiftX shiftY i = idx) : Nat) : Int)) := by
        apply List.map_congr_left
        intro idx hidx
        rw [render_fold_get]
        unfold memsetZero
        simp only
        rw [if_pos (mem_intRange.mp hidx), zero_add]
      rw [e, sum_countP_fiber _ _ (intRange_nodup _ _)]
      congr 1
      apply List.countP_congr
      intro i hi
      rw [mem_intRange] at hi
      simp only [decide_eq_true_eq, and_iff_left_iff_imp]
      intro hin
      exact rasterIndex_mem w h s zoom shiftX shiftY i hin (htype i hi.1 hi.2)
    · have h1 := List.countP_le_length (fun i => decide (inRaster w h s zoom shiftX shiftY i))
        (l := intRange 0 s.n)
      have h2 : (intRange 0 s.n).length = s.n.toNat := by
        unfold intRange
        simp
      omega
  · intro idx
    unfold renderDensity
    simp only
    rw [render_fold_get]

end RenderClaims

section BuildFacts

theorem nonneg_induction {P : Int → Prop} (h0 : P 0)
    (hs : ∀ k, 0 ≤ k → P k → P (k + 1)) (k : Int) (hk : 0 ≤ k) : P k := by
  obtain ⟨n, rfl⟩ := Int.eq_ofNat_of_zero_le hk
  induction n with
  | zero => exact h0
  | succ n ih =>
    have := hs n (Int.natCast_nonneg n) (ih (Int.natCast_nonneg n))
    simpa using this

variable {K : Type} [LinearOrderedField K] [FloorRing K]

theorem clear_fold_get (l : List Int) (grid : Arr Int) (c : Int) :
    (l.foldl (fun g i => g.set i 0) grid).get c = if c ∈ l then 0 else grid.get c := by
  induction l generalizing grid with
  | nil => simp
  | cons a l ih =>
    rw [List.foldl_cons, ih, Arr.get_set]
    by_cases h1 : c ∈ l
    · simp [h1]
    · by_cases h2 : c = a
      · simp [h2]
      · simp [h1, h2]

theorem clearGrid_get (gridSize : Int) (grid : Arr Int) (c : Int) :
    (clearGrid gridSize grid).get c =
      if 0 ≤ c ∧ c < gridSize * gridSize then 0 else grid.get c := by
  unfold clearGrid
  rw [clear_fold_get]
  simp only [mem_intRange]

theorem cellCount_nonneg (particles : Arr (Particle K)) (gridSize : Int) (l : List Int)
    (c : Int) : 0 ≤ cellCount particles gridSize l c := by
  unfold cellCount
  exact Int.natCast_nonneg _

theorem cellCount_append (particles : Arr (Particle K)) (gridSize : Int) (l l' : List Int)
    (c : Int) : cellCount particles gridSize (l ++ l') c =
      cellCount particles gridSize l c + cellCount particles gridSize l' c := by
  unfold cellCount
  rw [List.countP_append]
  push_cast
  rfl

theorem cellCount_singleton (particles : Arr (Particle K)) (gridSize : Int) (i c : Int) :
    cellCount particles gridSize [i] c =
      if gridIndexOf gridSize (particles.get i) = c then 1 else 0 := by
  unfold cellCount
  by_cases h : gridIndexOf gridSize (particles.get i) = c <;> simp [h]

theorem count_fold_get (particles : Arr (Particle K)) (gridSize : Int) (l : List Int)
    (grid : Arr Int) (c : Int) :
    (l.foldl (fun g i =>
        let gridIndex := gridIndexOf gridSize (particles.get i)
        g.set gridIndex (g.get gridIndex + 1)) grid).get c =
      grid.get c + cellCount particles gridSize l c := by
  induction l generalizing grid with
  | nil => simp [cellCount]
  | cons a l ih =>
    rw [List.foldl_cons, ih, show a :: l = [a] ++ l from rfl, cellCount_append,
      cellCount_singleton]
    simp only [Arr.get_set]
    by_cases h : c = gridIndexOf gridSize (particles.get a)
    · rw [if_pos h, if_pos h.symm, h]
      ring
    · rw [if_neg h, if_neg (fun e => h e.symm)]
      ring

theorem countCells_get (n : Int) (particles : Arr (Particle K)) (gridSize : Int)
    (grid : Arr Int) (c : Int) :
    (countCells n particles gridSize grid).get c =
      grid.get c + cellCount particles gridSize (intRange 0 n) c := by
  unfold countCells
  exact count_fold_get particles gridSize _ grid c

theorem prefixSum_zero (f : Int → Int) : prefixSum f 0 = 0 := by
  unfold prefixSum
  rw [intRange_of_le le_rfl]
  rfl

theorem prefixSum_succ (f : Int → Int) {c : Int} (hc : 0 ≤ c) :
    prefixSum f (c + 1) = prefixSum f c + f c := by
  unfold prefixSum
  rw [intRange_succ hc, List.map_append, List.sum_append]
  simp

theorem prefixSum_congr {f f' : Int → Int} {c : Int} (h : ∀ j, 0 ≤ j → j < c → f j = f' j) :
    prefixSum f c = prefixSum f' c := by
  unfold prefixSum
  congr 1
  apply List.map_congr_left
  intro j hj
  rw [mem_intRange] at hj
  exact h j hj.1 hj.2

theorem prefixSum_mono {f : Int → Int} (hf : ∀ j, 0 ≤ f j) {a b : Int} (ha : 0 ≤ a)
    (hab : a ≤ b) : prefixSum f a ≤ prefixSum f b := by
  have key : ∀ d : Int, 0 ≤ d → prefixSum f a ≤ prefixSum f (a + d) := by
    apply nonneg_induction
    · simp
    · intro k hk ih
      rw [← add_assoc, prefixSum_succ f (by omega)]
      have := hf (a + k)
      omega
  have := key (b - a) (by omega)
  rwa [add_sub_cancel] at this

theorem cumsum_fold (grid : Arr Int) : ∀ k : Int, 0 ≤ k →
    ((intRange 0 k).foldl
      (fun (st : Arr Int × Int) i =>
        let temp := st.1.get i
        (st.1.set i st.2, st.2 + temp)) (grid, 0)).2 = prefixSum grid.get k ∧
    ∀ c, ((intRange 0 k).foldl
      (fun (st : Arr Int × Int) i =>
        let temp := st.1.get i
        (st.1.set i st.2, st.2 + temp)) (grid, 0)).1.get c =
      if 0 ≤ c ∧ c < k then prefixSum grid.get c else grid.get c := by
  apply nonneg_induction
  · rw [intRange_of_le le_rfl]
    refine ⟨(prefixSum_zero _).symm, fun c => ?_⟩
    rw [if_neg (by omega)]
    rfl
  · intro k hk ih
    obtain ⟨ih1, ih2⟩ := ih
    rw [intRange_succ hk, List.foldl_append]
    simp only [List.foldl_cons, List.foldl_nil]
    refine ⟨?_, fun c => ?_⟩
    · rw [ih1, ih2 k, if_neg (by omega), prefixSum_succ _ hk]
    · rw [Arr.get_set, ih1, ih2 c]
      by_cases h : c = k
      · subst h
        rw [if_pos rfl, if_pos ⟨hk, by omega⟩]
      · rw [if_neg h]
        by_cases h2 : 0 ≤ c ∧ c < k
        · rw [if_pos h2, if_pos ⟨h2.1, by omega⟩]
        · rw [if_neg h2, if_neg (by omega)]

theorem cumsum_get (gridSize : Int) (grid : Arr Int) (c : Int) :
    (cumsum gridSize grid).1.get c =
      if 0 ≤ c ∧ c < gridSize * gridSize then prefixSum grid.get c else grid.get c := by
  unfold cumsum
  exact (cumsum_fold grid _ (mul_self_nonneg gridSize)).2 c

theorem undo_fold_get (c : Int) : ∀ k : Int, 0 ≤ k → ∀ grid : Arr Int,
    ((intRange 1 (k + 1)).reverse.foldl (fun g i => g.set i (g.get (i - 1))) grid).get c =
      if 1 ≤ c ∧ c ≤ k then grid.get (c - 1) else grid.get c := by
  apply nonneg_induction
  · intro grid
    rw [intRange_of_le (by norm_num)]
    rw [if_neg (by omega)]
    rfl
  · intro k hk ih grid
    rw [intRange_succ (by omega), List.reverse_append]
    simp only [List.reverse_cons, List.reverse_nil, List.nil_append, List.singleton_append,
      List.foldl_cons]
    rw [ih]
    simp only [Arr.get_set]
    by_cases h1 : 1 ≤ c ∧ c ≤ k
    · rw [if_pos h1, if_neg (by omega), if_pos ⟨h1.1, by omega⟩]
    · rw [if_neg h1]
      by_cases h2 : c = k + 1
      · rw [if_pos h2, if_pos ⟨by omega, by omega⟩, h2]
      · rw [if_neg h2, if_neg (by omega)]

theorem undoGrid_get (gridSize : Int) (grid : Arr Int) (c : Int) :
    (undoGrid gridSize grid).get c =
      if c = 0 then 0
      else if 1 ≤ c ∧ c ≤ gridSize * gridSize then grid.get (c - 1) else grid.get c := by
  unfold undoGrid
  simp only [Arr.get_set]
  rw [undo_fold_get c _ (mul_self_nonneg gridSize)]

end BuildFacts

section ScatterFacts

variable {K : Type} [LinearOrderedField K] [FloorRing K]

theorem intRange_append {lo mid : Int} (h1 : lo ≤ mid) : ∀ d : Int, 0 ≤ d →
    intRange lo (mid + d) = intRange lo mid ++ intRange mid (mid + d) := by
  apply nonneg_induction
  · rw [add_zero, intRange_of_le (le_refl mid), List.append_nil]
  · intro k hk ih
    rw [← add_assoc, intRange_succ (by omega), intRange_succ (by omega), ih, List.append_assoc]

theorem intRange_split {lo mid hi : Int} (h1 : lo ≤ mid) (h2 : mid ≤ hi) :
    intRange lo hi = intRange lo mid ++ intRange mid hi := by
  have := intRange_append h1 (hi - mid) (by omega)
  rwa [add_sub_cancel] at this

theorem cellCount_le_of_initial (particles : Arr (Particle K)) (gridSize : Int) {k n : Int}
    (hk : 0 ≤ k) (hkn : k ≤ n) (c : Int) :
    cellCount particles gridSize (intRange 0 k) c ≤
      cellCount particles gridSize (intRange 0 n) c := by
  rw [intRange_split hk hkn, cellCount_append]
  have := cellCount_nonneg particles gridSize (intRange k n) c
  omega

theorem cellCount_lt_of_initial (particles : Arr (Particle K)) (gridSize : Int) {k n : Int}
    (hk : 0 ≤ k) (hkn : k < n) :
    cellCount particles gridSize (intRange 0 k) (gridIndexOf gridSize (particles.get k)) <
      cellCount particles gridSize (intRange 0 n) (gridIndexOf gridSize (particles.get k)) := by
  rw [intRange_split hk (le_of_lt hkn), cellCount_append, intRange_cons hkn,
    show k :: intRange (k + 1) n = [k] ++ intRange (k + 1) n from rfl, cellCount_append,
    cellCount_singleton, if_pos rfl]
  have := cellCount_nonneg particles gridSize (intRange (k + 1) n)
    (gridIndexOf gridSize (particles.get k))
  omega

theorem scatter_fst (particles : Arr (Particle K)) (gridSize : Int) (l : List Int)
    (st : Arr Int × Arr Int) :
    (l.foldl
      (fun (st : Arr Int × Arr Int) i =>
        let gridIndex := gridIndexOf gridSize (particles.get i)
        let particleIndex := st.1.get gridIndex
        (st.1.set gridIndex (st.1.get gridIndex + 1), st.2.set particleIndex i)) st).1 =
    l.foldl (fun g i =>
        let gridIndex := gridIndexOf gridSize (particles.get i)
        g.set gridIndex (g.get gridIndex + 1)) st.1 := by
  induction l generalizing st with
  | nil => rfl
  | cons a l ih =>
    rw [List.foldl_cons, List.foldl_cons, ih]

theorem scatter_fst_get (n : Int) (particles : Arr (Particle K)) (gridSize : Int)
    (st : Arr Int × Arr Int) (c : Int) :
    (scatter n particles gridSize st).1.get c =
      st.1.get c + cellCount particles gridSize (intRange 0 n) c := by
  unfold scatter
  rw [scatter_fst, count_fold_get]

/-- The slots of cell `c` hold, after the first `k` particles were scattered,
the particles of cell `c` among them, in ascending order. -/
theorem scatter_slots (n : Int) (particles : Arr (Particle K)) (gridSize : Int)
    (grid gridMap : Arr Int)
    (hcell : ∀ i, 0 ≤ i → i < n →
      0 ≤ gridIndexOf gridSize (particles.get i) ∧
      gridIndexOf gridSize (particles.get i) < gridSize * gridSize)
    (hstart : ∀ c, 0 ≤ c → c < gridSize * gridSize →
      grid.get c = prefixSum (cellCount particles gridSize (intRange 0 n)) c) :
    ∀ k : Int, 0 ≤ k → k ≤ n → ∀ c, 0 ≤ c → c < gridSize * gridSize →
      (intRange (grid.get c) (grid.get c + cellCount particles gridSize (intRange 0 k) c)).map
        (scatter k particles gridSize (grid, gridMap)).2.get =
      (intRange 0 k).filter (fun i => gridIndexOf gridSize (particles.get i) = c) := by
  apply nonneg_induction
  · intro _ c _ _
    rw [intRange_of_le (le_refl 0)]
    simp [cellCount, intRange_of_le]
  · intro k hk ih hkn c hc0 hcG
    have ih' := ih (by omega) c hc0 hcG
    have hkc := hcell k hk (by omega)
    set ck := gridIndexOf gridSize (particles.get k) with hck
    set S := prefixSum (cellCount particles gridSize (intRange 0 n)) with hS
    have hSsucc : ∀ c', 0 ≤ c' → S (c' + 1) = S c' + cellCount particles gridSize (intRange 0 n) c' :=
      fun c' h => prefixSum_succ _ h
    have hSmono : ∀ a b, 0 ≤ a → a ≤ b → S a ≤ S b :=
      fun a b ha hab => prefixSum_mono (cellCount_nonneg particles gridSize _) ha hab
    -- the state after k particles and the slot written by particle k
    have hstep : scatter (k + 1) particles gridSize (grid, gridMap) =
        ((scatter k particles gridSize (grid, gridMap)).1.set ck
            ((scatter k particles gridSize (grid, gridMap)).1.get ck + 1),
         (scatter k particles gridSize (grid, gridMap)).2.set
            ((scatter k particles gridSize (grid, gridMap)).1.get ck) k) := by
      unfold scatter
      rw [intRange_succ hk, List.foldl_append]
      rfl
    have hslot : (scatter k particles gridSize (grid, gridMap)).1.get ck =
        grid.get ck + cellCount particles gridSize (intRange 0 k) ck := scatter_fst_get _ _ _ _ _
    rw [hstep]
    simp only
    rw [hslot, intRange_succ hk, cellCount_append, cellCount_singleton, List.filter_append]
    have hle := cellCount_le_of_initial particles gridSize hk (show k ≤ n by omega) c
    have hlt : cellCount particles gridSize (intRange 0 k) ck <
        cellCount particles gridSize (intRange 0 n) ck :=
      cellCount_lt_of_initial particles gridSize hk (show k < n by omega)
    have hnn := cellCount_nonneg particles gridSize (intRange 0 k) c
    have hnn' := cellCount_nonneg particles gridSize (intRange 0 k) ck
    by_cases hcase : ck = c
    · subst hcase
      rw [if_pos rfl, ← add_assoc, intRange_succ (by omega), List.map_append]
      congr 1
      · rw [← ih']
        apply List.map_congr_left
        intro j hj
        rw [mem_intRange] at hj
        rw [Arr.get_set, if_neg (by omega)]
      · simp
    · rw [if_neg hcase, add_zero]
      have : List.filter (fun i => decide (gridIndexOf gridSize (particles.get i) = c)) [k] = [] := by
        simp [← hck, hcase]
      rw [this, List.append_nil, ← ih']
      apply List.map_congr_left
      intro j hj
      rw [mem_intRange] at hj
      rw [Arr.get_set, if_neg]
      rw [hstart c hc0 hcG] at hj
      rw [hstart ck hkc.1 hkc.2]
      rcases lt_or_gt_of_ne hcase with h | h
      · -- ck < c
        have h1 := hSsucc ck hkc.1
        have h2 := hSmono (ck + 1) c (by omega) (by omega)
        omega
      · -- c < ck
        have h1 := hSsucc c hc0
        have h2 := hSmono (c + 1) ck (by omega) (by omega)
        omega

end ScatterFacts

section BuildSpec

variable {K : Type} [LinearOrderedField K] [FloorRing K]

theorem cumsum_countCells_clear_get (n : Int) (particles : Arr (Particle K)) (gridSize : Int)
    (grid : Arr Int) (c : Int) (hc0 : 0 ≤ c) (hcG : c < gridSize * gridSize) :
    (cumsum gridSize (countCells n particles gridSize (clearGrid gridSize grid))).1.get c =
      prefixSum (cellCount particles gridSize (intRange 0 n)) c := by
  rw [cumsum_get, if_pos ⟨hc0, hcG⟩]
  apply prefixSum_congr
  intro j hj0 hjc
  rw [countCells_get, clearGrid_get, if_pos ⟨hj0, by omega⟩, zero_add]

/-- The grid build phase of `update` is a counting sort: the offset table holds
the prefix sums of the cell counts, and the slots of each cell hold the
particles of that cell in ascending index order. -/
theorem buildGrid_spec (n : Int) (particles : Arr (Particle K)) (gridSize : Int)
    (grid gridMap : Arr Int) (hn : 0 ≤ n)
    (hcell : ∀ i, 0 ≤ i → i < n →
      0 ≤ gridIndexOf gridSize (particles.get i) ∧
      gridIndexOf gridSize (particles.get i) < gridSize * gridSize) :
    (∀ c, 0 ≤ c → c ≤ gridSize * gridSize →
      (buildGrid n particles gridSize grid gridMap).1.get c =
        prefixSum (cellCount particles gridSize (intRange 0 n)) c) ∧
    (∀ c, 0 ≤ c → c < gridSize * gridSize →
      (intRange ((buildGrid n particles gridSize grid gridMap).1.get c)
          ((buildGrid n particles gridSize grid gridMap).1.get (c + 1))).map
        (buildGrid n particles gridSize grid gridMap).2.get =
      (intRange 0 n).filter (fun i => gridIndexOf gridSize (particles.get i) = c)) := by
  have hA : ∀ c, 0 ≤ c → c ≤ gridSize * gridSize →
      (buildGrid n particles gridSize grid gridMap).1.get c =
        prefixSum (cellCount particles gridSize (intRange 0 n)) c := by
    intro c hc0 hcG
    unfold buildGrid
    simp only
    rw [undoGrid_get]
    by_cases h0 : c = 0
    · rw [if_pos h0, h0, prefixSum_zero]
    · rw [if_neg h0, if_pos ⟨by omega, hcG⟩, scatter_fst_get]
      simp only
      rw [cumsum_countCells_clear_get n particles gridSize grid (c - 1) (by omega) (by omega)]
      have := prefixSum_succ (cellCount particles gridSize (intRange 0 n))
        (show 0 ≤ c - 1 by omega)
      rw [sub_add_cancel] at this
      rw [this]
  refine ⟨hA, ?_⟩
  intro c hc0 hcG
  rw [hA c hc0 (le_of_lt hcG), hA (c + 1) (by omega) (by omega), prefixSum_succ _ hc0]
  have hstart : ∀ c, 0 ≤ c → c < gridSize * gridSize →
      (cumsum gridSize (countCells n particles gridSize (clearGrid gridSize grid))).1.get c =
        prefixSum (cellCount particles gridSize (intRange 0 n)) c :=
    fun c h1 h2 => cumsum_countCells_clear_get n particles gridSize grid c h1 h2
  have := scatter_slots n particles gridSize _ gridMap hcell hstart n hn le_rfl c hc0 hcG
  rw [hstart c hc0 hcG] at this
  exact this

theorem cellCoord_mem (gridSize : Int) (hg : 0 < gridSize) (x : K) (h1 : -1 ≤ x) (h2 : x < 1) :
    0 ≤ cellCoord gridSize x ∧ cellCoord gridSize x < gridSize := by
  unfold cellCoord
  have hgK : (0 : K) < (gridSize : K) := by exact_mod_cast hg
  constructor
  · apply Int.floor_nonneg.mpr
    apply mul_nonneg
    · apply mul_nonneg <;> linarith
    · exact hgK.le
  · rw [Int.floor_lt]
    have : (x + 1) * (1 / 2) < 1 := by linarith
    calc (x + 1) * (1 / 2) * (gridSize : K) < 1 * (gridSize : K) :=
          mul_lt_mul_of_pos_right this hgK
      _ = (gridSize : K) := one_mul _

theorem gridIndexOf_mem (gridSize : Int) (hg : 0 < gridSize) (p : Particle K)
    (hx : -1 ≤ p.x ∧ p.x < 1) (hy : -1 ≤ p.y ∧ p.y < 1) :
    0 ≤ gridIndexOf gridSize p ∧ gridIndexOf gridSize p < gridSize * gridSize := by
  unfold gridIndexOf
  obtain ⟨hx0, hxg⟩ := cellCoord_mem gridSize hg p.x hx.1 hx.2
  obtain ⟨hy0, hyg⟩ := cellCoord_mem gridSize hg p.y hy.1 hy.2
  constructor
  · have := rowMajor_nonneg (m := gridSize) hx0 hg.le hy0
    omega
  · have := rowMajor_lt (m := gridSize) hx0 hxg hyg
    omega

end BuildSpec

section Locality

variable {K : Type} [LinearOrderedField K] [FloorRing K]

theorem wrapCell_mem (g c d : Int) (hc0 : 0 ≤ c) (hcg : c < g) (hd : d = -1 ∨ d = 0 ∨ d = 1) :
    0 ≤ wrapCell g (c + d) ∧ wrapCell g (c + d) < g := by
  unfold wrapCell
  simp only
  rcases hd with rfl | rfl | rfl <;> split_ifs <;> omega

theorem wrapCell_inj (g c d d' : Int) (hg : 3 ≤ g) (hc0 : 0 ≤ c) (hcg : c < g)
    (hd : d = -1 ∨ d = 0 ∨ d = 1) (hd' : d' = -1 ∨ d' = 0 ∨ d' = 1)
    (h : wrapCell g (c + d) = wrapCell g (c + d')) : d = d' := by
  unfold wrapCell at h
  simp only at h
  rcases hd with rfl | rfl | rfl <;> rcases hd' with rfl | rfl | rfl <;>
    split_ifs at h <;> omega

/-- Two coordinates whose periodic distance is below `rMax` lie in the same or
in cyclically adjacent cell columns. -/
theorem cellCoord_near (g : Int) (rMax : K) (hg : 3 ≤ g) (hgr : (g : K) * rMax ≤ 2)
    (a b : K) (ha : -1 ≤ a ∧ a < 1) (hb : -1 ≤ b ∧ b < 1)
    (hnear : |boundary (b - a)| < rMax) :
    ∃ d : Int, (d = -1 ∨ d = 0 ∨ d = 1) ∧ cellCoord g b = wrapCell g (cellCoord g a + d) := by
  have hg0 : 0 < g := by omega
  have hgK : (0 : K) < (g : K) := by exact_mod_cast hg0
  obtain ⟨hcu0, hcug⟩ := cellCoord_mem g hg0 a ha.1 ha.2
  obtain ⟨hcv0, hcvg⟩ := cellCoord_mem g hg0 b hb.1 hb.2
  rw [boundary_eq_wrapSpec] at hnear
  obtain ⟨k, hk⟩ := wrapSpec_congr (b - a)
  obtain ⟨hw1, hw2⟩ := wrapSpec_mem (b - a)
  rw [abs_lt] at hnear
  set w := wrapSpec (b - a) with hw
  -- k is -1, 0 or 1
  have hk1 : k < 2 := by
    have : ((k : Int) : K) < ((2 : Int) : K) := by push_cast; linarith
    exact Int.cast_lt.mp this
  have hk2 : -2 < k := by
    have : (((-2 : Int)) : K) < ((k : Int) : K) := by push_cast; linarith
    exact Int.cast_lt.mp this
  -- the scaled coordinates
  have hu1 := Int.floor_le ((a + 1) * (1 / 2) * (g : K))
  have hu2 := Int.lt_floor_add_one ((a + 1) * (1 / 2) * (g : K))
  have hv1 := Int.floor_le ((b + 1) * (1 / 2) * (g : K))
  have hv2 := Int.lt_floor_add_one ((b + 1) * (1 / 2) * (g : K))
  have hdiff : (b + 1) * (1 / 2) * (g : K) - (a + 1) * (1 / 2) * (g : K) =
      w * (g : K) / 2 + (k : K) * (g : K) := by
    have : b - a = w + 2 * (k : K) := by linarith
    calc (b + 1) * (1 / 2) * (g : K) - (a + 1) * (1 / 2) * (g : K)
        = (b - a) * (g : K) / 2 := by ring
      _ = (w + 2 * (k : K)) * (g : K) / 2 := by rw [this]
      _ = w * (g : K) / 2 + (k : K) * (g : K) := by ring
  have hwg1 : w * (g : K) / 2 < 1 := by
    have : w * (g : K) < rMax * (g : K) := mul_lt_mul_of_pos_right hnear.2 hgK
    have h2 : rMax * (g : K) ≤ 2 := by rw [mul_comm]; exact hgr
    linarith
  have hwg2 : -1 < w * (g : K) / 2 := by
    have : (-rMax) * (g : K) < w * (g : K) := mul_lt_mul_of_pos_right hnear.1 hgK
    have h2 : rMax * (g : K) ≤ 2 := by rw [mul_comm]; exact hgr
    linarith
  have hcu : cellCoord g a = ⌊(a + 1) * (1 / 2) * (g : K)⌋ := rfl
  have hcv : cellCoord g b = ⌊(b + 1) * (1 / 2) * (g : K)⌋ := rfl
  rw [← hcu] at hu1 hu2
  rw [← hcv] at hv1 hv2
  have hd1 : cellCoord g b - cellCoord g a - k * g < 2 := by
    have : ((cellCoord g b - cellCoord g a - k * g : Int) : K) < ((2 : Int) : K) := by
      push_cast; linarith
    exact Int.cast_lt.mp this
  have hd2 : -2 < cellCoord g b - cellCoord g a - k * g := by
    have : (((-2 : Int)) : K) < ((cellCoord g b - cellCoord g a - k * g : Int) : K) := by
      push_cast; linarith
    exact Int.cast_lt.mp this
  refine ⟨cellCoord g b - cellCoord g a - k * g, by omega, ?_⟩
  have hk3 : k = -1 ∨ k = 0 ∨ k = 1 := by omega
  unfold wrapCell
  simp only
  rcases hk3 with rfl | rfl | rfl
  · simp only [neg_mul, one_mul] at hd1 hd2 ⊢
    split_ifs <;> omega
  · simp only [zero_mul] at hd1 hd2 ⊢
    split_ifs <;> omega
  · simp only [one_mul] at hd1 hd2 ⊢
    split_ifs <;> omega

end Locality

section SumFacts

theorem sum_map_single {α M : Type} [DecidableEq α] [AddCommMonoid M] (L : List α)
    (hL : L.Nodup) (a : α) (v : M) :
    (L.map (fun c => if a = c then v else 0)).sum = if a ∈ L then v else 0 := by
  induction L with
  | nil => simp
  | cons b L ih =>
    rw [List.nodup_cons] at hL
    rw [List.map_cons, List.sum_cons, ih hL.2]
    by_cases hab : a = b
    · subst hab
      simp [hL.1]
    · by_cases haL : a ∈ L
      · simp [hab, haL]
      · simp [hab, haL]

theorem sum_fibers {α β M : Type} [DecidableEq β] [AddCommMonoid M] (l : List α) (L : List β)
    (hL : L.Nodup) (f : α → β) (C : α → M) :
    (L.map (fun c => ((l.filter (fun j => f j = c)).map C).sum)).sum =
      ((l.filter (fun j => f j ∈ L)).map C).sum := by
  induction l with
  | nil => simp
  | cons a l ih =>
    have e : ∀ c, (((a :: l).filter (fun j => f j = c)).map C).sum =
        (if f a = c then C a else 0) + ((l.filter (fun j => f j = c)).map C).sum := by
      intro c
      by_cases h : f a = c
      · simp [List.filter_cons, h]
      · simp [List.filter_cons, h]
    simp only [e, List.sum_map_add, ih, sum_map_single L hL (f a) (C a)]
    by_cases h : f a ∈ L
    · simp [List.filter_cons, h]
    · simp [List.filter_cons, h]

theorem sum_filter_of_zero {α M : Type} [AddCommMonoid M] (l : List α) (p : α → Prop)
    [DecidablePred p] (C : α → M) (h : ∀ j ∈ l, ¬ p j → C j = 0) :
    ((l.filter (fun j => p j)).map C).sum = (l.map C).sum := by
  induction l with
  | nil => simp
  | cons a l ih =>
    have ih' := ih (fun j hj => h j (List.mem_cons_of_mem _ hj))
    by_cases ha : p a
    · simp [List.filter_cons, ha, ih']
    · simp [List.filter_cons, ha, ih', h a (List.mem_cons_self _ _) ha]

theorem sum_map_pair {α A B : Type} [AddCommMonoid A] [AddCommMonoid B] (l : List α)
    (f : α → A) (g : α → B) :
    (l.map (fun j => (f j, g j))).sum = ((l.map f).sum, (l.map g).sum) := by
  induction l with
  | nil => rfl
  | cons a l ih =>
    simp only [List.map_cons, List.sum_cons, ih, Prod.mk_add_mk]

theorem foldl_add_eq {α M : Type} [AddCommMonoid M] (l : List α) (step : M → α → M)
    (C : α → M) (hstep : ∀ acc j, step acc j = acc + C j) (acc : M) :
    l.foldl step acc = acc + (l.map C).sum := by
  induction l generalizing acc with
  | nil => simp
  | cons a l ih =>
    rw [List.foldl_cons, ih, hstep, List.map_cons, List.sum_cons, add_assoc]

end SumFacts

section ForceSum

variable {K : Type} [LinearOrderedField K] [FloorRing K]

theorem pairForce_acc (sqrtf : K → K) (rMax : K) (m : Int) (matrix : Arr K)
    (p p_ : Particle K) (acc : K × K) :
    pairForce sqrtf rMax m matrix p p_ acc =
      acc + pairForce sqrtf rMax m matrix p p_ (0, 0) := by
  unfold pairForce
  simp only
  split_ifs
  · ext <;> simp
  · simp

theorem scan_step_eq (sqrtf : K → K) (rMax : K) (m : Int) (matrix : Arr K)
    (particles : Arr (Particle K)) (i : Int) (acc : K × K) (j : Int) :
    (if j = i then acc
      else pairForce sqrtf rMax m matrix (particles.get i) (particles.get j) acc) =
      acc + contribution sqrtf rMax m matrix particles i j := by
  unfold contribution
  split_ifs
  · simp
  · exact pairForce_acc _ _ _ _ _ _ _

/-- The scan of one cell's slots adds the contributions of the particles
stored there. -/
theorem scan_cell_eq (sqrtf : K → K) (rMax : K) (m : Int) (matrix : Arr K)
    (gridMap : Arr Int) (particles : Arr (Particle K)) (i : Int) (lo hi : Int)
    (acc : K × K) :
    (intRange lo hi).foldl
      (fun acc k_ =>
        let i_ := gridMap.get k_
        if i_ = i then acc
        else pairForce sqrtf rMax m matrix (particles.get i) (particles.get i_) acc)
      acc =
    acc + (((intRange lo hi).map gridMap.get).map
      (contribution sqrtf rMax m matrix particles i)).sum := by
  rw [List.map_map]
  apply foldl_add_eq
  intro acc j
  exact scan_step_eq sqrtf rMax m matrix particles i acc (gridMap.get j)

theorem totalForce_eq_cells (sqrtf : K → K) (rMax : K) (m : Int) (matrix : Arr K)
    (gridSize : Int) (grid gridMap : Arr Int) (particles : Arr (Particle K))
    (cx cy i : Int) :
    totalForce sqrtf rMax m matrix gridSize grid gridMap particles cx cy i =
      ((neighbourCells gridSize cx cy).map (fun c_ =>
        (((intRange (grid.get c_) (grid.get (c_ + 1))).map gridMap.get).map
          (contribution sqrtf rMax m matrix particles i)).sum)).sum := by
  unfold totalForce neighbourCells
  simp only [intRange_neg_one_two, List.foldl_cons, List.foldl_nil, scan_cell_eq,
    List.flatMap_cons, List.flatMap_nil, List.map_cons, List.map_nil, List.append_nil,
    List.cons_append, List.nil_append, List.sum_cons, List.sum_nil]
  have z : ((0 : K), (0 : K)) = 0 := rfl
  rw [z]
  abel

end ForceSum

section Neighbourhood

variable {K : Type} [LinearOrderedField K] [FloorRing K]

theorem mem_neighbourCells (g cx cy c : Int) :
    c ∈ neighbourCells g cx cy ↔
      ∃ dx dy : Int, (dx = -1 ∨ dx = 0 ∨ dx = 1) ∧ (dy = -1 ∨ dy = 0 ∨ dy = 1) ∧
        c = wrapCell g (cx + dx) + wrapCell g (cy + dy) * g := by
  unfold neighbourCells
  simp only [List.mem_flatMap, List.mem_map, mem_intRange]
  constructor
  · rintro ⟨dy, hdy, dx, hdx, rfl⟩
    exact ⟨dx, dy, by omega, by omega, rfl⟩
  · rintro ⟨dx, dy, hdx, hdy, rfl⟩
    exact ⟨dy, by omega, dx, by omega, rfl⟩

theorem neighbourCells_mem_grid (g cx cy : Int) (hcx : 0 ≤ cx ∧ cx < g)
    (hcy : 0 ≤ cy ∧ cy < g) (c : Int) (hc : c ∈ neighbourCells g cx cy) :
    0 ≤ c ∧ c < g * g := by
  rw [mem_neighbourCells] at hc
  obtain ⟨dx, dy, hdx, hdy, rfl⟩ := hc
  obtain ⟨hx0, hxg⟩ := wrapCell_mem g cx dx hcx.1 hcx.2 hdx
  obtain ⟨hy0, hyg⟩ := wrapCell_mem g cy dy hcy.1 hcy.2 hdy
  constructor
  · have := rowMajor_nonneg (m := g) hx0 (by omega) hy0
    omega
  · have := rowMajor_lt (m := g) hx0 hxg hyg
    omega

theorem neighbourCells_nodup (g cx cy : Int) (hg : 3 ≤ g) (hcx : 0 ≤ cx ∧ cx < g)
    (hcy : 0 ≤ cy ∧ cy < g) : (neighbourCells g cx cy).Nodup := by
  have e : neighbourCells g cx cy =
      ([((-1 : Int), (-1 : Int)), (-1, 0), (-1, 1), (0, -1), (0, 0), (0, 1), (1, -1), (1, 0),
        (1, 1)]).map (fun d => wrapCell g (cx + d.2) + wrapCell g (cy + d.1) * g) := by
    unfold neighbourCells
    simp [intRange_neg_one_two]
  rw [e]
  apply List.Nodup.map_on
  · intro a ha b hb hab
    have hmem : ∀ d : Int × Int, d ∈ [((-1 : Int), (-1 : Int)), (-1, 0), (-1, 1), (0, -1),
        (0, 0), (0, 1), (1, -1), (1, 0), (1, 1)] →
        (d.1 = -1 ∨ d.1 = 0 ∨ d.1 = 1) ∧ (d.2 = -1 ∨ d.2 = 0 ∨ d.2 = 1) := by
      intro d hd
      simp only [List.mem_cons, List.mem_singleton, List.not_mem_nil, or_false] at hd
      rcases hd with h | h | h | h | h | h | h | h | h <;> subst h <;> simp
    obtain ⟨ha1, ha2⟩ := hmem a ha
    obtain ⟨hb1, hb2⟩ := hmem b hb
    obtain ⟨hxa0, hxag⟩ := wrapCell_mem g cx a.2 hcx.1 hcx.2 ha2
    obtain ⟨hxb0, hxbg⟩ := wrapCell_mem g cx b.2 hcx.1 hcx.2 hb2
    have hab' : wrapCell g (cy + a.1) * g + wrapCell g (cx + a.2) =
        wrapCell g (cy + b.1) * g + wrapCell g (cx + b.2) := by
      simp only at hab
      omega
    obtain ⟨e1, e2⟩ := rowMajor_inj hxa0 hxag hxb0 hxbg hab'
    have d1 := wrapCell_inj g cy a.1 b.1 hg hcy.1 hcy.2 ha1 hb1 e1
    have d2 := wrapCell_inj g cx a.2 b.2 hg hcx.1 hcx.2 ha2 hb2 e2
    exact Prod.ext d1 d2
  · decide

end Neighbourhood

section Completeness

variable {K : Type} [LinearOrderedField K] [FloorRing K]

theorem contribution_eq (sqrtf : K → K) (rMax : K) (m : Int) (matrix : Arr K)
    (particles : Arr (Particle K)) (i j : Int) :
    contribution sqrtf rMax m matrix particles i j =
      if j ≠ i ∧
          0 < sqrtf (boundary ((particles.get j).x - (particles.get i).x) *
                boundary ((particles.get j).x - (particles.get i).x) +
              boundary ((particles.get j).y - (particles.get i).y) *
                boundary ((particles.get j).y - (particles.get i).y)) ∧
          sqrtf (boundary ((particles.get j).x - (particles.get i).x) *
                boundary ((particles.get j).x - (particles.get i).x) +
              boundary ((particles.get j).y - (particles.get i).y) *
                boundary ((particles.get j).y - (particles.get i).y)) < rMax then
        (boundary ((particles.get j).x - (particles.get i).x) /
            sqrtf (boundary ((particles.get j).x - (particles.get i).x) *
                boundary ((particles.get j).x - (particles.get i).x) +
              boundary ((particles.get j).y - (particles.get i).y) *
                boundary ((particles.get j).y - (particles.get i).y)) *
          force (sqrtf (boundary ((particles.get j).x - (particles.get i).x) *
                boundary ((particles.get j).x - (particles.get i).x) +
              boundary ((particles.get j).y - (particles.get i).y) *
                boundary ((particles.get j).y - (particles.get i).y)) / rMax)
            (matrix.get ((particles.get i).type * m + (particles.get j).type)),
         boundary ((particles.get j).y - (particles.get i).y) /
            sqrtf (boundary ((particles.get j).x - (particles.get i).x) *
                boundary ((particles.get j).x - (particles.get i).x) +
              boundary ((particles.get j).y - (particles.get i).y) *
                boundary ((particles.get j).y - (particles.get i).y)) *
          force (sqrtf (boundary ((particles.get j).x - (particles.get i).x) *
                boundary ((particles.get j).x - (particles.get i).x) +
              boundary ((particles.get j).y - (particles.get i).y) *
                boundary ((particles.get j).y - (particles.get i).y)) / rMax)
            (matrix.get ((particles.get i).type * m + (particles.get j).type)))
      else 0 := by
  unfold contribution pairForce
  simp only
  by_cases hji : j = i
  · rw [if_pos hji, if_neg (fun h => h.1 hji)]
  · rw [if_neg hji]
    split_ifs with h1 h2 h3
    · simp
    · exact absurd ⟨hji, h1⟩ h2
    · exact absurd h3.2 h1
    · rfl

theorem sum_contribution_eq_reference (sqrtf : K → K) (rMax : K) (m : Int) (matrix : Arr K)
    (n : Int) (particles : Arr (Particle K)) (i : Int) :
    ((intRange 0 n).map (contribution sqrtf rMax m matrix particles i)).sum =
      referenceForce sqrtf rMax m matrix n particles i := by
  unfold referenceForce
  simp only
  rw [← sum_map_pair]
  rw [← sum_filter_of_zero (intRange 0 n) (fun j => j ≠ i ∧
        0 < sqrtf (boundary ((particles.get j).x - (particles.get i).x) *
                boundary ((particles.get j).x - (particles.get i).x) +
              boundary ((particles.get j).y - (particles.get i).y) *
                boundary ((particles.get j).y - (particles.get i).y)) ∧
          sqrtf (boundary ((particles.get j).x - (particles.get i).x) *
                boundary ((particles.get j).x - (particles.get i).x) +
              boundary ((particles.get j).y - (particles.get i).y) *
                boundary ((particles.get j).y - (particles.get i).y)) < rMax)]
  · congr 1
    apply List.map_congr_left
    intro j hj
    rw [List.mem_filter] at hj
    rw [contribution_eq, if_pos (by simpa using hj.2)]
  · intro j _ hj
    rw [contribution_eq, if_neg hj]

end Completeness

section NormFacts

variable {K : Type} [LinearOrderedField K]

theorem abs_lt_of_norm_lt (sqrtf : K → K)
    (hsqrt : ∀ q : K, 0 ≤ q → 0 ≤ sqrtf q ∧ sqrtf q * sqrtf q = q) (rMax rx ry : K)
    (h : sqrtf (rx * rx + ry * ry) < rMax) : |rx| < rMax ∧ |ry| < rMax := by
  have hq : 0 ≤ rx * rx + ry * ry := add_nonneg (mul_self_nonneg _) (mul_self_nonneg _)
  obtain ⟨h0, hsq⟩ := hsqrt _ hq
  have hr : 0 ≤ rMax := le_trans h0 h.le
  have hlt : sqrtf (rx * rx + ry * ry) * sqrtf (rx * rx + ry * ry) < rMax * rMax :=
    mul_self_lt_mul_self h0 h
  rw [hsq] at hlt
  constructor
  · apply abs_lt_of_sq_lt_sq _ hr
    nlinarith [mul_self_nonneg ry]
  · apply abs_lt_of_sq_lt_sq _ hr
    nlinarith [mul_self_nonneg rx]

end NormFacts

section CompletenessMain

variable {K : Type} [LinearOrderedField K] [FloorRing K]

theorem rMax_facts (rMax : K) (hg : 3 ≤ ⌊2 / rMax⌋) :
    0 < rMax ∧ ((⌊2 / rMax⌋ : Int) : K) * rMax ≤ 2 := by
  have h3 : (3 : K) ≤ 2 / rMax := by
    have := Int.le_floor.mp hg
    simpa using this
  have hr : 0 < rMax := by
    by_contra hneg
    have : 2 / rMax ≤ 0 := div_nonpos_of_nonneg_of_nonpos (by norm_num) (not_lt.mp hneg)
    linarith
  refine ⟨hr, ?_⟩
  have := Int.floor_le (2 / rMax)
  rwa [le_div_iff₀ hr] at this

/-- A particle within the interaction radius of particle `i` lies in one of
the nine cells scanned around the cell of `i`. -/
theorem near_cell_mem (sqrtf : K → K)
    (hsqrt : ∀ q : K, 0 ≤ q → 0 ≤ sqrtf q ∧ sqrtf q * sqrtf q = q) (rMax : K)
    (hg : 3 ≤ ⌊2 / rMax⌋) (p q : Particle K)
    (hp : (-1 ≤ p.x ∧ p.x < 1) ∧ (-1 ≤ p.y ∧ p.y < 1))
    (hq : (-1 ≤ q.x ∧ q.x < 1) ∧ (-1 ≤ q.y ∧ q.y < 1))
    (hnear : sqrtf (boundary (q.x - p.x) * boundary (q.x - p.x) +
      boundary (q.y - p.y) * boundary (q.y - p.y)) < rMax) :
    gridIndexOf ⌊2 / rMax⌋ q ∈
      neighbourCells ⌊2 / rMax⌋ (cellCoord ⌊2 / rMax⌋ p.x) (cellCoord ⌊2 / rMax⌋ p.y) := by
  obtain ⟨_, hgr⟩ := rMax_facts rMax hg
  obtain ⟨hx, hy⟩ := abs_lt_of_norm_lt sqrtf hsqrt rMax _ _ hnear
  obtain ⟨dx, hdx, ex⟩ := cellCoord_near ⌊2 / rMax⌋ rMax hg hgr p.x q.x hp.1 hq.1 hx
  obtain ⟨dy, hdy, ey⟩ := cellCoord_near ⌊2 / rMax⌋ rMax hg hgr p.y q.y hp.2 hq.2 hy
  rw [mem_neighbourCells]
  refine ⟨dx, dy, hdx, hdy, ?_⟩
  unfold gridIndexOf
  rw [ex, ey]

theorem scanList_built (n : Int) (particles : Arr (Particle K)) (g : Int)
    (grid gridMap : Arr Int) (hn : 0 ≤ n)
    (hcell : ∀ i, 0 ≤ i → i < n →
      0 ≤ gridIndexOf g (particles.get i) ∧ gridIndexOf g (particles.get i) < g * g)
    (cx cy : Int) (hcx : 0 ≤ cx ∧ cx < g) (hcy : 0 ≤ cy ∧ cy < g) :
    scanList g (buildGrid n particles g grid gridMap).1
        (buildGrid n particles g grid gridMap).2 cx cy =
      (neighbourCells g cx cy).flatMap (fun c_ =>
        (intRange 0 n).filter (fun j => gridIndexOf g (particles.get j) = c_)) := by
  unfold scanList
  apply List.flatMap_congr
  intro c_ hc_
  obtain ⟨h0, h1⟩ := neighbourCells_mem_grid g cx cy hcx hcy c_ hc_
  exact (buildGrid_spec n particles g grid gridMap hn hcell).2 c_ h0 h1

theorem scanList_nodup (n : Int) (particles : Arr (Particle K)) (g : Int) (hg : 3 ≤ g)
    (grid gridMap : Arr Int) (hn : 0 ≤ n)
    (hcell : ∀ i, 0 ≤ i → i < n →
      0 ≤ gridIndexOf g (particles.get i) ∧ gridIndexOf g (particles.get i) < g * g)
    (cx cy : Int) (hcx : 0 ≤ cx ∧ cx < g) (hcy : 0 ≤ cy ∧ cy < g) :
    (scanList g (buildGrid n particles g grid gridMap).1
        (buildGrid n particles g grid gridMap).2 cx cy).Nodup := by
  rw [scanList_built n particles g grid gridMap hn hcell cx cy hcx hcy, List.nodup_flatMap]
  constructor
  · intro c_ _
    exact (intRange_nodup 0 n).filter _
  · apply (neighbourCells_nodup g cx cy hg hcx hcy).pairwise_of_forall_ne
    intro a _ b _ hab
    show List.Disjoint _ _
    rw [List.disjoint_left]
    intro j hja hjb
    rw [List.mem_filter] at hja hjb
    apply hab
    have h1 := hja.2
    have h2 := hjb.2
    simp only [decide_eq_true_eq] at h1 h2
    rw [← h1, ← h2]

theorem totalForce_built_eq_reference (sqrtf : K → K)
    (hsqrt : ∀ q : K, 0 ≤ q → 0 ≤ sqrtf q ∧ sqrtf q * sqrtf q = q)
    (rMax : K) (m : Int) (matrix : Arr K) (n : Int) (particles : Arr (Particle K))
    (grid gridMap : Arr Int) (hg : 3 ≤ ⌊2 / rMax⌋)
    (hpos : ∀ j, 0 ≤ j → j < n →
      (-1 ≤ (particles.get j).x ∧ (particles.get j).x < 1) ∧
      (-1 ≤ (particles.get j).y ∧ (particles.get j).y < 1))
    (i : Int) (hi0 : 0 ≤ i) (hin : i < n) :
    totalForce sqrtf rMax m matrix ⌊2 / rMax⌋
        (buildGrid n particles ⌊2 / rMax⌋ grid gridMap).1
        (buildGrid n particles ⌊2 / rMax⌋ grid gridMap).2 particles
        (cellCoord ⌊2 / rMax⌋ (particles.get i).x)
        (cellCoord ⌊2 / rMax⌋ (particles.get i).y) i =
      referenceForce sqrtf rMax m matrix n particles i := by
  have hg0 : (0 : Int) < ⌊2 / rMax⌋ := by omega
  have hn : 0 ≤ n := by omega
  have hcell : ∀ j, 0 ≤ j → j < n →
      0 ≤ gridIndexOf ⌊2 / rMax⌋ (particles.get j) ∧
      gridIndexOf ⌊2 / rMax⌋ (particles.get j) < ⌊2 / rMax⌋ * ⌊2 / rMax⌋ :=
    fun j h0 h1 => gridIndexOf_mem _ hg0 _ (hpos j h0 h1).1 (hpos j h0 h1).2
  have hcx := cellCoord_mem ⌊2 / rMax⌋ hg0 (particles.get i).x (hpos i hi0 hin).1.1
    (hpos i hi0 hin).1.2
  have hcy := cellCoord_mem ⌊2 / rMax⌋ hg0 (particles.get i).y (hpos i hi0 hin).2.1
    (hpos i hi0 hin).2.2
  rw [totalForce_eq_cells, ← sum_contribution_eq_reference]
  have e : (neighbourCells ⌊2 / rMax⌋ (cellCoord ⌊2 / rMax⌋ (particles.get i).x)
        (cellCoord ⌊2 / rMax⌋ (particles.get i).y)).map (fun c_ =>
        (((intRange ((buildGrid n particles ⌊2 / rMax⌋ grid gridMap).1.get c_)
            ((buildGrid n particles ⌊2 / rMax⌋ grid gridMap).1.get (c_ + 1))).map
          (buildGrid n particles ⌊2 / rMax⌋ grid gridMap).2.get).map
          (contribution sqrtf rMax m matrix particles i)).sum) =
      (neighbourCells ⌊2 / rMax⌋ (cellCoord ⌊2 / rMax⌋ (particles.get i).x)
        (cellCoord ⌊2 / rMax⌋ (particles.get i).y)).map (fun c_ =>
        (((intRange 0 n).filter
            (fun j => gridIndexOf ⌊2 / rMax⌋ (particles.get j) = c_)).map
          (contribution sqrtf rMax m matrix particles i)).sum) := by
    apply List.map_congr_left
    intro c_ hc_
    obtain ⟨h0, h1⟩ := neighbourCells_mem_grid _ _ _ hcx hcy c_ hc_
    rw [(buildGrid_spec n particles ⌊2 / rMax⌋ grid gridMap hn hcell).2 c_ h0 h1]
  rw [e, sum_fibers _ _ (neighbourCells_nodup _ _ _ hg hcx hcy)]
  apply sum_filter_of_zero
  intro j hj hnot
  rw [mem_intRange] at hj
  rw [contribution_eq]
  apply if_neg
  rintro ⟨_, _, hlt⟩
  exact hnot (near_cell_mem sqrtf hsqrt rMax hg _ _ (hpos i hi0 hin) (hpos j hj.1 hj.2) hlt)

end CompletenessMain

section WorkItems

variable {K : Type} [LinearOrderedField K] [FloorRing K]

theorem mem_velocityWork (g : Int) (grid : Arr Int) (item : Int × Int × Int) :
    item ∈ velocityWork g grid ↔
      (0 ≤ item.1 ∧ item.1 < g) ∧ (0 ≤ item.2.1 ∧ item.2.1 < g) ∧
      grid.get (item.2.1 + item.1 * g) ≤ item.2.2 ∧
      item.2.2 < grid.get (item.2.1 + item.1 * g + 1) := by
  unfold velocityWork
  simp only [List.mem_flatMap, List.mem_map, mem_intRange]
  constructor
  · rintro ⟨cy, hcy, cx, hcx, k, hk, rfl⟩
    exact ⟨hcy, hcx, hk.1, hk.2⟩
  · rintro ⟨hcy, hcx, hk1, hk2⟩
    exact ⟨item.1, hcy, item.2.1, hcx, item.2.2, ⟨hk1, hk2⟩, rfl⟩

/-- The particles that the velocity pass treats, in the order of treatment. -/
theorem velocityWork_treated (n : Int) (particles : Arr (Particle K)) (g : Int)
    (grid gridMap : Arr Int) (hn : 0 ≤ n)
    (hcell : ∀ i, 0 ≤ i → i < n →
      0 ≤ gridIndexOf g (particles.get i) ∧ gridIndexOf g (particles.get i) < g * g) :
    (velocityWork g (buildGrid n particles g grid gridMap).1).map
        (fun item => (buildGrid n particles g grid gridMap).2.get item.2.2) =
      (intRange 0 g).flatMap (fun cy => (intRange 0 g).flatMap (fun cx =>
        (intRange 0 n).filter (fun j => gridIndexOf g (particles.get j) = cx + cy * g))) := by
  unfold velocityWork
  rw [List.map_flatMap]
  apply List.flatMap_congr
  intro cy hcy
  rw [List.map_flatMap]
  apply List.flatMap_congr
  intro cx hcx
  rw [mem_intRange] at hcy hcx
  rw [List.map_map]
  have h0 : 0 ≤ cx + cy * g := by
    have := rowMajor_nonneg (m := g) hcx.1 (by omega) hcy.1
    omega
  have h1 : cx + cy * g < g * g := by
    have := rowMajor_lt (m := g) hcx.1 hcx.2 hcy.2
    omega
  rw [← (buildGrid_spec n particles g grid gridMap hn hcell).2 _ h0 h1]
  rfl

theorem velocityWork_nodup (n : Int) (particles : Arr (Particle K)) (g : Int)
    (grid gridMap : Arr Int) (hn : 0 ≤ n)
    (hcell : ∀ i, 0 ≤ i → i < n →
      0 ≤ gridIndexOf g (particles.get i) ∧ gridIndexOf g (particles.get i) < g * g) :
    ((velocityWork g (buildGrid n particles g grid gridMap).1).map
        (fun item => (buildGrid n particles g grid gridMap).2.get item.2.2)).Nodup := by
  rw [velocityWork_treated n particles g grid gridMap hn hcell, List.nodup_flatMap]
  constructor
  · intro cy hcy
    rw [List.nodup_flatMap]
    constructor
    · intro cx _
      exact (intRange_nodup 0 n).filter _
    · apply (intRange_nodup 0 g).pairwise_of_forall_ne
      intro a ha b hb hab
      rw [mem_intRange] at ha hb
      show List.Disjoint _ _
      rw [List.disjoint_left]
      intro j hja hjb
      rw [List.mem_filter] at hja hjb
      have h1 := hja.2
      have h2 := hjb.2
      simp only [decide_eq_true_eq] at h1 h2
      apply hab
      omega
  · apply (intRange_nodup 0 g).pairwise_of_forall_ne
    intro a ha b hb hab
    rw [mem_intRange] at ha hb
    show List.Disjoint _ _
    rw [List.disjoint_left]
    intro j hja hjb
    rw [List.mem_flatMap] at hja hjb
    obtain ⟨cx, hcx, hj1⟩ := hja
    obtain ⟨cx', hcx', hj2⟩ := hjb
    rw [mem_intRange] at hcx hcx'
    rw [List.mem_filter] at hj1 hj2
    have h1 := hj1.2
    have h2 := hj2.2
    simp only [decide_eq_true_eq] at h1 h2
    have e : a * g + cx = b * g + cx' := by omega
    exact hab (rowMajor_inj hcx.1 hcx.2 hcx'.1 hcx'.2 e).1

theorem velocityWork_covers (n : Int) (particles : Arr (Particle K)) (g : Int) (hg : 0 < g)
    (grid gridMap : Arr Int) (hn : 0 ≤ n)
    (hpos : ∀ j, 0 ≤ j → j < n →
      (-1 ≤ (particles.get j).x ∧ (particles.get j).x < 1) ∧
      (-1 ≤ (particles.get j).y ∧ (particles.get j).y < 1))
    (i : Int) :
    i ∈ (velocityWork g (buildGrid n particles g grid gridMap).1).map
        (fun item => (buildGrid n particles g grid gridMap).2.get item.2.2) ↔
      0 ≤ i ∧ i < n := by
  have hcell : ∀ j, 0 ≤ j → j < n →
      0 ≤ gridIndexOf g (particles.get j) ∧ gridIndexOf g (particles.get j) < g * g :=
    fun j h0 h1 => gridIndexOf_mem _ hg _ (hpos j h0 h1).1 (hpos j h0 h1).2
  rw [velocityWork_treated n particles g grid gridMap hn hcell]
  simp only [List.mem_flatMap, List.mem_filter, mem_intRange, decide_eq_true_eq]
  constructor
  · rintro ⟨cy, _, cx, _, hi, _⟩
    exact hi
  · intro hi
    have hx := cellCoord_mem g hg (particles.get i).x (hpos i hi.1 hi.2).1.1 (hpos i hi.1 hi.2).1.2
    have hy := cellCoord_mem g hg (particles.get i).y (hpos i hi.1 hi.2).2.1 (hpos i hi.1 hi.2).2.2
    exact ⟨cellCoord g (particles.get i).y, hy, cellCoord g (particles.get i).x, hx, hi, rfl⟩

/-- Every work item of the velocity pass treats a particle of the population,
met in the cell the particle lies in. -/
theorem velocityWork_own_cell (n : Int) (particles : Arr (Particle K)) (g : Int) (hg : 0 < g)
    (grid gridMap : Arr Int) (hn : 0 ≤ n)
    (hpos : ∀ j, 0 ≤ j → j < n →
      (-1 ≤ (particles.get j).x ∧ (particles.get j).x < 1) ∧
      (-1 ≤ (particles.get j).y ∧ (particles.get j).y < 1))
    (item : Int × Int × Int)
    (hitem : item ∈ velocityWork g (buildGrid n particles g grid gridMap).1) :
    (0 ≤ (buildGrid n particles g grid gridMap).2.get item.2.2 ∧
      (buildGrid n particles g grid gridMap).2.get item.2.2 < n) ∧
    item.2.1 = cellCoord g
      (particles.get ((buildGrid n particles g grid gridMap).2.get item.2.2)).x ∧
    item.1 = cellCoord g
      (particles.get ((buildGrid n particles g grid gridMap).2.get item.2.2)).y := by
  have hcell : ∀ j, 0 ≤ j → j < n →
      0 ≤ gridIndexOf g (particles.get j) ∧ gridIndexOf g (particles.get j) < g * g :=
    fun j h0 h1 => gridIndexOf_mem _ hg _ (hpos j h0 h1).1 (hpos j h0 h1).2
  rw [mem_velocityWork] at hitem
  obtain ⟨hcy, hcx, hk1, hk2⟩ := hitem
  have h0 : 0 ≤ item.2.1 + item.1 * g := by
    have := rowMajor_nonneg (m := g) hcx.1 (by omega) hcy.1
    omega
  have h1 : item.2.1 + item.1 * g < g * g := by
    have := rowMajor_lt (m := g) hcx.1 hcx.2 hcy.2
    omega
  have hmem : (buildGrid n particles g grid gridMap).2.get item.2.2 ∈
      (intRange ((buildGrid n particles g grid gridMap).1.get (item.2.1 + item.1 * g))
        ((buildGrid n particles g grid gridMap).1.get (item.2.1 + item.1 * g + 1))).map
        (buildGrid n particles g grid gridMap).2.get :=
    List.mem_map.mpr ⟨item.2.2, mem_intRange.mpr ⟨hk1, hk2⟩, rfl⟩
  rw [(buildGrid_spec n particles g grid gridMap hn hcell).2 _ h0 h1, List.mem_filter,
    mem_intRange] at hmem
  obtain ⟨hi, hc⟩ := hmem
  simp only [decide_eq_true_eq] at hc
  refine ⟨hi, ?_⟩
  have hx := cellCoord_mem g hg _ (hpos _ hi.1 hi.2).1.1 (hpos _ hi.1 hi.2).1.2
  have hy := cellCoord_mem g hg _ (hpos _ hi.1 hi.2).2.1 (hpos _ hi.1 hi.2).2.2
  unfold gridIndexOf at hc
  have e : item.1 * g + item.2.1 =
      cellCoord g (particles.get ((buildGrid n particles g grid gridMap).2.get item.2.2)).y * g +
      cellCoord g (particles.get ((buildGrid n particles g grid gridMap).2.get item.2.2)).x := by
    omega
  obtain ⟨e1, e2⟩ := rowMajor_inj hcx.1 hcx.2 hx.1 hx.2 e
  exact ⟨e2, e1⟩

end WorkItems

section Frozen

variable {K : Type} [LinearOrderedField K] [FloorRing K]

theorem pairForce_congr (sqrtf : K → K) (rMax : K) (m : Int) (matrix : Arr K)
    (p p_ q q_ : Particle K) (acc : K × K)
    (hp : p.x = q.x ∧ p.y = q.y ∧ p.type = q.type)
    (hp_ : p_.x = q_.x ∧ p_.y = q_.y ∧ p_.type = q_.type) :
    pairForce sqrtf rMax m matrix p p_ acc = pairForce sqrtf rMax m matrix q q_ acc := by
  unfold pairForce
  rw [hp.1, hp.2.1, hp.2.2, hp_.1, hp_.2.1, hp_.2.2]

/-- The force sum reads only positions and types: two particle arrays that
agree on them give the same sum. -/
theorem totalForce_congr (sqrtf : K → K) (rMax : K) (m : Int) (matrix : Arr K)
    (gridSize : Int) (grid gridMap : Arr Int) (ps qs : Arr (Particle K))
    (h : ∀ j, (ps.get j).x = (qs.get j).x ∧ (ps.get j).y = (qs.get j).y ∧
      (ps.get j).type = (qs.get j).type) (cx cy i : Int) :
    totalForce sqrtf rMax m matrix gridSize grid gridMap ps cx cy i =
      totalForce sqrtf rMax m matrix gridSize grid gridMap qs cx cy i := by
  unfold totalForce
  have e : ∀ (i_ : Int) (acc : K × K),
      pairForce sqrtf rMax m matrix (ps.get i) (ps.get i_) acc =
        pairForce sqrtf rMax m matrix (qs.get i) (qs.get i_) acc :=
    fun i_ acc => pairForce_congr sqrtf rMax m matrix _ _ _ _ acc (h i) (h i_)
  simp only [e]

theorem velocityStep_eq (sqrtf : K → K) (rMax forceFactor dt frictionFactor : K) (m : Int)
    (matrix : Arr K) (gridSize : Int) (grid gridMap : Arr Int)
    (ps : Arr (Particle K)) (item : Int × Int × Int) :
    velocityStep sqrtf rMax forceFactor dt frictionFactor m matrix gridSize grid gridMap ps item =
      ps.set (gridMap.get item.2.2)
        (withNewVelocity rMax forceFactor dt frictionFactor (ps.get (gridMap.get item.2.2))
          (totalForce sqrtf rMax m matrix gridSize grid gridMap ps item.2.1 item.1
            (gridMap.get item.2.2))) := rfl

/-- In-place processing of a list of work items that treats no particle twice:
every treated particle gets the velocity computed from the forces of the
initial array, every other particle is untouched. -/
theorem velocityPass_get (sqrtf : K → K) (rMax forceFactor dt frictionFactor : K) (m : Int)
    (matrix : Arr K) (gridSize : Int) (grid gridMap : Arr Int)
    (ps0 : Arr (Particle K)) (target : Int → K × K) :
    ∀ (work : List (Int × Int × Int)) (ps : Arr (Particle K)),
      (∀ j, (ps.get j).x = (ps0.get j).x ∧ (ps.get j).y = (ps0.get j).y ∧
        (ps.get j).type = (ps0.get j).type) →
      (work.map (fun item => gridMap.get item.2.2)).Nodup →
      (∀ item ∈ work,
        totalForce sqrtf rMax m matrix gridSize grid gridMap ps0 item.2.1 item.1
          (gridMap.get item.2.2) = target (gridMap.get item.2.2)) →
      ∀ j, (velocityPass sqrtf rMax forceFactor dt frictionFactor m matrix gridSize grid
          gridMap work ps).get j =
        if j ∈ work.map (fun item => gridMap.get item.2.2)
        then withNewVelocity rMax forceFactor dt frictionFactor (ps.get j) (target j)
        else ps.get j := by
  intro work
  induction work with
  | nil =>
    intro ps _ _ _ j
    simp [velocityPass]
  | cons item work ih =>
    intro ps hgeo hnd htarget j
    rw [List.map_cons, List.nodup_cons] at hnd
    have hF : totalForce sqrtf rMax m matrix gridSize grid gridMap ps item.2.1 item.1
        (gridMap.get item.2.2) = target (gridMap.get item.2.2) := by
      rw [totalForce_congr sqrtf rMax m matrix gridSize grid gridMap ps ps0 hgeo]
      exact htarget item (List.mem_cons_self _ _)
    have hgeo' : ∀ j,
        ((velocityStep sqrtf rMax forceFactor dt frictionFactor m matrix gridSize grid gridMap
          ps item).get j).x = (ps0.get j).x ∧
        ((velocityStep sqrtf rMax forceFactor dt frictionFactor m matrix gridSize grid gridMap
          ps item).get j).y = (ps0.get j).y ∧
        ((velocityStep sqrtf rMax forceFactor dt frictionFactor m matrix gridSize grid gridMap
          ps item).get j).type = (ps0.get j).type := by
      intro j
      rw [velocityStep_eq, Arr.get_set]
      split_ifs with hj
      · rw [hj]
        exact hgeo _
      · exact hgeo j
    have ih' := ih _ hgeo' hnd.2 (fun it hit => htarget it (List.mem_cons_of_mem _ hit)) j
    unfold velocityPass at ih' ⊢
    rw [List.foldl_cons, ih', velocityStep_eq, Arr.get_set, hF]
    have hmem : j ∈ (item :: work).map (fun item => gridMap.get item.2.2) ↔
        j = gridMap.get item.2.2 ∨ j ∈ work.map (fun item => gridMap.get item.2.2) := by
      rw [List.map_cons, List.mem_cons]
    by_cases hj : j = gridMap.get item.2.2
    · rw [if_pos hj, if_neg (by rw [hj]; exact hnd.1), if_pos (hmem.mpr (Or.inl hj)), hj]
    · rw [if_neg hj]
      by_cases hm : j ∈ work.map (fun item => gridMap.get item.2.2)
      · rw [if_pos hm, if_pos (hmem.mpr (Or.inr hm))]
      · rw [if_neg hm, if_neg (fun h => (hmem.mp h).elim hj hm)]

theorem foldl_flatMap {α β γ : Type} (f : γ → β → γ) (g : α → List β) (l : List α) (c : γ) :
    (l.flatMap g).foldl f c = l.foldl (fun c a => (g a).foldl f c) c := by
  induction l generalizing c with
  | nil => rfl
  | cons a l ih =>
    rw [List.flatMap_cons, List.foldl_append, List.foldl_cons, ih]

/-- The three nested loops of the velocity pass are the in-place processing of
the work items in loop order. -/
theorem velocities_eq_pass (sqrtf : K → K) (rMax forceFactor dt frictionFactor : K) (m : Int)
    (matrix : Arr K) (gridSize : Int) (grid gridMap : Arr Int) (ps : Arr (Particle K)) :
    velocities sqrtf rMax forceFactor dt frictionFactor m matrix gridSize grid gridMap ps =
      velocityPass sqrtf rMax forceFactor dt frictionFactor m matrix gridSize grid gridMap
        (velocityWork gridSize grid) ps := by
  unfold velocities velocityPass velocityWork
  rw [foldl_flatMap]
  congr 1
  funext ps cy
  rw [foldl_flatMap]
  congr 1
  funext ps cx
  rw [List.foldl_map]

theorem positions_fold_get (dt : K) (l : List Int) (hl : l.Nodup) (ps : Arr (Particle K))
    (j : Int) :
    (l.foldl (positionStep dt) ps).get j =
      if j ∈ l then withNewPosition dt (ps.get j) else ps.get j := by
  induction l generalizing ps with
  | nil => simp
  | cons a l ih =>
    rw [List.nodup_cons] at hl
    rw [List.foldl_cons, ih hl.2]
    have hstep : positionStep dt ps a = ps.set a (withNewPosition dt (ps.get a)) := rfl
    rw [hstep, Arr.get_set]
    have hmem : j ∈ a :: l ↔ j = a ∨ j ∈ l := List.mem_cons
    by_cases hj : j = a
    · rw [if_pos hj, if_neg (by rw [hj]; exact hl.1), if_pos (hmem.mpr (Or.inl hj)), hj]
    · rw [if_neg hj]
      by_cases hm : j ∈ l
      · rw [if_pos hm, if_pos (hmem.mpr (Or.inr hm))]
      · rw [if_neg hm, if_neg (fun h => (hmem.mp h).elim hj hm)]

theorem positions_get (n : Int) (dt : K) (ps : Arr (Particle K)) (j : Int) :
    (positions n dt ps).get j =
      if 0 ≤ j ∧ j < n then withNewPosition dt (ps.get j) else ps.get j := by
  unfold positions
  rw [positions_fold_get dt _ (intRange_nodup 0 n)]
  simp only [mem_intRange]

theorem update_of_grid (pow : K → K → K) (sqrtf : K → K) (s : ParticleSystem K)
    (hg : 3 ≤ ⌊2 / s.rMax⌋) :
    update pow sqrtf s =
      { s with
        gridSize := ⌊2 / s.rMax⌋,
        grid := (buildGrid s.n s.particles ⌊2 / s.rMax⌋ s.grid s.gridMap).1,
        gridMap := (buildGrid s.n s.particles ⌊2 / s.rMax⌋ s.grid s.gridMap).2,
        particles := positions s.n s.dt
          (velocities sqrtf s.rMax s.forceFactor s.dt (pow (1 / 2) (s.dt / s.frictionHalfLife))
            s.m s.matrix ⌊2 / s.rMax⌋
            (buildGrid s.n s.particles ⌊2 / s.rMax⌋ s.grid s.gridMap).1
            (buildGrid s.n s.particles ⌊2 / s.rMax⌋ s.grid s.gridMap).2 s.particles) } := by
  unfold update
  simp only [ne_eq, ite_not, if_neg (show ¬ ⌊2 / s.rMax⌋ < 3 by omega)]
  split_ifs with h1
  · rw [← h1]
  · rfl

end Frozen

section StepFacts

variable {K : Type} [LinearOrderedField K] [FloorRing K]

/-- What `update` stores for each particle when the grid has at least 3 x 3
cells: the particle with its new velocity (from the reference force of the
pre-step array) and then its new position. -/
theorem update_particles_get (pow : K → K → K) (sqrtf : K → K)
    (hsqrt : ∀ q : K, 0 ≤ q → 0 ≤ sqrtf q ∧ sqrtf q * sqrtf q = q)
    (s : ParticleSystem K) (hg : 3 ≤ ⌊2 / s.rMax⌋) (hn : 0 ≤ s.n)
    (hpos : ∀ j, 0 ≤ j → j < s.n →
      (-1 ≤ (s.particles.get j).x ∧ (s.particles.get j).x < 1) ∧
      (-1 ≤ (s.particles.get j).y ∧ (s.particles.get j).y < 1))
    (work : List (Int × Int × Int))
    (hwork : work.Perm (velocityWork ⌊2 / s.rMax⌋
      (buildGrid s.n s.particles ⌊2 / s.rMax⌋ s.grid s.gridMap).1))
    (order : List Int) (horder : order.Perm (intRange 0 s.n))
    (j : Int) :
    (order.foldl (positionStep s.dt)
      (velocityPass sqrtf s.rMax s.forceFactor s.dt (pow (1 / 2) (s.dt / s.frictionHalfLife))
        s.m s.matrix ⌊2 / s.rMax⌋
        (buildGrid s.n s.particles ⌊2 / s.rMax⌋ s.grid s.gridMap).1
        (buildGrid s.n s.particles ⌊2 / s.rMax⌋ s.grid s.gridMap).2 work s.particles)).get j =
      if 0 ≤ j ∧ j < s.n then
        withNewPosition s.dt
          (withNewVelocity s.rMax s.forceFactor s.dt (pow (1 / 2) (s.dt / s.frictionHalfLife))
            (s.particles.get j)
            (referenceForce sqrtf s.rMax s.m s.matrix s.n s.particles j))
      else s.particles.get j := by
  have hg0 : (0 : Int) < ⌊2 / s.rMax⌋ := by omega
  have hcell : ∀ j, 0 ≤ j → j < s.n →
      0 ≤ gridIndexOf ⌊2 / s.rMax⌋ (s.particles.get j) ∧
      gridIndexOf ⌊2 / s.rMax⌋ (s.particles.get j) < ⌊2 / s.rMax⌋ * ⌊2 / s.rMax⌋ :=
    fun j h0 h1 => gridIndexOf_mem _ hg0 _ (hpos j h0 h1).1 (hpos j h0 h1).2
  have hnd := velocityWork_nodup s.n s.particles ⌊2 / s.rMax⌋ s.grid s.gridMap hn hcell
  have hperm := hwork.map
    (fun item => (buildGrid s.n s.particles ⌊2 / s.rMax⌋ s.grid s.gridMap).2.get item.2.2)
  have hpass := velocityPass_get sqrtf s.rMax s.forceFactor s.dt
    (pow (1 / 2) (s.dt / s.frictionHalfLife)) s.m s.matrix ⌊2 / s.rMax⌋
    (buildGrid s.n s.particles ⌊2 / s.rMax⌋ s.grid s.gridMap).1
    (buildGrid s.n s.particles ⌊2 / s.rMax⌋ s.grid s.gridMap).2 s.particles
    (referenceForce sqrtf s.rMax s.m s.matrix s.n s.particles) work s.particles
    (fun _ => ⟨rfl, rfl, rfl⟩) (hperm.nodup_iff.mpr hnd)
    (by
      intro item hitem
      have hitem' := hwork.mem_iff.mp hitem
      obtain ⟨hi, ex, ey⟩ := velocityWork_own_cell s.n s.particles ⌊2 / s.rMax⌋ hg0 s.grid
        s.gridMap hn hpos item hitem'
      rw [ex, ey]
      exact totalForce_built_eq_reference sqrtf hsqrt s.rMax s.m s.matrix s.n s.particles
        s.grid s.gridMap hg hpos _ hi.1 hi.2)
    j
  have hcov := velocityWork_covers s.n s.particles ⌊2 / s.rMax⌋ hg0 s.grid s.gridMap hn hpos j
  have hmem : j ∈ order ↔ 0 ≤ j ∧ j < s.n := by
    rw [horder.mem_iff, mem_intRange]
  rw [positions_fold_get s.dt order (horder.nodup_iff.mpr (intRange_nodup 0 s.n)), hpass]
  by_cases hj : 0 ≤ j ∧ j < s.n
  · rw [if_pos (hmem.mpr hj), if_pos (hperm.mem_iff.mpr (hcov.mpr hj)), if_pos hj]
  · rw [if_neg (fun h => hj (hmem.mp h)),
      if_neg (fun h => hj (hcov.mp (hperm.mem_iff.mp h))), if_neg hj]

end StepFacts

section StepClaims

variable {K : Type} [LinearOrderedField K] [FloorRing K]

theorem referenceForce_congr (sqrtf : K → K) (rMax : K) (m : Int) (matrix : Arr K) (n : Int)
    (ps qs : Arr (Particle K))
    (h : ∀ j, (ps.get j).x = (qs.get j).x ∧ (ps.get j).y = (qs.get j).y ∧
      (ps.get j).type = (qs.get j).type) (i : Int) :
    referenceForce sqrtf rMax m matrix n ps i = referenceForce sqrtf rMax m matrix n qs i := by
  have hx : ∀ j, (ps.get j).x = (qs.get j).x := fun j => (h j).1
  have hy : ∀ j, (ps.get j).y = (qs.get j).y := fun j => (h j).2.1
  have ht : ∀ j, (ps.get j).type = (qs.get j).type := fun j => (h j).2.2
  unfold referenceForce
  simp only [hx, hy, ht]

/-- Neighbour-completeness in exact arithmetic.  With all positions in [-1, 1),
gridSize = floor(2 / rMax) ≥ 3 (so rMax > 0) and `sqrtf` the exact square root,
the force sum that `update` accumulates for particle `i` by scanning the 3 x 3
wrapped neighbourhood of its cell equals the O(n²) reference sum over all `j ≠
i` with periodic distance `0 < r < rMax`.  The velocity pass meets `i` in its
own cell; the scan visits no particle twice, and visits every particle within
distance `rMax` (also when gridSize is exactly 3). -/
theorem neighbour_completeness (sqrtf : K → K)
    (hsqrt : ∀ q : K, 0 ≤ q → 0 ≤ sqrtf q ∧ sqrtf q * sqrtf q = q)
    (rMax : K) (m : Int) (matrix : Arr K) (n : Int) (particles : Arr (Particle K))
    (grid gridMap : Arr Int) (hg : 3 ≤ ⌊2 / rMax⌋)
    (hpos : ∀ j, 0 ≤ j → j < n →
      (-1 ≤ (particles.get j).x ∧ (particles.get j).x < 1) ∧
      (-1 ≤ (particles.get j).y ∧ (particles.get j).y < 1))
    (i : Int) (hi0 : 0 ≤ i) (hin : i < n) :
    totalForce sqrtf rMax m matrix ⌊2 / rMax⌋
        (buildGrid n particles ⌊2 / rMax⌋ grid gridMap).1
        (buildGrid n particles ⌊2 / rMax⌋ grid gridMap).2 particles
        (cellCoord ⌊2 / rMax⌋ (particles.get i).x)
        (cellCoord ⌊2 / rMax⌋ (particles.get i).y) i =
      referenceForce sqrtf rMax m matrix n particles i ∧
    (∃ item ∈ velocityWork ⌊2 / rMax⌋ (buildGrid n particles ⌊2 / rMax⌋ grid gridMap).1,
      (buildGrid n particles ⌊2 / rMax⌋ grid gridMap).2.get item.2.2 = i) ∧
    (∀ item ∈ velocityWork ⌊2 / rMax⌋ (buildGrid n particles ⌊2 / rMax⌋ grid gridMap).1,
      (buildGrid n particles ⌊2 / rMax⌋ grid gridMap).2.get item.2.2 = i →
      item.2.1 = cellCoord ⌊2 / rMax⌋ (particles.get i).x ∧
      item.1 = cellCoord ⌊2 / rMax⌋ (particles.get i).y) ∧
    (scanList ⌊2 / rMax⌋ (buildGrid n particles ⌊2 / rMax⌋ grid gridMap).1
        (buildGrid n particles ⌊2 / rMax⌋ grid gridMap).2
        (cellCoord ⌊2 / rMax⌋ (particles.get i).x)
        (cellCoord ⌊2 / rMax⌋ (particles.get i).y)).Nodup ∧
    (∀ j, 0 ≤ j → j < n →
      sqrtf (boundary ((particles.get j).x - (particles.get i).x) *
          boundary ((particles.get j).x - (particles.get i).x) +
        boundary ((particles.get j).y - (particles.get i).y) *
          boundary ((particles.get j).y - (particles.get i).y)) < rMax →
      j ∈ scanList ⌊2 / rMax⌋ (buildGrid n particles ⌊2 / rMax⌋ grid gridMap).1
        (buildGrid n particles ⌊2 / rMax⌋ grid gridMap).2
        (cellCoord ⌊2 / rMax⌋ (particles.get i).x)
        (cellCoord ⌊2 / rMax⌋ (particles.get i).y)) := by
  have hg0 : (0 : Int) < ⌊2 / rMax⌋ := by omega
  have hn : 0 ≤ n := by omega
  have hcell : ∀ j, 0 ≤ j → j < n →
      0 ≤ gridIndexOf ⌊2 / rMax⌋ (particles.get j) ∧
      gridIndexOf ⌊2 / rMax⌋ (particles.get j) < ⌊2 / rMax⌋ * ⌊2 / rMax⌋ :=
    fun j h0 h1 => gridIndexOf_mem _ hg0 _ (hpos j h0 h1).1 (hpos j h0 h1).2
  have hcx := cellCoord_mem ⌊2 / rMax⌋ hg0 (particles.get i).x (hpos i hi0 hin).1.1
    (hpos i hi0 hin).1.2
  have hcy := cellCoord_mem ⌊2 / rMax⌋ hg0 (particles.get i).y (hpos i hi0 hin).2.1
    (hpos i hi0 hin).2.2
  refine ⟨?_, ?_, ?_, ?_, ?_⟩
  · exact totalForce_built_eq_reference sqrtf hsqrt rMax m matrix n particles grid gridMap hg
      hpos i hi0 hin
  · have := (velocityWork_covers n particles ⌊2 / rMax⌋ hg0 grid gridMap hn hpos i).mpr
      ⟨hi0, hin⟩
    rw [List.mem_map] at this
    obtain ⟨item, h1, h2⟩ := this
    exact ⟨item, h1, h2⟩
  · intro item hitem hi
    have := velocityWork_own_cell n particles ⌊2 / rMax⌋ hg0 grid gridMap hn hpos item hitem
    rw [hi] at this
    exact this.2
  · exact scanList_nodup n particles ⌊2 / rMax⌋ hg grid gridMap hn hcell _ _ hcx hcy
  · intro j hj0 hjn hnear
    rw [scanList_built n particles ⌊2 / rMax⌋ grid gridMap hn hcell _ _ hcx hcy,
      List.mem_flatMap]
    refine ⟨gridIndexOf ⌊2 / rMax⌋ (particles.get j), ?_, ?_⟩
    · exact near_cell_mem sqrtf hsqrt rMax hg _ _ (hpos i hi0 hin) (hpos j hj0 hjn) hnear
    · rw [List.mem_filter, mem_intRange]
      exact ⟨⟨hj0, hjn⟩, by simp⟩

/-- In exact arithmetic, one `update` step with gridSize ≥ 3 acts on a frozen
snapshot, damping before impulse.  For every particle `i`, with `F_i` the
reference force sum of the pre-step array (a function of the pre-step positions
and types only), the new velocity is `v_i * pow(0.5, dt / frictionHalfLife) +
F_i * rMax * forceFactor * dt`, the new position is `boundary(x_i + v_i' * dt)`
with the new velocity, the type is kept; and processing the work items of the
velocity pass and the particles of the position pass in any other order gives
the same particle array. -/
theorem update_frozen_snapshot (pow : K → K → K) (sqrtf : K → K)
    (hsqrt : ∀ q : K, 0 ≤ q → 0 ≤ sqrtf q ∧ sqrtf q * sqrtf q = q)
    (s : ParticleSystem K) (hg : 3 ≤ ⌊2 / s.rMax⌋)
    (hpos : ∀ j, 0 ≤ j → j < s.n →
      (-1 ≤ (s.particles.get j).x ∧ (s.particles.get j).x < 1) ∧
      (-1 ≤ (s.particles.get j).y ∧ (s.particles.get j).y < 1))
    (i : Int) (hi0 : 0 ≤ i) (hin : i < s.n) :
    ((update pow sqrtf s).particles.get i).vx =
      (s.particles.get i).vx * pow (1 / 2) (s.dt / s.frictionHalfLife) +
        (referenceForce sqrtf s.rMax s.m s.matrix s.n s.particles i).1 * s.rMax *
          s.forceFactor * s.dt ∧
    ((update pow sqrtf s).particles.get i).vy =
      (s.particles.get i).vy * pow (1 / 2) (s.dt / s.frictionHalfLife) +
        (referenceForce sqrtf s.rMax s.m s.matrix s.n s.particles i).2 * s.rMax *
          s.forceFactor * s.dt ∧
    ((update pow sqrtf s).particles.get i).x =
      boundary ((s.particles.get i).x + ((update pow sqrtf s).particles.get i).vx * s.dt) ∧
    ((update pow sqrtf s).particles.get i).y =
      boundary ((s.particles.get i).y + ((update pow sqrtf s).particles.get i).vy * s.dt) ∧
    ((update pow sqrtf s).particles.get i).type = (s.particles.get i).type ∧
    (∀ ps : Arr (Particle K),
      (∀ j, (ps.get j).x = (s.particles.get j).x ∧ (ps.get j).y = (s.particles.get j).y ∧
        (ps.get j).type = (s.particles.get j).type) →
      referenceForce sqrtf s.rMax s.m s.matrix s.n ps i =
        referenceForce sqrtf s.rMax s.m s.matrix s.n s.particles i) ∧
    (∀ (work : List (Int × Int × Int)) (order : List Int),
      work.Perm (velocityWork ⌊2 / s.rMax⌋
        (buildGrid s.n s.particles ⌊2 / s.rMax⌋ s.grid s.gridMap).1) →
      order.Perm (intRange 0 s.n) →
      order.foldl (positionStep s.dt)
        (velocityPass sqrtf s.rMax s.forceFactor s.dt
          (pow (1 / 2) (s.dt / s.frictionHalfLife)) s.m s.matrix ⌊2 / s.rMax⌋
          (buildGrid s.n s.particles ⌊2 / s.rMax⌋ s.grid s.gridMap).1
          (buildGrid s.n s.particles ⌊2 / s.rMax⌋ s.grid s.gridMap).2 work s.particles) =
        (update pow sqrtf s).particles) := by
  have hn : 0 ≤ s.n := by omega
  have hupd : ∀ j, (update pow sqrtf s).particles.get j =
      if 0 ≤ j ∧ j < s.n then
        withNewPosition s.dt
          (withNewVelocity s.rMax s.forceFactor s.dt (pow (1 / 2) (s.dt / s.frictionHalfLife))
            (s.particles.get j)
            (referenceForce sqrtf s.rMax s.m s.matrix s.n s.particles j))
      else s.particles.get j := by
    intro j
    rw [update_of_grid pow sqrtf s hg]
    simp only
    rw [velocities_eq_pass]
    exact update_particles_get pow sqrtf hsqrt s hg hn hpos _ (List.Perm.refl _) _
      (List.Perm.refl _) j
  have hi := hupd i
  rw [if_pos ⟨hi0, hin⟩] at hi
  refine ⟨?_, ?_, ?_, ?_, ?_, ?_, ?_⟩
  · rw [hi]
    simp only [withNewPosition, withNewVelocity]
    ring
  · rw [hi]
    simp only [withNewPosition, withNewVelocity]
    ring
  · rw [hi]
    simp only [withNewPosition, withNewVelocity]
  · rw [hi]
    simp only [withNewPosition, withNewVelocity]
  · rw [hi]
    simp only [withNewPosition, withNewVelocity]
  · intro ps h
    exact referenceForce_congr sqrtf s.rMax s.m s.matrix s.n ps s.particles h i
  · intro work order hwork horder
    apply Arr.ext_get
    intro j
    rw [hupd j]
    exact update_particles_get pow sqrtf hsqrt s hg hn hpos work hwork order horder j

end StepClaims

section DemoFacts

theorem demo_grid_ok : 3 ≤ ⌊2 / (demoSystemOver ℝ).rMax⌋ := by
  show (3 : Int) ≤ ⌊(2 : ℝ) / (1 / 2)⌋
  apply Int.le_floor.mpr
  norm_num

theorem demo_positions_ok : ∀ j, 0 ≤ j → j < (demoSystemOver ℝ).n →
    (-1 ≤ ((demoSystemOver ℝ).particles.get j).x ∧
      ((demoSystemOver ℝ).particles.get j).x < 1) ∧
    (-1 ≤ ((demoSystemOver ℝ).particles.get j).y ∧
      ((demoSystemOver ℝ).particles.get j).y < 1) := by
  intro j _ _
  simp only [demoSystemOver]
  split_ifs <;> norm_num

theorem real_sqrt_exact : ∀ q : ℝ, 0 ≤ q → 0 ≤ Real.sqrt q ∧ Real.sqrt q * Real.sqrt q = q :=
  fun q hq => ⟨Real.sqrt_nonneg q, Real.mul_self_sqrt hq⟩

/-- Neighbour-completeness in exact arithmetic at the demo system over the
reals with the real square root, particle 0. -/
theorem neighbour_completeness_witness :
    totalForce Real.sqrt (demoSystemOver ℝ).rMax (demoSystemOver ℝ).m (demoSystemOver ℝ).matrix
        ⌊2 / (demoSystemOver ℝ).rMax⌋
        (buildGrid (demoSystemOver ℝ).n (demoSystemOver ℝ).particles
          ⌊2 / (demoSystemOver ℝ).rMax⌋ (demoSystemOver ℝ).grid (demoSystemOver ℝ).gridMap).1
        (buildGrid (demoSystemOver ℝ).n (demoSystemOver ℝ).particles
          ⌊2 / (demoSystemOver ℝ).rMax⌋ (demoSystemOver ℝ).grid (demoSystemOver ℝ).gridMap).2
        (demoSystemOver ℝ).particles
        (cellCoord ⌊2 / (demoSystemOver ℝ).rMax⌋ ((demoSystemOver ℝ).particles.get 0).x)
        (cellCoord ⌊2 / (demoSystemOver ℝ).rMax⌋ ((demoSystemOver ℝ).particles.get 0).y) 0 =
      referenceForce Real.sqrt (demoSystemOver ℝ).rMax (demoSystemOver ℝ).m
        (demoSystemOver ℝ).matrix (demoSystemOver ℝ).n (demoSystemOver ℝ).particles 0 :=
  (neighbour_completeness Real.sqrt real_sqrt_exact (demoSystemOver ℝ).rMax
    (demoSystemOver ℝ).m (demoSystemOver ℝ).matrix (demoSystemOver ℝ).n
    (demoSystemOver ℝ).particles (demoSystemOver ℝ).grid (demoSystemOver ℝ).gridMap
    demo_grid_ok demo_positions_ok 0 (by decide) (by decide)).1

/-- The frozen-snapshot step of exact arithmetic at the demo system over the
reals, particle 0. -/
theorem update_frozen_snapshot_witness :
    ((update (fun a b => a ^ b) Real.sqrt (demoSystemOver ℝ)).particles.get 0).vx =
      ((demoSystemOver ℝ).particles.get 0).vx *
          (1 / 2 : ℝ) ^ ((demoSystemOver ℝ).dt / (demoSystemOver ℝ).frictionHalfLife) +
        (referenceForce Real.sqrt (demoSystemOver ℝ).rMax (demoSystemOver ℝ).m
          (demoSystemOver ℝ).matrix (demoSystemOver ℝ).n (demoSystemOver ℝ).particles 0).1 *
          (demoSystemOver ℝ).rMax * (demoSystemOver ℝ).forceFactor * (demoSystemOver ℝ).dt :=
  (update_frozen_snapshot (fun a b => a ^ b) Real.sqrt real_sqrt_exact (demoSystemOver ℝ)
    demo_grid_ok demo_positions_ok 0 (by decide) (by decide)).1

theorem demo_types_ok : ∀ i, 0 ≤ i → i < demoSystem.n →
    0 ≤ (demoSystem.particles.get i).type ∧ (demoSystem.particles.get i).type < demoSystem.m := by
  intro i _ _
  simp only [demoSystem, demoSystemOver]
  split_ifs <;> decide

/-- Witness for C9: the demo system drawn on a 2 x 2 raster, clearing first. -/
theorem renderDensity_histogram_witness :
    ((intRange 0 (2 * 2 * demoSystem.m)).map
        (renderDensity ⟨fun _ => 7⟩ 2 2 demoSystem 1 0 0 true).get).sum =
      (((intRange 0 demoSystem.n).countP
        (fun i => inRaster 2 2 demoSystem 1 0 0 i) : Nat) : Int) :=
  ((renderDensity_histogram ⟨fun _ => 7⟩ 2 2 demoSystem 1 0 0 true (by decide)
    demo_types_ok).2.1 rfl).1

end DemoFacts

section ModeClaims

variable {K : Type} [LinearOrderedField K]

/-- C15: an out-of-range mode selector is rejected without mutation:
`randomizeMatrix` with mode < 1 or mode > 2, and `initPositions` with mode < 1
or mode > 4, return the system as it was (every matrix entry, every particle's
position, velocity and type) and the unchanged count of random draws. -/
theorem mode_out_of_range_rejected (cos sin : K → K) (pi : K) (rnd : Nat → K)
    (s : ParticleSystem K) (c : Nat) :
    (∀ mode : Int, mode < 1 ∨ mode > 2 → randomizeMatrix rnd s mode c = (s, c)) ∧
    (∀ mode : Int, mode < 1 ∨ mode > 4 →
      initPositions cos sin pi rnd s mode c = (s, c)) := by
  constructor
  · intro mode h
    unfold randomizeMatrix NUM_MATRIX_MODES
    rw [if_pos h]
  · intro mode h
    unfold initPositions NUM_POSITION_MODES
    rw [if_pos h]

theorem uniformStep_eq (rnd : Nat → K) (st : Arr (Particle K) × Nat) (i : Int) :
    uniformStep rnd st i =
      (st.1.set i ⟨(st.1.get i).type, rnd st.2 * 2 - 1, rnd (st.2 + 1) * 2 - 1,
        (st.1.get i).vx, (st.1.get i).vy⟩, st.2 + 2) := rfl

theorem uniform_fold_get (rnd : Nat → K) (c : Nat) (ps : Arr (Particle K)) :
    ∀ k : Int, 0 ≤ k →
      ((intRange 0 k).foldl (uniformStep rnd) (ps, c)).2 = c + 2 * k.toNat ∧
      ∀ i : Int, ((intRange 0 k).foldl (uniformStep rnd) (ps, c)).1.get i =
        if 0 ≤ i ∧ i < k then
          ⟨(ps.get i).type, rnd (c + 2 * i.toNat) * 2 - 1, rnd (c + 2 * i.toNat + 1) * 2 - 1,
            (ps.get i).vx, (ps.get i).vy⟩
        else ps.get i := by
  apply nonneg_induction
  · rw [intRange_of_le le_rfl]
    refine ⟨rfl, fun i => ?_⟩
    rw [if_neg (by omega)]
    rfl
  · intro k hk ih
    obtain ⟨ih1, ih2⟩ := ih
    rw [intRange_succ hk, List.foldl_append, List.foldl_cons, List.foldl_nil, uniformStep_eq]
    refine ⟨?_, fun i => ?_⟩
    · show ((intRange 0 k).foldl (uniformStep rnd) (ps, c)).2 + 2 = c + 2 * (k + 1).toNat
      rw [ih1]
      omega
    · show (((intRange 0 k).foldl (uniformStep rnd) (ps, c)).1.set k _).get i = _
      rw [Arr.get_set]
      by_cases h : i = k
      · subst h
        rw [if_pos rfl, if_pos ⟨hk, by omega⟩, ih1, ih2 i, if_neg (by omega)]
      · rw [if_neg h, ih2 i]
        by_cases h2 : 0 ≤ i ∧ i < k
        · rw [if_pos h2, if_pos ⟨h2.1, by omega⟩]
        · rw [if_neg h2, if_neg (by omega)]

/-- What mode 1 ("uniform") of `initPositions` stores: particle `i` gets
`x = 2 * r - 1` and `y = 2 * r' - 1` for the draws number `2i` and `2i + 1`. -/
theorem initPositions_uniform_get (cos sin : K → K) (pi : K) (rnd : Nat → K)
    (s : ParticleSystem K) (c : Nat) (hn : 0 ≤ s.n) (i : Int) :
    (initPositions cos sin pi rnd s 1 c).1.particles.get i =
      if 0 ≤ i ∧ i < s.n then
        ⟨(s.particles.get i).type, rnd (c + 2 * i.toNat) * 2 - 1,
          rnd (c + 2 * i.toNat + 1) * 2 - 1, (s.particles.get i).vx, (s.particles.get i).vy⟩
      else s.particles.get i := by
  unfold initPositions NUM_POSITION_MODES
  rw [if_neg (by omega), if_pos rfl]
  exact (uniform_fold_get rnd c s.particles s.n hn).2 i

/-- C16 fails on the code: when `randFloat()` returns 1 (that is `rand()`
returned `RAND_MAX`), mode 1 of `initPositions` stores the position (1, 1), which
is outside [-1, 1); the cell index that `update` computes for it (here with
gridSize 4) is then 20, beyond the 16 cells of the grid. -/
theorem initPositions_uniform_draw_one :
    ((initPositions id id 0 (fun _ => (1 : ℚ)) (singleParticleSystem ℚ 0 1 0 0) 1 0).1.particles.get
      0).x = 1 ∧
    ((initPositions id id 0 (fun _ => (1 : ℚ)) (singleParticleSystem ℚ 0 1 0 0) 1 0).1.particles.get
      0).y = 1 ∧
    ¬ (((initPositions id id 0 (fun _ => (1 : ℚ)) (singleParticleSystem ℚ 0 1 0 0) 1
      0).1.particles.get 0).x < 1) ∧
    gridIndexOf 4 ((initPositions id id 0 (fun _ => (1 : ℚ)) (singleParticleSystem ℚ 0 1 0 0) 1
      0).1.particles.get 0) = 20 := by
  have h := initPositions_uniform_get id id 0 (fun _ => (1 : ℚ)) (singleParticleSystem ℚ 0 1 0 0)
    0 (by decide) 0
  rw [if_pos ⟨le_refl 0, by decide⟩] at h
  rw [h]
  refine ⟨by norm_num, by norm_num, by norm_num, ?_⟩
  unfold gridIndexOf cellCoord
  have e : ⌊((1 : ℚ) * 2 - 1 + 1) * (1 / 2) * ((4 : Int) : ℚ)⌋ = 4 := by
    rw [Int.floor_eq_iff]
    norm_num
  simp only [e]
  decide

end ModeClaims

section InvariantClaims

variable {K : Type} [LinearOrderedField K] [FloorRing K]

/-- The velocity pass writes velocities only: positions and types stay. -/
theorem velocityPass_geometry (sqrtf : K → K) (rMax forceFactor dt frictionFactor : K) (m : Int)
    (matrix : Arr K) (gridSize : Int) (grid gridMap : Arr Int) :
    ∀ (work : List (Int × Int × Int)) (ps : Arr (Particle K)) (j : Int),
      ((velocityPass sqrtf rMax forceFactor dt frictionFactor m matrix gridSize grid gridMap
        work ps).get j).x = (ps.get j).x ∧
      ((velocityPass sqrtf rMax forceFactor dt frictionFactor m matrix gridSize grid gridMap
        work ps).get j).y = (ps.get j).y ∧
      ((velocityPass sqrtf rMax forceFactor dt frictionFactor m matrix gridSize grid gridMap
        work ps).get j).type = (ps.get j).type := by
  intro work
  induction work with
  | nil =>
    intro ps j
    exact ⟨rfl, rfl, rfl⟩
  | cons item work ih =>
    intro ps j
    have h := ih (velocityStep sqrtf rMax forceFactor dt frictionFactor m matrix gridSize grid
      gridMap ps item) j
    unfold velocityPass at h ⊢
    rw [List.foldl_cons]
    rw [h.1, h.2.1, h.2.2, velocityStep_eq, Arr.get_set]
    split_ifs with hj
    · rw [hj]
      exact ⟨rfl, rfl, rfl⟩
    · exact ⟨rfl, rfl, rfl⟩

theorem boundary_mem (x : K) : -1 ≤ boundary x ∧ boundary x < 1 := by
  rw [boundary_eq_wrapSpec]
  exact wrapSpec_mem x

/-- In exact arithmetic `update` preserves the position invariant.  For a state
with gridSize = floor(2 / rMax) ≥ 3 and all positions in [-1, 1), whatever the
velocities, the matrix, forceFactor and dt, after one `update` every particle
has x and y in [-1, 1) again and its type unchanged, and the population size `n`
is unchanged. -/
theorem update_preserves_position_invariant (pow : K → K → K) (sqrtf : K → K)
    (s : ParticleSystem K) (hg : 3 ≤ ⌊2 / s.rMax⌋)
    (_hpos : ∀ j, 0 ≤ j → j < s.n →
      (-1 ≤ (s.particles.get j).x ∧ (s.particles.get j).x < 1) ∧
      (-1 ≤ (s.particles.get j).y ∧ (s.particles.get j).y < 1)) :
    (update pow sqrtf s).n = s.n ∧
    (∀ i, 0 ≤ i → i < s.n →
      (-1 ≤ ((update pow sqrtf s).particles.get i).x ∧
        ((update pow sqrtf s).particles.get i).x < 1) ∧
      (-1 ≤ ((update pow sqrtf s).particles.get i).y ∧
        ((update pow sqrtf s).particles.get i).y < 1)) ∧
    (∀ i, ((update pow sqrtf s).particles.get i).type = (s.particles.get i).type) := by
  rw [update_of_grid pow sqrtf s hg]
  simp only
  refine ⟨trivial, ?_, ?_⟩
  · intro i hi0 hin
    rw [positions_get, if_pos ⟨hi0, hin⟩]
    exact ⟨boundary_mem _, boundary_mem _⟩
  · intro i
    rw [positions_get, velocities_eq_pass]
    have h := velocityPass_geometry sqrtf s.rMax s.forceFactor s.dt
      (pow (1 / 2) (s.dt / s.frictionHalfLife)) s.m s.matrix ⌊2 / s.rMax⌋
      (buildGrid s.n s.particles ⌊2 / s.rMax⌋ s.grid s.gridMap).1
      (buildGrid s.n s.particles ⌊2 / s.rMax⌋ s.grid s.gridMap).2
      (velocityWork ⌊2 / s.rMax⌋ (buildGrid s.n s.particles ⌊2 / s.rMax⌋ s.grid s.gridMap).1)
      s.particles i
    split_ifs
    · exact h.2.2
    · exact h.2.2

theorem wrapCell_eq_emod (g c d : Int) (hc0 : 0 ≤ c) (hcg : c < g)
    (hd : d = -1 ∨ d = 0 ∨ d = 1) : wrapCell g (c + d) = (c + d) % g := by
  unfold wrapCell
  simp only
  by_cases h1 : c + d < 0
  · rw [if_pos h1, if_neg (by omega), ← Int.add_emod_self, Int.emod_eq_of_lt (by omega) (by omega)]
  · rw [if_neg h1]
    by_cases h2 : c + d ≥ g
    · rw [if_pos h2]
      have e : (c + d) % g = (c + d - g + g) % g := by rw [sub_add_cancel]
      rw [e, Int.add_emod_self, Int.emod_eq_of_lt (by omega) (by omega)]
    · rw [if_neg h2, Int.emod_eq_of_lt (by omega) (by omega)]

/-- Grid locality in exact arithmetic.  With gridSize = floor(2 / rMax) ≥ 3 (so
rMax > 0) and `sqrtf` the exact square root, two points p, q of [-1, 1)² whose
periodic distance is below rMax have, in each axis, cell(q) = (cell(p) + d) mod
gridSize for some d in {-1, 0, 1}, which is the cell `update` computes by its
wrap around; so the cell of q is one of the nine cells scanned around the cell
of p, and these nine cells are pairwise distinct. -/
theorem grid_locality (sqrtf : K → K)
    (hsqrt : ∀ q : K, 0 ≤ q → 0 ≤ sqrtf q ∧ sqrtf q * sqrtf q = q) (rMax : K)
    (hg : 3 ≤ ⌊2 / rMax⌋) (p q : Particle K)
    (hp : (-1 ≤ p.x ∧ p.x < 1) ∧ (-1 ≤ p.y ∧ p.y < 1))
    (hq : (-1 ≤ q.x ∧ q.x < 1) ∧ (-1 ≤ q.y ∧ q.y < 1))
    (hnear : sqrtf (boundary (q.x - p.x) * boundary (q.x - p.x) +
      boundary (q.y - p.y) * boundary (q.y - p.y)) < rMax) :
    0 < rMax ∧
    (∃ d : Int, (d = -1 ∨ d = 0 ∨ d = 1) ∧
      cellCoord ⌊2 / rMax⌋ q.x = (cellCoord ⌊2 / rMax⌋ p.x + d) % ⌊2 / rMax⌋ ∧
      cellCoord ⌊2 / rMax⌋ q.x = wrapCell ⌊2 / rMax⌋ (cellCoord ⌊2 / rMax⌋ p.x + d)) ∧
    (∃ d : Int, (d = -1 ∨ d = 0 ∨ d = 1) ∧
      cellCoord ⌊2 / rMax⌋ q.y = (cellCoord ⌊2 / rMax⌋ p.y + d) % ⌊2 / rMax⌋ ∧
      cellCoord ⌊2 / rMax⌋ q.y = wrapCell ⌊2 / rMax⌋ (cellCoord ⌊2 / rMax⌋ p.y + d)) ∧
    gridIndexOf ⌊2 / rMax⌋ q ∈
      neighbourCells ⌊2 / rMax⌋ (cellCoord ⌊2 / rMax⌋ p.x) (cellCoord ⌊2 / rMax⌋ p.y) ∧
    (neighbourCells ⌊2 / rMax⌋ (cellCoord ⌊2 / rMax⌋ p.x)
      (cellCoord ⌊2 / rMax⌋ p.y)).Nodup ∧
    (neighbourCells ⌊2 / rMax⌋ (cellCoord ⌊2 / rMax⌋ p.x)
      (cellCoord ⌊2 / rMax⌋ p.y)).length = 9 := by
  have hg0 : (0 : Int) < ⌊2 / rMax⌋ := by omega
  obtain ⟨hr, hgr⟩ := rMax_facts rMax hg
  obtain ⟨hx, hy⟩ := abs_lt_of_norm_lt sqrtf hsqrt rMax _ _ hnear
  have hcx := cellCoord_mem ⌊2 / rMax⌋ hg0 p.x hp.1.1 hp.1.2
  have hcy := cellCoord_mem ⌊2 / rMax⌋ hg0 p.y hp.2.1 hp.2.2
  obtain ⟨dx, hdx, ex⟩ := cellCoord_near ⌊2 / rMax⌋ rMax hg hgr p.x q.x hp.1 hq.1 hx
  obtain ⟨dy, hdy, ey⟩ := cellCoord_near ⌊2 / rMax⌋ rMax hg hgr p.y q.y hp.2 hq.2 hy
  refine ⟨hr, ⟨dx, hdx, ?_, ex⟩, ⟨dy, hdy, ?_, ey⟩, ?_, ?_, ?_⟩
  · rw [ex]
    exact wrapCell_eq_emod _ _ _ hcx.1 hcx.2 hdx
  · rw [ey]
    exact wrapCell_eq_emod _ _ _ hcy.1 hcy.2 hdy
  · exact near_cell_mem sqrtf hsqrt rMax hg p q hp hq hnear
  · exact neighbourCells_nodup _ _ _ hg hcx hcy
  · unfold neighbourCells
    simp [intRange_neg_one_two]

end InvariantClaims

section SortClaims

variable {K : Type} [LinearOrderedField K] [FloorRing K]

theorem intRange_pairwise_lt (lo hi : Int) : (intRange lo hi).Pairwise (· < ·) := by
  unfold intRange
  rw [List.pairwise_map]
  apply (List.pairwise_lt_range _).imp
  intro a b hab
  omega

theorem countP_below_succ (particles : Arr (Particle K)) (g : Int) (l : List Int) (c : Int) :
    ((l.countP (fun i => gridIndexOf g (particles.get i) < c + 1) : Nat) : Int) =
      ((l.countP (fun i => gridIndexOf g (particles.get i) < c) : Nat) : Int) +
        cellCount particles g l c := by
  unfold cellCount
  induction l with
  | nil => simp
  | cons a l ih =>
    simp only [List.countP_cons, Nat.cast_add, ih, decide_eq_true_eq]
    by_cases h1 : gridIndexOf g (particles.get a) < c
    · have h2 : gridIndexOf g (particles.get a) < c + 1 := by omega
      have h3 : ¬ gridIndexOf g (particles.get a) = c := by omega
      rw [if_pos h2, if_pos h1, if_neg h3]
      push_cast
      ring
    · by_cases h3 : gridIndexOf g (particles.get a) = c
      · have h2 : gridIndexOf g (particles.get a) < c + 1 := by omega
        rw [if_pos h2, if_neg h1, if_pos h3]
        push_cast
        ring
      · have h2 : ¬ gridIndexOf g (particles.get a) < c + 1 := by omega
        rw [if_neg h2, if_neg h1, if_neg h3]
        push_cast
        ring

/-- The prefix sum of the cell counts up to `c` is the number of particles in
cells below `c`, when no particle has a negative cell index. -/
theorem prefixSum_cellCount (particles : Arr (Particle K)) (g : Int) (l : List Int)
    (hl : ∀ i ∈ l, 0 ≤ gridIndexOf g (particles.get i)) :
    ∀ c : Int, 0 ≤ c →
      prefixSum (cellCount particles g l) c =
        ((l.countP (fun i => gridIndexOf g (particles.get i) < c) : Nat) : Int) := by
  apply nonneg_induction
  · rw [prefixSum_zero]
    have : l.countP (fun i => decide (gridIndexOf g (particles.get i) < 0)) = 0 := by
      rw [List.countP_eq_zero]
      intro i hi
      have := hl i hi
      simp only [decide_eq_true_eq]
      omega
    rw [this]
    rfl
  · intro c hc ih
    rw [prefixSum_succ _ hc, ih, countP_below_succ]

/-- The slots `0 .. grid[c] - 1` of gridMap hold the particles of the cells
below `c`, cell after cell. -/
theorem gridMap_initial_slots (n : Int) (particles : Arr (Particle K)) (g : Int)
    (grid gridMap : Arr Int) (hn : 0 ≤ n)
    (hcell : ∀ i, 0 ≤ i → i < n →
      0 ≤ gridIndexOf g (particles.get i) ∧ gridIndexOf g (particles.get i) < g * g) :
    ∀ c : Int, 0 ≤ c → c ≤ g * g →
      (intRange 0 ((buildGrid n particles g grid gridMap).1.get c)).map
          (buildGrid n particles g grid gridMap).2.get =
        (intRange 0 c).flatMap (fun c' =>
          (intRange 0 n).filter (fun i => gridIndexOf g (particles.get i) = c')) := by
  have hspec := buildGrid_spec n particles g grid gridMap hn hcell
  apply nonneg_induction
  · intro _
    rw [hspec.1 0 le_rfl (mul_self_nonneg g), prefixSum_zero, intRange_of_le le_rfl]
    rfl
  · intro c hc ih hcG
    have ih' := ih (by omega)
    have hmono : (buildGrid n particles g grid gridMap).1.get c ≤
        (buildGrid n particles g grid gridMap).1.get (c + 1) := by
      rw [hspec.1 c hc (by omega), hspec.1 (c + 1) (by omega) hcG]
      exact prefixSum_mono (cellCount_nonneg particles g _) hc (by omega)
    have h0 : 0 ≤ (buildGrid n particles g grid gridMap).1.get c := by
      rw [hspec.1 c hc (by omega)]
      have := prefixSum_mono (cellCount_nonneg particles g (intRange 0 n)) (le_refl 0) hc
      rwa [prefixSum_zero] at this
    rw [intRange_split h0 hmono, List.map_append, ih', hspec.2 c hc (by omega),
      intRange_succ hc, List.flatMap_append]
    simp

theorem update_grid_eq (pow : K → K → K) (sqrtf : K → K) (s : ParticleSystem K)
    (hg : 3 ≤ ⌊2 / s.rMax⌋) :
    (update pow sqrtf s).grid = (buildGrid s.n s.particles ⌊2 / s.rMax⌋ s.grid s.gridMap).1 ∧
    (update pow sqrtf s).gridMap =
      (buildGrid s.n s.particles ⌊2 / s.rMax⌋ s.grid s.gridMap).2 := by
  rw [update_of_grid pow sqrtf s hg]
  exact ⟨rfl, rfl⟩

/-- In exact arithmetic the grid rebuild of `update` is a stable counting sort
of the particle indices by cell.  With gridSize = floor(2 / rMax) ≥ 3, n ≥ 0 and all positions
in [-1, 1): every cell index is in [0, gridSize²); afterwards `grid[0] = 0`,
`grid[gridSize²] = n`, `grid[c]` is the number of particles in cells below `c`
for every c in 0..gridSize²; gridMap restricted to 0..n-1 is a permutation of
0..n-1; the slots `[grid[c], grid[c+1])` of gridMap hold exactly the particles
of cell `c` in ascending index order; and a particle index appears in the slot
range of its own cell and of no other. -/
theorem grid_rebuild_counting_sort (pow : K → K → K) (sqrtf : K → K) (s : ParticleSystem K)
    (hg : 3 ≤ ⌊2 / s.rMax⌋) (hn : 0 ≤ s.n)
    (hpos : ∀ j, 0 ≤ j → j < s.n →
      (-1 ≤ (s.particles.get j).x ∧ (s.particles.get j).x < 1) ∧
      (-1 ≤ (s.particles.get j).y ∧ (s.particles.get j).y < 1)) :
    (∀ i, 0 ≤ i → i < s.n →
      0 ≤ gridIndexOf ⌊2 / s.rMax⌋ (s.particles.get i) ∧
      gridIndexOf ⌊2 / s.rMax⌋ (s.particles.get i) < ⌊2 / s.rMax⌋ * ⌊2 / s.rMax⌋) ∧
    (update pow sqrtf s).grid.get 0 = 0 ∧
    (update pow sqrtf s).grid.get (⌊2 / s.rMax⌋ * ⌊2 / s.rMax⌋) = s.n ∧
    (∀ c, 0 ≤ c → c ≤ ⌊2 / s.rMax⌋ * ⌊2 / s.rMax⌋ →
      (update pow sqrtf s).grid.get c =
        (((intRange 0 s.n).countP
          (fun i => gridIndexOf ⌊2 / s.rMax⌋ (s.particles.get i) < c) : Nat) : Int)) ∧
    ((intRange 0 s.n).map (update pow sqrtf s).gridMap.get).Perm (intRange 0 s.n) ∧
    (∀ c, 0 ≤ c → c < ⌊2 / s.rMax⌋ * ⌊2 / s.rMax⌋ →
      (intRange ((update pow sqrtf s).grid.get c) ((update pow sqrtf s).grid.get (c + 1))).map
          (update pow sqrtf s).gridMap.get =
        (intRange 0 s.n).filter
          (fun i => gridIndexOf ⌊2 / s.rMax⌋ (s.particles.get i) = c) ∧
      ((intRange ((update pow sqrtf s).grid.get c)
          ((update pow sqrtf s).grid.get (c + 1))).map
        (update pow sqrtf s).gridMap.get).Pairwise (· < ·)) ∧
    (∀ i, 0 ≤ i → i < s.n → ∀ c, 0 ≤ c → c < ⌊2 / s.rMax⌋ * ⌊2 / s.rMax⌋ →
      (i ∈ (intRange ((update pow sqrtf s).grid.get c)
          ((update pow sqrtf s).grid.get (c + 1))).map (update pow sqrtf s).gridMap.get ↔
        c = gridIndexOf ⌊2 / s.rMax⌋ (s.particles.get i))) := by
  have hg0 : (0 : Int) < ⌊2 / s.rMax⌋ := by omega
  have hcell : ∀ j, 0 ≤ j → j < s.n →
      0 ≤ gridIndexOf ⌊2 / s.rMax⌋ (s.particles.get j) ∧
      gridIndexOf ⌊2 / s.rMax⌋ (s.particles.get j) < ⌊2 / s.rMax⌋ * ⌊2 / s.rMax⌋ :=
    fun j h0 h1 => gridIndexOf_mem _ hg0 _ (hpos j h0 h1).1 (hpos j h0 h1).2
  have hspec := buildGrid_spec s.n s.particles ⌊2 / s.rMax⌋ s.grid s.gridMap hn hcell
  have hG : 0 ≤ ⌊2 / s.rMax⌋ * ⌊2 / s.rMax⌋ := mul_self_nonneg _
  obtain ⟨e1, e2⟩ := update_grid_eq pow sqrtf s hg
  rw [e1, e2]
  have hcount : ∀ c, 0 ≤ c → c ≤ ⌊2 / s.rMax⌋ * ⌊2 / s.rMax⌋ →
      (buildGrid s.n s.particles ⌊2 / s.rMax⌋ s.grid s.gridMap).1.get c =
        (((intRange 0 s.n).countP
          (fun i => gridIndexOf ⌊2 / s.rMax⌋ (s.particles.get i) < c) : Nat) : Int) := by
    intro c hc hcG
    rw [hspec.1 c hc hcG]
    apply prefixSum_cellCount
    · intro i hi
      rw [mem_intRange] at hi
      exact (hcell i hi.1 hi.2).1
    · exact hc
  have hlast : (buildGrid s.n s.particles ⌊2 / s.rMax⌋ s.grid s.gridMap).1.get
      (⌊2 / s.rMax⌋ * ⌊2 / s.rMax⌋) = s.n := by
    rw [hcount _ hG le_rfl]
    have : (intRange 0 s.n).countP
        (fun i => decide (gridIndexOf ⌊2 / s.rMax⌋ (s.particles.get i) <
          ⌊2 / s.rMax⌋ * ⌊2 / s.rMax⌋)) = (intRange 0 s.n).length := by
      rw [List.countP_eq_length]
      intro i hi
      rw [mem_intRange] at hi
      simpa using (hcell i hi.1 hi.2).2
    rw [this]
    unfold intRange
    simp only [List.length_map, List.length_range]
    omega
  refine ⟨hcell, ?_, hlast, hcount, ?_, ?_, ?_⟩
  · rw [hspec.1 0 le_rfl hG, prefixSum_zero]
  · have hslots := gridMap_initial_slots s.n s.particles ⌊2 / s.rMax⌋ s.grid s.gridMap hn
      hcell _ hG le_rfl
    rw [hlast] at hslots
    rw [hslots, List.perm_ext_iff_of_nodup _ (intRange_nodup 0 s.n)]
    · intro i
      simp only [List.mem_flatMap, List.mem_filter, mem_intRange, decide_eq_true_eq]
      constructor
      · rintro ⟨c, _, hi, _⟩
        exact hi
      · intro hi
        exact ⟨_, hcell i hi.1 hi.2, hi, rfl⟩
    · rw [List.nodup_flatMap]
      constructor
      · intro c _
        exact (intRange_nodup 0 s.n).filter _
      · apply (intRange_nodup 0 _).pairwise_of_forall_ne
        intro a _ b _ hab
        show List.Disjoint _ _
        rw [List.disjoint_left]
        intro j hja hjb
        rw [List.mem_filter] at hja hjb
        have h1 := hja.2
        have h2 := hjb.2
        simp only [decide_eq_true_eq] at h1 h2
        exact hab (h1.symm.trans h2)
  · intro c hc hcG
    rw [hspec.2 c hc hcG]
    exact ⟨rfl, (intRange_pairwise_lt 0 s.n).filter _⟩
  · intro i hi0 hin c hc hcG
    rw [hspec.2 c hc hcG, List.mem_filter, mem_intRange]
    simp only [decide_eq_true_eq]
    constructor
    · intro h
      exact h.2.symm
    · intro h
      exact ⟨⟨hi0, hin⟩, h.symm⟩

end SortClaims

section SqrtFacts

variable {K : Type} [LinearOrderedField K]

theorem sqrtf_zero (sqrtf : K → K)
    (hsqrt : ∀ q : K, 0 ≤ q → 0 ≤ sqrtf q ∧ sqrtf q * sqrtf q = q) : sqrtf 0 = 0 := by
  obtain ⟨_, h⟩ := hsqrt 0 le_rfl
  exact mul_self_eq_zero.mp h

theorem sqrtf_sq (sqrtf : K → K)
    (hsqrt : ∀ q : K, 0 ≤ q → 0 ≤ sqrtf q ∧ sqrtf q * sqrtf q = q) (a : K) :
    sqrtf (a * a + 0 * 0) = |a| := by
  obtain ⟨h0, h⟩ := hsqrt (a * a + 0 * 0) (by nlinarith [mul_self_nonneg a])
  have e : sqrtf (a * a + 0 * 0) * sqrtf (a * a + 0 * 0) = |a| * |a| := by
    rw [h, abs_mul_abs_self]
    ring
  exact (mul_self_inj h0 (abs_nonneg a)).mp e

end SqrtFacts

section Scenarios

variable {K : Type} [LinearOrderedField K] [FloorRing K]

theorem boundary_zero : boundary (0 : K) = 0 := by
  rw [boundary_eq_wrapSpec]
  exact wrapSpec_of_mem 0 (by norm_num) (by norm_num)

theorem boundary_eq_of (x y : K) (h1 : -1 ≤ y) (h2 : y < 1) (k : Int)
    (h : x - y = 2 * (k : K)) : boundary x = y := by
  rw [boundary_eq_wrapSpec]
  exact (wrapSpec_unique x y h1 h2 ⟨k, h⟩).symm

theorem intRange_zero_two : intRange 0 2 = [0, 1] := by
  rw [intRange_cons (by norm_num), intRange_cons (by norm_num), intRange_of_le (by norm_num)]
  rfl

theorem referenceForce_pair (sqrtf : K → K) (rMax : K) (m : Int) (matrix : Arr K)
    (ps : Arr (Particle K)) :
    referenceForce sqrtf rMax m matrix 2 ps 0 = contribution sqrtf rMax m matrix ps 0 1 ∧
    referenceForce sqrtf rMax m matrix 2 ps 1 = contribution sqrtf rMax m matrix ps 1 0 := by
  have h00 : contribution sqrtf rMax m matrix ps 0 0 = 0 := by
    unfold contribution
    rw [if_pos rfl]
  have h11 : contribution sqrtf rMax m matrix ps 1 1 = 0 := by
    unfold contribution
    rw [if_pos rfl]
  constructor
  · rw [← sum_contribution_eq_reference, intRange_zero_two]
    simp [h00]
  · rw [← sum_contribution_eq_reference, intRange_zero_two]
    simp [h11]

/-- The force between two particles with the same `y` whose periodic
x-displacement `d` is non-zero and shorter than `rMax`. -/
theorem pairForce_aligned (sqrtf : K → K)
    (hsqrt : ∀ q : K, 0 ≤ q → 0 ≤ sqrtf q ∧ sqrtf q * sqrtf q = q) (rMax : K) (m : Int)
    (matrix : Arr K) (p p_ : Particle K) (d : K) (hd : boundary (p_.x - p.x) = d)
    (hy : p_.y = p.y) (hd0 : d ≠ 0) (hdr : |d| < rMax) :
    pairForce sqrtf rMax m matrix p p_ (0, 0) =
      (d / |d| * force (|d| / rMax) (matrix.get (p.type * m + p_.type)), 0) := by
  unfold pairForce
  simp only [hd, hy, sub_self, boundary_zero, sqrtf_sq sqrtf hsqrt]
  rw [if_pos ⟨abs_pos.mpr hd0, hdr⟩]
  simp

theorem contribution_of_ne (sqrtf : K → K) (rMax : K) (m : Int) (matrix : Arr K)
    (ps : Arr (Particle K)) (i j : Int) (h : j ≠ i) :
    contribution sqrtf rMax m matrix ps i j =
      pairForce sqrtf rMax m matrix (ps.get i) (ps.get j) (0, 0) := by
  unfold contribution
  rw [if_neg h]

end Scenarios

section StepResult

variable {K : Type} [LinearOrderedField K] [FloorRing K]

/-- The particle array after one `update` with a grid of at least 3 x 3 cells. -/
theorem update_get (pow : K → K → K) (sqrtf : K → K)
    (hsqrt : ∀ q : K, 0 ≤ q → 0 ≤ sqrtf q ∧ sqrtf q * sqrtf q = q)
    (s : ParticleSystem K) (hg : 3 ≤ ⌊2 / s.rMax⌋) (hn : 0 ≤ s.n)
    (hpos : ∀ j, 0 ≤ j → j < s.n →
      (-1 ≤ (s.particles.get j).x ∧ (s.particles.get j).x < 1) ∧
      (-1 ≤ (s.particles.get j).y ∧ (s.particles.get j).y < 1))
    (j : Int) :
    (update pow sqrtf s).particles.get j =
      if 0 ≤ j ∧ j < s.n then
        withNewPosition s.dt
          (withNewVelocity s.rMax s.forceFactor s.dt (pow (1 / 2) (s.dt / s.frictionHalfLife))
            (s.particles.get j)
            (referenceForce sqrtf s.rMax s.m s.matrix s.n s.particles j))
      else s.particles.get j := by
  rw [update_of_grid pow sqrtf s hg]
  simp only
  rw [velocities_eq_pass]
  exact update_particles_get pow sqrtf hsqrt s hg hn hpos _ (List.Perm.refl _) _
    (List.Perm.refl _) j

/-- A particle at the same place as `p` adds nothing to the force on `p`: the
distance is 0 and the guard `r > 0` skips the division. -/
theorem pairForce_coincident (sqrtf : K → K)
    (hsqrt : ∀ q : K, 0 ≤ q → 0 ≤ sqrtf q ∧ sqrtf q * sqrtf q = q) (rMax : K) (m : Int)
    (matrix : Arr K) (p p_ : Particle K) (acc : K × K) (hx : p_.x = p.x) (hy : p_.y = p.y) :
    pairForce sqrtf rMax m matrix p p_ acc = acc := by
  unfold pairForce
  simp only [hx, hy, sub_self, boundary_zero, mul_zero, add_zero, sqrtf_zero sqrtf hsqrt,
    lt_self_iff_false, false_and, if_false]

theorem referenceForce_of_isolated (sqrtf : K → K) (rMax : K) (m : Int) (matrix : Arr K)
    (n : Int) (particles : Arr (Particle K)) (i : Int)
    (hiso : ∀ j, 0 ≤ j → j < n → j ≠ i →
      ¬ (0 < sqrtf (boundary ((particles.get j).x - (particles.get i).x) *
            boundary ((particles.get j).x - (particles.get i).x) +
          boundary ((particles.get j).y - (particles.get i).y) *
            boundary ((particles.get j).y - (particles.get i).y)) ∧
        sqrtf (boundary ((particles.get j).x - (particles.get i).x) *
            boundary ((particles.get j).x - (particles.get i).x) +
          boundary ((particles.get j).y - (particles.get i).y) *
            boundary ((particles.get j).y - (particles.get i).y)) < rMax)) :
    referenceForce sqrtf rMax m matrix n particles i = (0, 0) := by
  rw [← sum_contribution_eq_reference]
  have hz : ∀ j ∈ intRange 0 n, contribution sqrtf rMax m matrix particles i j = 0 := by
    intro j hj
    rw [mem_intRange] at hj
    rw [contribution_eq]
    apply if_neg
    rintro ⟨hne, h⟩
    exact hiso j hj.1 hj.2 hne h
  have : (intRange 0 n).map (contribution sqrtf rMax m matrix particles i) =
      (intRange 0 n).map (fun _ => (0 : K × K)) := List.map_congr_left hz
  rw [this]
  simp

/-- Zero-force decay in exact arithmetic.  In one `update` step with gridSize ≥
3 (positions in [-1, 1), `sqrtf` the exact square root), a particle `i` that has
no other particle at a periodic distance `r` with `0 < r < rMax` ends the step
with the velocity `initialVelocity * pow(0.5, dt / frictionHalfLife)` in both
components; a particle at the same place as another contributes nothing to its
force sum, the guard `r > 0` keeping the division by `r` from being evaluated.
-/
theorem zero_force_decay (pow : K → K → K) (sqrtf : K → K)
    (hsqrt : ∀ q : K, 0 ≤ q → 0 ≤ sqrtf q ∧ sqrtf q * sqrtf q = q)
    (s : ParticleSystem K) (hg : 3 ≤ ⌊2 / s.rMax⌋)
    (hpos : ∀ j, 0 ≤ j → j < s.n →
      (-1 ≤ (s.particles.get j).x ∧ (s.particles.get j).x < 1) ∧
      (-1 ≤ (s.particles.get j).y ∧ (s.particles.get j).y < 1))
    (i : Int) (hi0 : 0 ≤ i) (hin : i < s.n)
    (hiso : ∀ j, 0 ≤ j → j < s.n → j ≠ i →
      ¬ (0 < sqrtf (boundary ((s.particles.get j).x - (s.particles.get i).x) *
            boundary ((s.particles.get j).x - (s.particles.get i).x) +
          boundary ((s.particles.get j).y - (s.particles.get i).y) *
            boundary ((s.particles.get j).y - (s.particles.get i).y)) ∧
        sqrtf (boundary ((s.particles.get j).x - (s.particles.get i).x) *
            boundary ((s.particles.get j).x - (s.particles.get i).x) +
          boundary ((s.particles.get j).y - (s.particles.get i).y) *
            boundary ((s.particles.get j).y - (s.particles.get i).y)) < s.rMax)) :
    ((update pow sqrtf s).particles.get i).vx =
      (s.particles.get i).vx * pow (1 / 2) (s.dt / s.frictionHalfLife) ∧
    ((update pow sqrtf s).particles.get i).vy =
      (s.particles.get i).vy * pow (1 / 2) (s.dt / s.frictionHalfLife) ∧
    (∀ (j : Int) (acc : K × K),
      (s.particles.get j).x = (s.particles.get i).x →
      (s.particles.get j).y = (s.particles.get i).y →
      pairForce sqrtf s.rMax s.m s.matrix (s.particles.get i) (s.particles.get j) acc = acc ∧
      contribution sqrtf s.rMax s.m s.matrix s.particles i j = 0) := by
  have hn : 0 ≤ s.n := by omega
  have hF := referenceForce_of_isolated sqrtf s.rMax s.m s.matrix s.n s.particles i hiso
  have hu := update_get pow sqrtf hsqrt s hg hn hpos i
  rw [if_pos ⟨hi0, hin⟩, hF] at hu
  refine ⟨?_, ?_, ?_⟩
  · rw [hu]
    simp [withNewPosition, withNewVelocity]
  · rw [hu]
    simp [withNewPosition, withNewVelocity]
  · intro j acc hx hy
    constructor
    · exact pairForce_coincident sqrtf hsqrt _ _ _ _ _ acc hx hy
    · unfold contribution
      split_ifs
      · rfl
      · exact pairForce_coincident sqrtf hsqrt _ _ _ _ _ (0, 0) hx hy

end StepResult

section ScenarioForces

variable {K : Type} [LinearOrderedField K]

theorem force_two_fifths_one : force ((1 / 5 : K) / (1 / 2)) 1 = 2 / 7 := by
  unfold force beta
  rw [if_neg (by norm_num), if_pos (by constructor <;> norm_num)]
  have e : |(2 : K) * (1 / 5 / (1 / 2)) - 1 - 3 / 10| = 1 / 2 := by
    rw [show (2 : K) * (1 / 5 / (1 / 2)) - 1 - 3 / 10 = -(1 / 2) by norm_num, abs_neg,
      abs_of_pos (by norm_num)]
  rw [e]
  norm_num

end ScenarioForces

section ScenarioClaims

variable {K : Type} [LinearOrderedField K] [FloorRing K]

/-- C14: the end-to-end scenario.  For n = 2, m = 1, particles at (-0.1, 0) and
(0.1, 0) with zero velocity, rMax = 0.5, matrix[0][0] = 1, dt = 0.02,
forceFactor > 0 and frictionHalfLife > 0 (`sqrtf` the exact square root): after
one `update` the particle at -0.1 has vx > 0 and the particle at 0.1 has vx < 0
(the force is the attraction 2/7, r / rMax = 0.4 lying in the tent zone), both
have vy = 0, and each new position is `boundary(old position + new velocity *
dt)` in both axes. -/
theorem pair_attraction (pow : K → K → K) (sqrtf : K → K)
    (hsqrt : ∀ q : K, 0 ≤ q → 0 ≤ sqrtf q ∧ sqrtf q * sqrtf q = q)
    (s : ParticleSystem K) (hn : s.n = 2) (hm : s.m = 1) (hr : s.rMax = 1 / 2)
    (hdt : s.dt = 2 / 100)
    (hp0 : s.particles.get 0 = ⟨0, -1 / 10, 0, 0, 0⟩)
    (hp1 : s.particles.get 1 = ⟨0, 1 / 10, 0, 0, 0⟩)
    (hmat : s.matrix.get 0 = 1) (hff : 0 < s.forceFactor) (_hfhl : 0 < s.frictionHalfLife) :
    0 < ((update pow sqrtf s).particles.get 0).vx ∧
    ((update pow sqrtf s).particles.get 1).vx < 0 ∧
    ((update pow sqrtf s).particles.get 0).vy = 0 ∧
    ((update pow sqrtf s).particles.get 1).vy = 0 ∧
    ((update pow sqrtf s).particles.get 0).x =
      boundary ((s.particles.get 0).x + ((update pow sqrtf s).particles.get 0).vx * s.dt) ∧
    ((update pow sqrtf s).particles.get 0).y =
      boundary ((s.particles.get 0).y + ((update pow sqrtf s).particles.get 0).vy * s.dt) ∧
    ((update pow sqrtf s).particles.get 1).x =
      boundary ((s.particles.get 1).x + ((update pow sqrtf s).particles.get 1).vx * s.dt) ∧
    ((update pow sqrtf s).particles.get 1).y =
      boundary ((s.particles.get 1).y + ((update pow sqrtf s).particles.get 1).vy * s.dt) ∧
    ((update pow sqrtf s).particles.get 0).vx = 2 / 7 * (1 / 2) * s.forceFactor * (2 / 100) ∧
    ((update pow sqrtf s).particles.get 1).vx =
      -(2 / 7) * (1 / 2) * s.forceFactor * (2 / 100) := by
  have hgs : ⌊2 / s.rMax⌋ = 4 := by
    rw [hr, Int.floor_eq_iff]
    norm_num
  have hg : 3 ≤ ⌊2 / s.rMax⌋ := by rw [hgs]; decide
  have hpos : ∀ j, 0 ≤ j → j < s.n →
      (-1 ≤ (s.particles.get j).x ∧ (s.particles.get j).x < 1) ∧
      (-1 ≤ (s.particles.get j).y ∧ (s.particles.get j).y < 1) := by
    intro j h0 h1
    rw [hn] at h1
    have hj : j = 0 ∨ j = 1 := by omega
    rcases hj with rfl | rfl
    · rw [hp0]
      norm_num
    · rw [hp1]
      norm_num
  have hb1 : boundary ((s.particles.get 1).x - (s.particles.get 0).x) = 1 / 5 := by
    rw [hp0, hp1]
    apply boundary_eq_of _ _ (by norm_num) (by norm_num) 0
    push_cast
    norm_num
  have hb0 : boundary ((s.particles.get 0).x - (s.particles.get 1).x) = -(1 / 5) := by
    rw [hp0, hp1]
    apply boundary_eq_of _ _ (by norm_num) (by norm_num) 0
    push_cast
    norm_num
  have hy01 : (s.particles.get 1).y = (s.particles.get 0).y := by rw [hp0, hp1]
  have hcoef0 : s.matrix.get ((s.particles.get 0).type * s.m + (s.particles.get 1).type) = 1 := by
    rw [hp0, hp1, hm]
    exact hmat
  have hcoef1 : s.matrix.get ((s.particles.get 1).type * s.m + (s.particles.get 0).type) = 1 := by
    rw [hp0, hp1, hm]
    exact hmat
  have hF0 : referenceForce sqrtf s.rMax s.m s.matrix s.n s.particles 0 = (2 / 7, 0) := by
    rw [hn, (referenceForce_pair sqrtf s.rMax s.m s.matrix s.particles).1,
      contribution_of_ne _ _ _ _ _ _ _ (by decide),
      pairForce_aligned sqrtf hsqrt s.rMax s.m s.matrix _ _ (1 / 5) hb1 hy01 (by norm_num)
        (by rw [hr, abs_of_pos (by norm_num)]; norm_num),
      hcoef0, hr, abs_of_pos (by norm_num), force_two_fifths_one]
    norm_num
  have hF1 : referenceForce sqrtf s.rMax s.m s.matrix s.n s.particles 1 = (-(2 / 7), 0) := by
    rw [hn, (referenceForce_pair sqrtf s.rMax s.m s.matrix s.particles).2,
      contribution_of_ne _ _ _ _ _ _ _ (by decide),
      pairForce_aligned sqrtf hsqrt s.rMax s.m s.matrix _ _ (-(1 / 5)) hb0 hy01.symm
        (by norm_num) (by rw [hr, abs_neg, abs_of_pos (by norm_num)]; norm_num),
      hcoef1, hr, abs_neg, abs_of_pos (by norm_num), force_two_fifths_one]
    norm_num
  have hu0 := update_get pow sqrtf hsqrt s hg (by omega) hpos 0
  have hu1 := update_get pow sqrtf hsqrt s hg (by omega) hpos 1
  rw [if_pos ⟨le_refl 0, by omega⟩, hF0] at hu0
  rw [if_pos ⟨by decide, by omega⟩, hF1] at hu1
  have hv0 : ((update pow sqrtf s).particles.get 0).vx =
      2 / 7 * (1 / 2) * s.forceFactor * (2 / 100) := by
    rw [hu0, hp0, hr, hdt]
    simp only [withNewPosition, withNewVelocity]
    ring
  have hv1 : ((update pow sqrtf s).particles.get 1).vx =
      -(2 / 7) * (1 / 2) * s.forceFactor * (2 / 100) := by
    rw [hu1, hp1, hr, hdt]
    simp only [withNewPosition, withNewVelocity]
    ring
  refine ⟨?_, ?_, ?_, ?_, ?_, ?_, ?_, ?_, hv0, hv1⟩
  · rw [hv0]
    nlinarith
  · rw [hv1]
    nlinarith
  · rw [hu0, hp0]
    simp [withNewPosition, withNewVelocity]
  · rw [hu1, hp1]
    simp [withNewPosition, withNewVelocity]
  · rw [hu0]
    simp only [withNewPosition, withNewVelocity]
  · rw [hu0]
    simp only [withNewPosition, withNewVelocity]
  · rw [hu1]
    simp only [withNewPosition, withNewVelocity]
  · rw [hu1]
    simp only [withNewPosition, withNewVelocity]

end ScenarioClaims

section CentreClaim

variable {K : Type} [LinearOrderedField K] [FloorRing K]

theorem counterIndex_mem {w h m x y t : Int} (hx0 : 0 ≤ x) (hxw : x < w) (hy0 : 0 ≤ y)
    (hyh : y < h) (ht0 : 0 ≤ t) (htm : t < m) :
    0 ≤ y * w * m + x * m + t ∧ y * w * m + x * m + t < w * h * m := by
  have hw : 0 ≤ w := by omega
  have hm : 0 ≤ m := by omega
  have e : y * w * m + x * m + t = (y * w + x) * m + t := by ring
  have hYw : 0 ≤ y * w := mul_nonneg hy0 hw
  have h1 : y * w + x < h * w := by
    have := mul_le_mul_of_nonneg_right (show y + 1 ≤ h by omega) hw
    nlinarith
  rw [e]
  constructor
  · exact rowMajor_nonneg ht0 hm (by omega)
  · have := rowMajor_lt ht0 htm h1
    rw [show w * h * m = h * w * m by ring]
    exact this

theorem counterIndex_inj {w m x y t x' y' t' : Int} (hx0 : 0 ≤ x) (hxw : x < w)
    (ht0 : 0 ≤ t) (htm : t < m) (hx0' : 0 ≤ x') (hxw' : x' < w) (ht0' : 0 ≤ t')
    (htm' : t' < m) (h : y * w * m + x * m + t = y' * w * m + x' * m + t') :
    x = x' ∧ y = y' ∧ t = t' := by
  have e : (y * w + x) * m + t = (y' * w + x') * m + t' := by
    have e1 : (y * w + x) * m + t = y * w * m + x * m + t := by ring
    have e2 : (y' * w + x') * m + t' = y' * w * m + x' * m + t' := by ring
    rw [e1, e2, h]
  obtain ⟨e2, e3⟩ := rowMajor_inj ht0 htm ht0' htm' e
  obtain ⟨e4, e5⟩ := rowMajor_inj hx0 hxw hx0' hxw' e2
  exact ⟨e5, e4, e3⟩

theorem floor_int_half (h : Int) : ⌊((h : Int) : K) / 2⌋ = h / 2 := by
  rw [Int.floor_eq_iff]
  have h1 := Int.emod_add_ediv h 2
  have h2 := Int.emod_two_eq_zero_or_one h
  have e : (h : K) = ((h % 2 : Int) : K) + 2 * ((h / 2 : Int) : K) := by
    have : ((h : Int) : K) = ((h % 2 + 2 * (h / 2) : Int) : K) := by rw [h1]
    rw [this]
    push_cast
    ring
  rcases h2 with h0 | h0
  · rw [h0] at e
    push_cast at e
    constructor <;> linarith
  · rw [h0] at e
    push_cast at e
    constructor <;> linarith

theorem rasterX_centre (w h : Int) (zoom shiftX : K) (p : Particle K) (hw : 0 ≤ w)
    (hx : p.x + shiftX = 0) : rasterX w h zoom shiftX p = w / 2 := by
  rw [rasterX_eq, hx, zero_mul, zero_mul, zero_div, Int.floor_zero, zero_add]
  exact Int.tdiv_eq_ediv hw (by decide)

theorem rasterY_centre (h : Int) (zoom shiftY : K) (p : Particle K)
    (hy : p.y + shiftY = 0) : rasterY h zoom shiftY p = h / 2 := by
  unfold rasterY
  simp only [heightCw_eq, hy, zero_mul, zero_div, zero_add]
  have e : Int.tdiv (2 * h) 2 = h := by
    rw [mul_comm]
    exact Int.mul_tdiv_cancel h (by decide)
  rw [e]
  unfold CHAR_RATIO
  exact floor_int_half h

/-- C11: a single particle of type `t` (with `0 ≤ t < m`) at the exact view
centre (`pos.x + shiftX = 0` and `pos.y + shiftY = 0`), any zoom, a raster with
`w ≥ 1` and `h ≥ 1`, and `clear = true`: `renderDensity` leaves the count of the
cell `(w div 2, h div 2)` for the type `t` equal to 1 and every other
(cell, type) count equal to 0. -/
theorem renderDensity_single_centre (grid : Arr Int) (w h : Int) (s : ParticleSystem K)
    (zoom shiftX shiftY : K) (hn : s.n = 1) (hw : 1 ≤ w) (hh : 1 ≤ h)
    (ht : 0 ≤ (s.particles.get 0).type ∧ (s.particles.get 0).type < s.m)
    (hx : (s.particles.get 0).x + shiftX = 0) (hy : (s.particles.get 0).y + shiftY = 0)
    (x y t : Int) (hx0 : 0 ≤ x) (hxw : x < w) (hy0 : 0 ≤ y) (hyh : y < h) (ht0 : 0 ≤ t)
    (htm : t < s.m) :
    (renderDensity grid w h s zoom shiftX shiftY true).get (y * w * s.m + x * s.m + t) =
      if x = w / 2 ∧ y = h / 2 ∧ t = (s.particles.get 0).type then 1 else 0 := by
  have hX := rasterX_centre w h zoom shiftX (s.particles.get 0) (by omega) hx
  have hY := rasterY_centre h zoom shiftY (s.particles.get 0) hy
  have hXr : 0 ≤ w / 2 ∧ w / 2 < w := by omega
  have hYr : 0 ≤ h / 2 ∧ h / 2 < h := by omega
  have hin : inRaster w h s zoom shiftX shiftY 0 := by
    unfold inRaster
    rw [hX, hY]
    exact ⟨hXr.1, hXr.2, hYr.1, hYr.2⟩
  have hidx : rasterIndex w h s zoom shiftX shiftY 0 =
      h / 2 * w * s.m + w / 2 * s.m + (s.particles.get 0).type := by
    unfold rasterIndex
    rw [hX, hY]
  have h01 : intRange 0 1 = [0] := by
    rw [intRange_cons (by norm_num), intRange_of_le (by norm_num)]
  unfold renderDensity
  simp only [if_true]
  rw [render_fold_get, hn, h01]
  have hbase : (memsetZero grid (w * h * s.m)).get (y * w * s.m + x * s.m + t) = 0 := by
    unfold memsetZero
    simp only
    rw [if_pos (counterIndex_mem hx0 hxw hy0 hyh ht0 htm)]
  rw [hbase, zero_add]
  by_cases hc : x = w / 2 ∧ y = h / 2 ∧ t = (s.particles.get 0).type
  · rw [if_pos hc]
    have : rasterIndex w h s zoom shiftX shiftY 0 = y * w * s.m + x * s.m + t := by
      rw [hidx, hc.1, hc.2.1, hc.2.2]
    simp [hin, this]
  · rw [if_neg hc]
    have : ¬ rasterIndex w h s zoom shiftX shiftY 0 = y * w * s.m + x * s.m + t := by
      intro e
      rw [hidx] at e
      obtain ⟨e1, e2, e3⟩ := counterIndex_inj hXr.1 hXr.2 ht.1 ht.2 hx0 hxw ht0 htm e
      exact hc ⟨e1.symm, e2.symm, e3.symm⟩
    simp [this]

end CentreClaim

section UniformRange

variable {K : Type} [LinearOrderedField K]

/-- Mode 1 of `initPositions` puts every particle into [-1, 1) when every draw
lies in [0, 1), and into [-1, 1] when the draws lie in [0, 1]. -/
theorem initPositions_uniform_range (cos sin : K → K) (pi : K) (rnd : Nat → K)
    (s : ParticleSystem K) (c : Nat) (hn : 0 ≤ s.n) (i : Int) (hi0 : 0 ≤ i) (hin : i < s.n) :
    ((∀ k, 0 ≤ rnd k ∧ rnd k ≤ 1) →
      (-1 ≤ ((initPositions cos sin pi rnd s 1 c).1.particles.get i).x ∧
        ((initPositions cos sin pi rnd s 1 c).1.particles.get i).x ≤ 1) ∧
      (-1 ≤ ((initPositions cos sin pi rnd s 1 c).1.particles.get i).y ∧
        ((initPositions cos sin pi rnd s 1 c).1.particles.get i).y ≤ 1)) ∧
    ((∀ k, 0 ≤ rnd k ∧ rnd k < 1) →
      (-1 ≤ ((initPositions cos sin pi rnd s 1 c).1.particles.get i).x ∧
        ((initPositions cos sin pi rnd s 1 c).1.particles.get i).x < 1) ∧
      (-1 ≤ ((initPositions cos sin pi rnd s 1 c).1.particles.get i).y ∧
        ((initPositions cos sin pi rnd s 1 c).1.particles.get i).y < 1)) := by
  rw [initPositions_uniform_get cos sin pi rnd s c hn i, if_pos ⟨hi0, hin⟩]
  constructor
  · intro h
    have h1 := h (c + 2 * i.toNat)
    have h2 := h (c + 2 * i.toNat + 1)
    simp only
    refine ⟨⟨?_, ?_⟩, ⟨?_, ?_⟩⟩ <;> linarith
  · intro h
    have h1 := h (c + 2 * i.toNat)
    have h2 := h (c + 2 * i.toNat + 1)
    simp only
    refine ⟨⟨?_, ?_⟩, ⟨?_, ?_⟩⟩ <;> linarith

end UniformRange

section LaterWitnesses

theorem single_grid_ok : 3 ≤ ⌊2 / (singleParticleSystem ℝ 0 1 0 0).rMax⌋ := by
  show (3 : Int) ≤ ⌊(2 : ℝ) / (1 / 2)⌋
  apply Int.le_floor.mpr
  norm_num

theorem single_positions_ok : ∀ j, 0 ≤ j → j < (singleParticleSystem ℝ 0 1 0 0).n →
    (-1 ≤ ((singleParticleSystem ℝ 0 1 0 0).particles.get j).x ∧
      ((singleParticleSystem ℝ 0 1 0 0).particles.get j).x < 1) ∧
    (-1 ≤ ((singleParticleSystem ℝ 0 1 0 0).particles.get j).y ∧
      ((singleParticleSystem ℝ 0 1 0 0).particles.get j).y < 1) := by
  intro j _ _
  simp only [singleParticleSystem]
  norm_num

/-- Witness for C11: one particle of type 0 at the origin, no shift, zoom 1, a
raster of 81 x 25 cells, the centre cell (40, 12). -/
theorem renderDensity_single_centre_witness :
    (renderDensity ⟨fun _ => 7⟩ 81 25 (singleParticleSystem ℚ 0 1 0 0) 1 0 0 true).get
        (12 * 81 * (singleParticleSystem ℚ 0 1 0 0).m +
          40 * (singleParticleSystem ℚ 0 1 0 0).m + 0) =
      if (40 : Int) = 81 / 2 ∧ (12 : Int) = 25 / 2 ∧
          (0 : Int) = ((singleParticleSystem ℚ 0 1 0 0).particles.get 0).type
      then 1 else 0 :=
  renderDensity_single_centre ⟨fun _ => 7⟩ 81 25 (singleParticleSystem ℚ 0 1 0 0) 1 0 0 rfl
    (by decide) (by decide) ⟨by decide, by decide⟩
    (by show (0 : ℚ) + 0 = 0; norm_num) (by show (0 : ℚ) + 0 = 0; norm_num)
    40 12 0 (by decide) (by decide) (by decide) (by decide) (by decide) (by decide)

/-- Zero-force decay in exact arithmetic for the single particle of a
one-particle system over the reals. -/
theorem zero_force_decay_witness :
    ((update (fun a b => a ^ b) Real.sqrt (singleParticleSystem ℝ 0 1 0 0)).particles.get 0).vx =
      ((singleParticleSystem ℝ 0 1 0 0).particles.get 0).vx *
        (1 / 2 : ℝ) ^ ((singleParticleSystem ℝ 0 1 0 0).dt /
          (singleParticleSystem ℝ 0 1 0 0).frictionHalfLife) :=
  (zero_force_decay (fun a b => a ^ b) Real.sqrt real_sqrt_exact (singleParticleSystem ℝ 0 1 0 0)
    single_grid_ok single_positions_ok 0 (by decide) (by decide)
    (by
      intro j h0 h1 hne
      have h1' : j < 1 := h1
      omega)).1

/-- Witness for C14: the pair system over the reals with forceFactor 10 and
frictionHalfLife 1/25. -/
theorem pair_attraction_witness :
    0 < ((update (fun a b => a ^ b) Real.sqrt (pairSystemOver ℝ 10 (1 / 25))).particles.get 0).vx ∧
    ((update (fun a b => a ^ b) Real.sqrt (pairSystemOver ℝ 10 (1 / 25))).particles.get 1).vx < 0 :=
  have h := pair_attraction (fun a b => a ^ b) Real.sqrt real_sqrt_exact
    (pairSystemOver ℝ 10 (1 / 25)) rfl rfl rfl rfl rfl rfl rfl
    (by show (0 : ℝ) < 10; norm_num) (by show (0 : ℝ) < 1 / 25; norm_num)
  ⟨h.1, h.2.1⟩

/-- The position invariant of exact arithmetic at the demo system over the
reals, particle 2. -/
theorem update_preserves_position_invariant_witness :
    -1 ≤ ((update (fun a b => a ^ b) Real.sqrt (demoSystemOver ℝ)).particles.get 2).x ∧
    ((update (fun a b => a ^ b) Real.sqrt (demoSystemOver ℝ)).particles.get 2).x < 1 :=
  ((update_preserves_position_invariant (fun a b => a ^ b) Real.sqrt (demoSystemOver ℝ)
    demo_grid_ok demo_positions_ok).2.1 2 (by decide) (by decide)).1

/-- The counting sort of exact arithmetic at the demo system over the reals:
the offsets start at 0 and end at n = 3. -/
theorem grid_rebuild_counting_sort_witness :
    (update (fun a b => a ^ b) Real.sqrt (demoSystemOver ℝ)).grid.get 0 = 0 ∧
    (update (fun a b => a ^ b) Real.sqrt (demoSystemOver ℝ)).grid.get
      (⌊2 / (demoSystemOver ℝ).rMax⌋ * ⌊2 / (demoSystemOver ℝ).rMax⌋) = (demoSystemOver ℝ).n :=
  have h := grid_rebuild_counting_sort (fun a b => a ^ b) Real.sqrt (demoSystemOver ℝ)
    demo_grid_ok (by decide) demo_positions_ok
  ⟨h.2.1, h.2.2.1⟩

theorem origin_near_tenth :
    Real.sqrt (boundary ((⟨0, 1 / 10, 0, 0, 0⟩ : Particle ℝ).x - (⟨0, 0, 0, 0, 0⟩ : Particle ℝ).x) *
        boundary ((⟨0, 1 / 10, 0, 0, 0⟩ : Particle ℝ).x - (⟨0, 0, 0, 0, 0⟩ : Particle ℝ).x) +
      boundary ((⟨0, 1 / 10, 0, 0, 0⟩ : Particle ℝ).y - (⟨0, 0, 0, 0, 0⟩ : Particle ℝ).y) *
        boundary ((⟨0, 1 / 10, 0, 0, 0⟩ : Particle ℝ).y - (⟨0, 0, 0, 0, 0⟩ : Particle ℝ).y)) <
      1 / 2 := by
  have e1 : boundary ((1 / 10 : ℝ) - 0) = 1 / 10 := by
    apply boundary_eq_of _ _ (by norm_num) (by norm_num) 0
    push_cast
    norm_num
  have e2 : boundary ((0 : ℝ) - 0) = 0 := by
    rw [sub_self]
    exact boundary_zero
  show Real.sqrt (boundary ((1 / 10 : ℝ) - 0) * boundary ((1 / 10 : ℝ) - 0) +
    boundary ((0 : ℝ) - 0) * boundary ((0 : ℝ) - 0)) < 1 / 2
  rw [e1, e2, sqrtf_sq Real.sqrt real_sqrt_exact, abs_of_pos (by norm_num)]
  norm_num

/-- Grid locality in exact arithmetic at the points (0, 0) and (1/10, 0) with
rMax = 1/2 over the reals. -/
theorem grid_locality_witness :
    gridIndexOf ⌊2 / (1 / 2 : ℝ)⌋ (⟨0, 1 / 10, 0, 0, 0⟩ : Particle ℝ) ∈
      neighbourCells ⌊2 / (1 / 2 : ℝ)⌋
        (cellCoord ⌊2 / (1 / 2 : ℝ)⌋ (⟨0, 0, 0, 0, 0⟩ : Particle ℝ).x)
        (cellCoord ⌊2 / (1 / 2 : ℝ)⌋ (⟨0, 0, 0, 0, 0⟩ : Particle ℝ).y) :=
  (grid_locality Real.sqrt real_sqrt_exact (1 / 2 : ℝ) demo_grid_ok
    (⟨0, 0, 0, 0, 0⟩ : Particle ℝ) (⟨0, 1 / 10, 0, 0, 0⟩ : Particle ℝ)
    ⟨⟨by norm_num, by norm_num⟩, ⟨by norm_num, by norm_num⟩⟩
    ⟨⟨by norm_num, by norm_num⟩, ⟨by norm_num, by norm_num⟩⟩
    origin_near_tenth).2.2.2.1

end LaterWitnesses

section Binary32Facts

theorem int_log_two_eq (r : ℚ) (e : Int) (h1 : (2 : ℚ) ^ e ≤ r) (h2 : r < (2 : ℚ) ^ (e + 1)) :
    Int.log 2 r = e := by
  have hr : 0 < r := lt_of_lt_of_le (by positivity) h1
  apply le_antisymm
  · have := (Int.lt_zpow_iff_log_lt (b := 2) (by norm_num) hr (x := e + 1)).mp
      (by exact_mod_cast h2)
    omega
  · exact (Int.zpow_le_iff_le_log (b := 2) (by norm_num) hr).mp (by exact_mod_cast h1)

/-- The rounding of a positive number with binary exponent `e`. -/
theorem round32_eq (q : ℚ) (e k : Int) (h1 : (2 : ℚ) ^ e ≤ q) (h2 : q < (2 : ℚ) ^ (e + 1))
    (hk : roundHalfEven (q / 2 ^ (e - 23)) = k) : round32 q = (k : ℚ) * 2 ^ (e - 23) := by
  have hq : 0 < q := lt_of_lt_of_le (by positivity) h1
  unfold round32
  rw [if_neg hq.ne', abs_of_pos hq]
  simp only [int_log_two_eq _ e h1 h2, hk]

theorem roundHalfEven_eq (r : ℚ) (f : Int) (h1 : (f : ℚ) ≤ r) (h2 : r < f + 1) :
    roundHalfEven r =
      if r - f < 1 / 2 then f else if 1 / 2 < r - f then f + 1
      else if f % 2 = 0 then f else f + 1 := by
  have hf : ⌊r⌋ = f := Int.floor_eq_iff.mpr ⟨h1, h2⟩
  unfold roundHalfEven
  simp only [hf]

theorem roundHalfEven_int (k : Int) : roundHalfEven (k : ℚ) = k := by
  rw [roundHalfEven_eq _ k le_rfl (by linarith)]
  norm_num

/-- A positive number with a significand of 24 bits is its own rounding. -/
theorem round32_exact (q : ℚ) (e k : Int) (h1 : (2 : ℚ) ^ e ≤ q)
    (h2 : q < (2 : ℚ) ^ (e + 1)) (hq : q = (k : ℚ) * 2 ^ (e - 23)) : round32 q = q := by
  have hpos : (0 : ℚ) < 2 ^ (e - 23) := by positivity
  rw [round32_eq q e k h1 h2, ← hq]
  rw [hq, mul_div_assoc, div_self hpos.ne', mul_one]
  exact roundHalfEven_int k

/-- A negative number with a significand of 24 bits is its own rounding. -/
theorem round32_exact_neg (q : ℚ) (e k : Int) (h1 : (2 : ℚ) ^ e ≤ -q)
    (h2 : -q < (2 : ℚ) ^ (e + 1)) (hq : q = (k : ℚ) * 2 ^ (e - 23)) : round32 q = q := by
  have hneg : q < 0 := by
    have : (0 : ℚ) < 2 ^ e := by positivity
    linarith
  have hpos : (0 : ℚ) < 2 ^ (e - 23) := by positivity
  unfold round32
  rw [if_neg hneg.ne, abs_of_neg hneg]
  simp only [int_log_two_eq _ e h1 h2]
  rw [hq, mul_div_assoc, div_self hpos.ne', mul_one, roundHalfEven_int]

/-- The rounding of a negative number with binary exponent `e`. -/
theorem round32_eq_neg (q : ℚ) (e k : Int) (h1 : (2 : ℚ) ^ e ≤ -q) (h2 : -q < (2 : ℚ) ^ (e + 1))
    (hk : roundHalfEven (q / 2 ^ (e - 23)) = k) : round32 q = (k : ℚ) * 2 ^ (e - 23) := by
  have hneg : q < 0 := by
    have : (0 : ℚ) < 2 ^ e := by positivity
    linarith
  unfold round32
  rw [if_neg hneg.ne, abs_of_neg hneg]
  simp only [int_log_two_eq _ e h1 h2, hk]

theorem round32_zero : round32 0 = 0 := by
  unfold round32
  rw [if_pos rfl]

theorem round32_half : round32 (1 / 2) = 1 / 2 := by
  apply round32_exact _ (-1) 8388608 <;> norm_num

theorem round32_one : round32 1 = 1 := by
  apply round32_exact 1 0 8388608 <;> norm_num

theorem round32_two : round32 2 = 2 := by
  apply round32_exact _ 1 8388608 <;> norm_num

theorem round32_four : round32 4 = 4 := by
  apply round32_exact 4 2 8388608 <;> norm_num

/-- The constant 0.02f: the `float` nearest to 1/50. -/
theorem round32_fiftieth : round32 (1 / 50) = 5368709 / 268435456 := by
  rw [round32_eq _ (-6) 10737418]
  · norm_num
  · norm_num
  · norm_num
  · rw [roundHalfEven_eq _ 10737418 (by norm_num) (by norm_num)]
    norm_num

/-- The number 1e10 is a `float`. -/
theorem round32_ten_billion : round32 10000000000 = 10000000000 := by
  apply round32_exact _ 33 9765625 <;> norm_num

theorem round32_belowOne : round32 belowOne = belowOne := by
  unfold belowOne
  apply round32_exact _ (-1) 16777215 <;> norm_num

/-- The sum 0.99999994f + 1.0f lies half-way between the floats 1.9999999f
and 2.0f and is rounded to 2.0f, the even one. -/
theorem round32_top : round32 (belowOne + 1) = 2 := by
  unfold belowOne
  rw [round32_eq _ 0 16777216]
  · norm_num
  · norm_num
  · norm_num
  · rw [roundHalfEven_eq _ 16777215 (by norm_num) (by norm_num)]
    norm_num

/-- The difference 33554440.0f - 2.0f lies half-way between the floats
33554436 and 33554440 and is rounded back to 33554440, the even one. -/
theorem round32_absorb_25 : round32 (33554440 - 2) = 33554440 := by
  rw [round32_eq _ 25 8388610]
  · norm_num
  · norm_num
  · norm_num
  · rw [roundHalfEven_eq _ 8388609 (by norm_num) (by norm_num)]
    norm_num

/-- The sum -33554440.0f + 2.0f lies half-way between the floats -33554440
and -33554436 and is rounded back to -33554440, the even one. -/
theorem round32_absorb_neg_25 : round32 (-33554440 + 2) = -33554440 := by
  rw [round32_eq_neg _ 25 (-8388610)]
  · norm_num
  · norm_num
  · norm_num
  · rw [roundHalfEven_eq _ (-8388610) (by norm_num) (by norm_num)]
    norm_num

theorem gridSize32_half : ⌊round32 (2 / (1 / 2 : ℚ))⌋ = 4 := by
  rw [show (2 / (1 / 2) : ℚ) = 4 by norm_num, round32_four, Int.floor_eq_iff]
  norm_num

/-- In `float` arithmetic the position 0.99999994f gets the cell coordinate 4
in a grid of size 4. -/
theorem cellCoord32_belowOne : cellCoord32 4 belowOne = 4 := by
  unfold cellCoord32
  rw [round32_top]
  norm_num [round32_one, round32_four]

theorem round32_near_top : round32 (belowOne - 3 / 16 + 1) = 29 / 16 := by
  unfold belowOne
  rw [round32_eq _ 0 15204352]
  · norm_num
  · norm_num
  · norm_num
  · rw [roundHalfEven_eq _ 15204351 (by norm_num) (by norm_num)]
    norm_num

theorem cellCoord32_near_top : cellCoord32 4 (belowOne - 3 / 16) = 3 := by
  unfold cellCoord32
  rw [round32_near_top]
  have h1 : round32 (29 / 16 * (1 / 2)) = 29 / 32 := by
    rw [show (29 / 16 * (1 / 2) : ℚ) = 29 / 32 by norm_num]
    apply round32_exact _ (-1) 15204352 <;> norm_num
  have h2 : round32 (29 / 32 * 4) = 29 / 8 := by
    rw [show (29 / 32 * 4 : ℚ) = 29 / 8 by norm_num]
    apply round32_exact _ 1 15204352 <;> norm_num
  rw [h1]
  push_cast
  rw [round32_four, h2, Int.floor_eq_iff]
  norm_num

theorem cellCoord32_neg_quarter : cellCoord32 4 (-1 / 4) = 1 := by
  unfold cellCoord32
  have h0 : round32 (-1 / 4 + 1) = 3 / 4 := by
    rw [show (-1 / 4 + 1 : ℚ) = 3 / 4 by norm_num]
    apply round32_exact _ (-1) 12582912 <;> norm_num
  have h1 : round32 (3 / 4 * (1 / 2)) = 3 / 8 := by
    rw [show (3 / 4 * (1 / 2) : ℚ) = 3 / 8 by norm_num]
    apply round32_exact _ (-2) 12582912 <;> norm_num
  have h2 : round32 (3 / 8 * 4) = 3 / 2 := by
    rw [show (3 / 8 * 4 : ℚ) = 3 / 2 by norm_num]
    apply round32_exact _ 0 12582912 <;> norm_num
  rw [h0, h1]
  push_cast
  rw [round32_four, h2, Int.floor_eq_iff]
  norm_num

theorem cellCoord32_zero : cellCoord32 4 0 = 2 := by
  unfold cellCoord32
  rw [zero_add, round32_one, one_mul, round32_half]
  push_cast
  rw [round32_four, show (1 / 2 * 4 : ℚ) = 2 by norm_num, round32_two, Int.floor_eq_iff]
  norm_num

theorem cellCoord32_three_quarters : cellCoord32 4 (3 / 4) = 3 := by
  unfold cellCoord32
  have h0 : round32 (3 / 4 + 1) = 7 / 4 := by
    rw [show (3 / 4 + 1 : ℚ) = 7 / 4 by norm_num]
    apply round32_exact _ 0 14680064 <;> norm_num
  have h1 : round32 (7 / 4 * (1 / 2)) = 7 / 8 := by
    rw [show (7 / 4 * (1 / 2) : ℚ) = 7 / 8 by norm_num]
    apply round32_exact _ (-1) 14680064 <;> norm_num
  have h2 : round32 (7 / 8 * 4) = 7 / 2 := by
    rw [show (7 / 8 * 4 : ℚ) = 7 / 2 by norm_num]
    apply round32_exact _ 1 14680064 <;> norm_num
  rw [h0, h1]
  push_cast
  rw [round32_four, h2, Int.floor_eq_iff]
  norm_num

theorem round32_near_top_x : round32 (belowOne - 3 / 16) = belowOne - 3 / 16 := by
  unfold belowOne
  apply round32_exact _ (-1) 13631487 <;> norm_num

theorem round32_neg_quarter : round32 (-1 / 4) = -1 / 4 := by
  apply round32_exact_neg _ (-2) (-8388608) <;> norm_num

end Binary32Facts

section Boundary32Facts

theorem boundary32_of_mem (fuel : Nat) (x : ℚ) (h1 : -1 ≤ x) (h2 : x < 1) :
    boundary32 fuel x = some x := by
  unfold boundary32
  rw [if_neg (not_lt.mpr h1), if_neg (not_le.mpr h2)]

/-- A value that the subtraction of `2.0f` leaves unchanged keeps the second
loop of `boundary` running for ever. -/
theorem boundaryDown32_of_absorbed (x : ℚ) (hx : 1 ≤ x) (habs : round32 (x - 2) = x)
    (fuel : Nat) : boundaryDown32 fuel x = none := by
  induction fuel with
  | zero => rfl
  | succ fuel ih =>
    unfold boundaryDown32
    simp only [habs, if_pos hx, ih]

/-- A value that the addition of `2.0f` leaves unchanged keeps the first loop
of `boundary` running for ever. -/
theorem boundaryUp32_of_absorbed (x : ℚ) (hx : x < -1) (habs : round32 (x + 2) = x)
    (fuel : Nat) : boundaryUp32 fuel x = none := by
  induction fuel with
  | zero => rfl
  | succ fuel ih =>
    unfold boundaryUp32
    simp only [habs, if_pos hx, ih]

theorem boundary32_of_absorbed (x : ℚ) (hx : 1 ≤ x) (habs : round32 (x - 2) = x)
    (fuel : Nat) : boundary32 fuel x = none := by
  unfold boundary32
  rw [if_neg (by linarith), if_pos hx]
  exact boundaryDown32_of_absorbed x hx habs fuel

end Boundary32Facts

section Step32Facts

theorem intRange_zero_one : intRange 0 1 = [0] := by
  rw [intRange_cons (by norm_num), intRange_of_le (by norm_num)]

theorem positions32_one (fuel : Nat) (dt : ℚ) (ps : Arr (Particle ℚ)) :
    positions32 fuel 1 dt ps = positionStep32 fuel dt ps 0 := by
  unfold positions32
  rw [intRange_zero_one]
  rfl

theorem positions32_two (fuel : Nat) (dt : ℚ) (ps : Arr (Particle ℚ)) :
    positions32 fuel 2 dt ps =
      (positionStep32 fuel dt ps 0).bind (fun ps => positionStep32 fuel dt ps 1) := by
  unfold positions32
  rw [intRange_zero_two]
  rfl

theorem positionStep32_some (fuel : Nat) (dt : ℚ) (ps : Arr (Particle ℚ)) (i : Int) (x y : ℚ)
    (hx : boundary32 fuel (round32 ((ps.get i).x + round32 ((ps.get i).vx * dt))) = some x)
    (hy : boundary32 fuel (round32 ((ps.get i).y + round32 ((ps.get i).vy * dt))) = some y) :
    positionStep32 fuel dt ps i = some (ps.set i { ps.get i with x := x, y := y }) := by
  unfold positionStep32
  simp only [hx, hy, Option.some_bind]

theorem positionStep32_none (fuel : Nat) (dt : ℚ) (ps : Arr (Particle ℚ)) (i : Int)
    (hx : boundary32 fuel (round32 ((ps.get i).x + round32 ((ps.get i).vx * dt))) = none) :
    positionStep32 fuel dt ps i = none := by
  unfold positionStep32
  simp only [hx, Option.none_bind]

theorem update32_of_grid (fuel : Nat) (pow : ℚ → ℚ → ℚ) (sqrtf : ℚ → ℚ)
    (s : ParticleSystem ℚ) (g : Int) (hgs : ⌊round32 (2 / s.rMax)⌋ = g) (hg : 3 ≤ g) :
    update32 fuel pow sqrtf s =
      (positions32 fuel s.n s.dt
        (velocities sqrtf s.rMax s.forceFactor s.dt (pow (1 / 2) (s.dt / s.frictionHalfLife))
          s.m s.matrix g (buildGrid32 s.n s.particles g s.grid s.gridMap).1
          (buildGrid32 s.n s.particles g s.grid s.gridMap).2 s.particles)).map
        (fun particles =>
          { s with
            gridSize := g,
            grid := (buildGrid32 s.n s.particles g s.grid s.gridMap).1,
            gridMap := (buildGrid32 s.n s.particles g s.grid s.gridMap).2,
            particles := particles }) := by
  unfold update32
  simp only [hgs, ne_eq, ite_not, if_neg (show ¬ g < 3 by omega)]
  split_ifs with h1
  · rw [← h1]
  · rfl

end Step32Facts

section FiledFacts

variable {K : Type} [LinearOrderedField K] [FloorRing K]

/-- The offset table after the build phase holds the prefix sums of the cell
counts, whatever the cell indices of the particles are. -/
theorem buildGrid_offsets (n : Int) (particles : Arr (Particle K)) (gridSize : Int)
    (grid gridMap : Arr Int) (c : Int) (hc0 : 0 ≤ c) (hcG : c ≤ gridSize * gridSize) :
    (buildGrid n particles gridSize grid gridMap).1.get c =
      prefixSum (cellCount particles gridSize (intRange 0 n)) c := by
  unfold buildGrid
  simp only
  rw [undoGrid_get]
  by_cases h0 : c = 0
  · rw [if_pos h0, h0, prefixSum_zero]
  · rw [if_neg h0, if_pos ⟨by omega, hcG⟩, scatter_fst_get]
    simp only
    rw [cumsum_countCells_clear_get n particles gridSize grid (c - 1) (by omega) (by omega)]
    have := prefixSum_succ (cellCount particles gridSize (intRange 0 n))
      (show 0 ≤ c - 1 by omega)
    rw [sub_add_cancel] at this
    rw [this]

/-- The scan around the cell `(cx, cy)` adds the contributions of the particles
that the build phase filed in the nine cells scanned; `filed` are the particles
whose cells the build phase used, `ps` the particles whose positions the forces
are computed from. -/
theorem totalForce_filed (sqrtf : K → K) (rMax : K) (m : Int) (matrix : Arr K) (n : Int)
    (filed ps : Arr (Particle K)) (g : Int) (hg : 3 ≤ g) (grid gridMap : Arr Int) (hn : 0 ≤ n)
    (hcell : ∀ i, 0 ≤ i → i < n →
      0 ≤ gridIndexOf g (filed.get i) ∧ gridIndexOf g (filed.get i) < g * g)
    (cx cy : Int) (hcx : 0 ≤ cx ∧ cx < g) (hcy : 0 ≤ cy ∧ cy < g) (i : Int) :
    totalForce sqrtf rMax m matrix g (buildGrid n filed g grid gridMap).1
        (buildGrid n filed g grid gridMap).2 ps cx cy i =
      (((intRange 0 n).filter
          (fun j => gridIndexOf g (filed.get j) ∈ neighbourCells g cx cy)).map
        (contribution sqrtf rMax m matrix ps i)).sum := by
  rw [totalForce_eq_cells]
  have e : (neighbourCells g cx cy).map (fun c_ =>
        (((intRange ((buildGrid n filed g grid gridMap).1.get c_)
            ((buildGrid n filed g grid gridMap).1.get (c_ + 1))).map
          (buildGrid n filed g grid gridMap).2.get).map
          (contribution sqrtf rMax m matrix ps i)).sum) =
      (neighbourCells g cx cy).map (fun c_ =>
        (((intRange 0 n).filter (fun j => gridIndexOf g (filed.get j) = c_)).map
          (contribution sqrtf rMax m matrix ps i)).sum) := by
    apply List.map_congr_left
    intro c_ hc_
    obtain ⟨h0, h1⟩ := neighbourCells_mem_grid _ _ _ hcx hcy c_ hc_
    rw [(buildGrid_spec n filed g grid gridMap hn hcell).2 c_ h0 h1]
  rw [e, sum_fibers _ _ (neighbourCells_nodup _ _ _ hg hcx hcy)]

/-- The velocity pass over a grid that was built from the cells of `filed`:
the particle `j` gets the force that the scan around the cell of `filed[j]`
collects. -/
theorem velocities_filed_get (sqrtf : K → K) (rMax forceFactor dt frictionFactor : K)
    (m : Int) (matrix : Arr K) (n : Int) (filed ps : Arr (Particle K)) (g : Int) (hg : 3 ≤ g)
    (grid gridMap : Arr Int) (hn : 0 ≤ n)
    (hpos : ∀ j, 0 ≤ j → j < n →
      (-1 ≤ (filed.get j).x ∧ (filed.get j).x < 1) ∧
      (-1 ≤ (filed.get j).y ∧ (filed.get j).y < 1))
    (j : Int) :
    (velocities sqrtf rMax forceFactor dt frictionFactor m matrix g
        (buildGrid n filed g grid gridMap).1 (buildGrid n filed g grid gridMap).2 ps).get j =
      if 0 ≤ j ∧ j < n then
        withNewVelocity rMax forceFactor dt frictionFactor (ps.get j)
          ((((intRange 0 n).filter
              (fun k => gridIndexOf g (filed.get k) ∈
                neighbourCells g (cellCoord g (filed.get j).x) (cellCoord g (filed.get j).y))).map
            (contribution sqrtf rMax m matrix ps j)).sum)
      else ps.get j := by
  have hg0 : (0 : Int) < g := by omega
  have hcell : ∀ i, 0 ≤ i → i < n →
      0 ≤ gridIndexOf g (filed.get i) ∧ gridIndexOf g (filed.get i) < g * g :=
    fun i h0 h1 => gridIndexOf_mem _ hg0 _ (hpos i h0 h1).1 (hpos i h0 h1).2
  rw [velocities_eq_pass]
  rw [velocityPass_get sqrtf rMax forceFactor dt frictionFactor m matrix g _ _ ps
    (fun j => (((intRange 0 n).filter
        (fun k => gridIndexOf g (filed.get k) ∈
          neighbourCells g (cellCoord g (filed.get j).x) (cellCoord g (filed.get j).y))).map
      (contribution sqrtf rMax m matrix ps j)).sum) _ ps (fun _ => ⟨rfl, rfl, rfl⟩)
    (velocityWork_nodup n filed g grid gridMap hn hcell)]
  · simp only [velocityWork_covers n filed g hg0 grid gridMap hn hpos j]
  · intro item hitem
    obtain ⟨hr, ex, ey⟩ := velocityWork_own_cell n filed g hg0 grid gridMap hn hpos item hitem
    rw [ex, ey]
    exact totalForce_filed sqrtf rMax m matrix n filed ps g hg grid gridMap hn hcell _ _
      (cellCoord_mem g hg0 _ (hpos _ hr.1 hr.2).1.1 (hpos _ hr.1 hr.2).1.2)
      (cellCoord_mem g hg0 _ (hpos _ hr.1 hr.2).2.1 (hpos _ hr.1 hr.2).2.2) _

/-- The velocity pass treats no particle when every slot range is empty. -/
theorem velocities_of_empty (sqrtf : K → K) (rMax forceFactor dt frictionFactor : K)
    (m : Int) (matrix : Arr K) (g : Int) (grid gridMap : Arr Int) (ps : Arr (Particle K))
    (hempty : ∀ c, 0 ≤ c → c < g * g → grid.get (c + 1) ≤ grid.get c) :
    velocities sqrtf rMax forceFactor dt frictionFactor m matrix g grid gridMap ps = ps := by
  rw [velocities_eq_pass]
  have hw : velocityWork g grid = [] := by
    apply List.eq_nil_iff_forall_not_mem.mpr
    intro item hitem
    rw [mem_velocityWork] at hitem
    obtain ⟨hcy, hcx, h1, h2⟩ := hitem
    have h0 := rowMajor_nonneg (m := g) hcx.1 (by omega) hcy.1
    have hG := rowMajor_lt (m := g) hcx.1 hcx.2 hcy.2
    have := hempty (item.2.1 + item.1 * g) (by omega) (by omega)
    omega
  rw [hw]
  rfl

end FiledFacts

section Build32Facts

/-- The build phase in `float` arithmetic is the build phase for particles
with the same cell indices. -/
theorem buildGrid32_eq (n : Int) (ps filed : Arr (Particle ℚ)) (g : Int)
    (grid gridMap : Arr Int)
    (h : ∀ i, gridIndexOf32 g (ps.get i) = gridIndexOf g (filed.get i)) :
    buildGrid32 n ps g grid gridMap = buildGrid n filed g grid gridMap := by
  unfold buildGrid32 buildGrid countCells32 countCells scatter32 scatter
  simp only [h]

end Build32Facts

section KernelFloat

/-- C5, evaluated at the failing inputs x = 33554440.0f and x = -33554440.0f:
the number 33554440 is a `float`, the subtraction `x - 2.0f` is rounded back to
33554440, and so the loop `do { x -= 2.0f; } while (x >= 1.0f);` of `boundary`
has not ended after any number of rounds: in `float` arithmetic
`boundary(33554440.0f)` does not return.  In the same way `x + 2.0f` is rounded
back to -33554440 and the loop `do { x += 2.0f; } while (x < -1.0f);` does not
end at x = -33554440.0f. -/
theorem boundary32_never_returns :
    round32 33554440 = 33554440 ∧ round32 (33554440 - 2) = 33554440 ∧
    (∀ fuel : Nat, boundary32 fuel 33554440 = none) ∧
    round32 (-33554440) = -33554440 ∧ round32 (-33554440 + 2) = -33554440 ∧
    (∀ fuel : Nat, boundary32 fuel (-33554440) = none) := by
  refine ⟨?_, round32_absorb_25, ?_, ?_, round32_absorb_neg_25, ?_⟩
  · apply round32_exact _ 25 8388610 <;> norm_num
  · intro fuel
    exact boundary32_of_absorbed _ (by norm_num) round32_absorb_25 fuel
  · apply round32_exact_neg _ 25 (-8388610) <;> norm_num
  · intro fuel
    unfold boundary32
    rw [if_pos (by norm_num)]
    exact boundaryUp32_of_absorbed _ (by norm_num) round32_absorb_neg_25 fuel

end KernelFloat

section FastParticleFacts

theorem fastParticle_cells (i : Int) :
    gridIndexOf32 4 (fastParticle.particles.get i) =
      gridIndexOf 4 (fastParticle.particles.get i) := by
  have e : cellCoord 4 (0 : ℚ) = 2 := by
    unfold cellCoord
    rw [Int.floor_eq_iff]
    norm_num
  show gridIndexOf32 4 ⟨0, 0, 0, 10000000000, 0⟩ = gridIndexOf 4 ⟨0, 0, 0, 10000000000, 0⟩
  unfold gridIndexOf32 gridIndexOf
  simp only [cellCoord32_zero, e]

/-- The position `0 + 5e9 * 0.02f` that the position pass computes for
`fastParticle` is the `float` 1e8. -/
theorem round32_fast_step :
    round32 (0 + round32 (10000000000 * (1 / 2) * (5368709 / 268435456))) = 100000000 := by
  have h1 : round32 (10000000000 * (1 / 2) * (5368709 / 268435456)) = 100000000 := by
    rw [round32_eq _ 26 12500000]
    · norm_num
    · norm_num
    · norm_num
    · rw [roundHalfEven_eq _ 12499999 (by norm_num) (by norm_num)]
      norm_num
  rw [h1, zero_add]
  apply round32_exact _ 26 12500000 <;> norm_num

/-- The difference 1e8 - 2.0f is rounded back to 1e8: the floats near 1e8 are
8 apart. -/
theorem round32_fast_absorbed : round32 (100000000 - 2) = 100000000 := by
  rw [round32_eq _ 26 12500000]
  · norm_num
  · norm_num
  · norm_num
  · rw [roundHalfEven_eq _ 12499999 (by norm_num) (by norm_num)]
    norm_num

theorem sum_contribution_single (sqrtf : ℚ → ℚ) (rMax : ℚ) (m : Int) (matrix : Arr ℚ)
    (ps : Arr (Particle ℚ)) (P : Int → Bool) :
    (((intRange 0 1).filter P).map (contribution sqrtf rMax m matrix ps 0)).sum = 0 := by
  have h00 : contribution sqrtf rMax m matrix ps 0 0 = 0 := by
    unfold contribution
    rw [if_pos rfl]
  rw [intRange_zero_one]
  cases h : P 0 <;> simp [List.filter_cons, h, h00]

end FastParticleFacts

section FastParticleClaim

/-- C17, evaluated at the failing input `fastParticle` (one particle at (0, 0)
with the velocity (1e10f, 0), dt = frictionHalfLife = 0.02f, rMax = 0.5; the
position is in [-1, 1) and gridSize is 4): with `pow(0.5, 1) = 0.5` the velocity
pass gives the particle the velocity 5e9, the position pass calls `boundary` on
the `float` 1e8, and there `x - 2.0f` is rounded back to `x`: `update` does not
return, whatever the number of loop rounds allowed. -/
theorem update32_never_returns (fuel : Nat) (pow : ℚ → ℚ → ℚ) (sqrtf : ℚ → ℚ)
    (hpow : pow (1 / 2) 1 = 1 / 2) : update32 fuel pow sqrtf fastParticle = none := by
  have hgs : ⌊round32 (2 / fastParticle.rMax)⌋ = 4 := gridSize32_half
  rw [update32_of_grid fuel pow sqrtf fastParticle 4 hgs (by norm_num)]
  rw [buildGrid32_eq _ _ fastParticle.particles 4 _ _ fastParticle_cells]
  have hn : fastParticle.n = 1 := rfl
  rw [hn, positions32_one, positionStep32_none, Option.map_none']
  have hpos : ∀ j, 0 ≤ j → j < 1 →
      (-1 ≤ (fastParticle.particles.get j).x ∧ (fastParticle.particles.get j).x < 1) ∧
      (-1 ≤ (fastParticle.particles.get j).y ∧ (fastParticle.particles.get j).y < 1) := by
    intro j _ _
    show (-1 ≤ (0 : ℚ) ∧ (0 : ℚ) < 1) ∧ (-1 ≤ (0 : ℚ) ∧ (0 : ℚ) < 1)
    norm_num
  rw [velocities_filed_get _ _ _ _ _ _ _ 1 fastParticle.particles fastParticle.particles 4
    (by norm_num) _ _ (by norm_num) hpos 0, if_pos (by norm_num), sum_contribution_single]
  have hratio : fastParticle.dt / fastParticle.frictionHalfLife = 1 := by
    show (5368709 / 268435456 : ℚ) / (5368709 / 268435456) = 1
    norm_num
  rw [hratio, hpow]
  have hv : (withNewVelocity fastParticle.rMax fastParticle.forceFactor fastParticle.dt (1 / 2)
      (fastParticle.particles.get 0) 0) =
      ⟨0, 0, 0, 10000000000 * (1 / 2) + 0 * ((1 / 2) * 10) * (5368709 / 268435456),
        0 * (1 / 2) + 0 * ((1 / 2) * 10) * (5368709 / 268435456)⟩ := rfl
  rw [hv]
  simp only [zero_mul, add_zero]
  show boundary32 fuel
    (round32 (0 + round32 (10000000000 * (1 / 2) * (5368709 / 268435456)))) = none
  rw [round32_fast_step]
  exact boundary32_of_absorbed _ (by norm_num) round32_fast_absorbed fuel

/-- Witness for C17: a `pow` that is right at the exponent 1, and 1000 rounds
of fuel. -/
theorem update32_never_returns_witness :
    update32 1000 (fun a _ => a) Rat.sqrt fastParticle = none :=
  update32_never_returns 1000 (fun a _ => a) Rat.sqrt rfl

end FastParticleClaim

section EdgeParticleFacts

theorem edgeParticle_index32 (i : Int) :
    gridIndexOf32 4 (edgeParticle.particles.get i) = 16 := by
  show gridIndexOf32 4 ⟨0, belowOne, 3 / 4, 0, 1⟩ = 16
  unfold gridIndexOf32
  simp only [cellCoord32_belowOne, cellCoord32_three_quarters]
  norm_num

theorem edgeFiled_index (i : Int) : gridIndexOf 4 (edgeFiled.get i) = 16 := by
  have e1 : cellCoord 4 (9 / 8 : ℚ) = 4 := by
    unfold cellCoord
    rw [Int.floor_eq_iff]
    norm_num
  have e2 : cellCoord 4 (3 / 4 : ℚ) = 3 := by
    unfold cellCoord
    rw [Int.floor_eq_iff]
    norm_num
  show gridIndexOf 4 ⟨0, 9 / 8, 3 / 4, 0, 1⟩ = 16
  unfold gridIndexOf
  simp only [e1, e2]
  norm_num

theorem edgeParticle_build (grid gridMap : Arr Int) :
    buildGrid32 1 edgeParticle.particles 4 grid gridMap = buildGrid 1 edgeFiled 4 grid gridMap :=
  buildGrid32_eq _ _ _ _ _ _ (fun i => by rw [edgeParticle_index32, edgeFiled_index])

theorem prefixSum_eq_zero (f : Int → Int) (c : Int) (h : ∀ j, 0 ≤ j → j < c → f j = 0) :
    prefixSum f c = 0 := by
  rw [@prefixSum_congr f (fun _ => 0) c h]
  unfold prefixSum
  simp

/-- After the build phase in `float` arithmetic every offset of the table of
`edgeParticle` is 0, the last one included. -/
theorem edgeParticle_offsets (grid gridMap : Arr Int) (c : Int) (hc0 : 0 ≤ c) (hc : c ≤ 16) :
    (buildGrid32 1 edgeParticle.particles 4 grid gridMap).1.get c = 0 := by
  rw [edgeParticle_build,
    buildGrid_offsets 1 edgeFiled 4 grid gridMap c hc0 (by norm_num; exact hc)]
  apply prefixSum_eq_zero
  intro j _ hj
  unfold cellCount
  rw [intRange_zero_one]
  have : ¬ gridIndexOf 4 (edgeFiled.get 0) = j := by
    rw [edgeFiled_index]
    omega
  simp [this]

theorem round32_edge_y : round32 (3 / 4 + round32 (1 * (1 / 64))) = 49 / 64 := by
  have h1 : round32 (1 * (1 / 64)) = 1 / 64 := by
    rw [one_mul]
    apply round32_exact _ (-6) 8388608 <;> norm_num
  rw [h1, show (3 / 4 + 1 / 64 : ℚ) = 49 / 64 by norm_num]
  apply round32_exact _ (-1) 12845056 <;> norm_num

end EdgeParticleFacts

section EdgeParticleClaims

/-- C18, evaluated at the failing input `edgeParticle` (one particle at
(0.99999994f, 0.75f), gridSize 4): in `float` arithmetic the build phase gives
the particle the cell index 16 = gridSize², outside 0..15, although its
position is in [-1, 1); after the build phase every entry grid[0..16] is 0, so
grid[gridSize²] is 0 and not n = 1, and every slot range [grid[c], grid[c+1])
is empty: the particle is in no cell's slot range. -/
theorem buildGrid32_index_outside_table :
    ((-1 ≤ (edgeParticle.particles.get 0).x ∧ (edgeParticle.particles.get 0).x < 1) ∧
      (-1 ≤ (edgeParticle.particles.get 0).y ∧ (edgeParticle.particles.get 0).y < 1)) ∧
    ⌊round32 (2 / edgeParticle.rMax)⌋ = 4 ∧
    gridIndexOf32 4 (edgeParticle.particles.get 0) = 16 ∧
    edgeParticle.n = 1 ∧
    ∀ c : Int, 0 ≤ c → c ≤ 16 →
      (buildGrid32 edgeParticle.n edgeParticle.particles 4 edgeParticle.grid
        edgeParticle.gridMap).1.get c = 0 := by
  refine ⟨?_, gridSize32_half, edgeParticle_index32 0, rfl,
    fun c hc0 hc => edgeParticle_offsets _ _ c hc0 hc⟩
  show (-1 ≤ belowOne ∧ belowOne < 1) ∧ (-1 ≤ (3 / 4 : ℚ) ∧ (3 / 4 : ℚ) < 1)
  unfold belowOne
  norm_num

/-- C12, evaluated at the failing input `edgeParticle` (one particle, so no
other particle is in range, at (0.99999994f, 0.75f) with the velocity (0, 1),
gridSize 4): the build phase files the particle under the index 16, which the
velocity pass over the cells 0..15 never reaches, so `update` returns with the
velocity still (0, 1): it is not multiplied by `0.5^(dt/frictionHalfLife)`,
whatever `pow` and `sqrtf` return. -/
theorem update32_skips_damping (fuel : Nat) (pow : ℚ → ℚ → ℚ) (sqrtf : ℚ → ℚ) :
    (update32 fuel pow sqrtf edgeParticle).map
        (fun t => ((t.particles.get 0).vx, (t.particles.get 0).vy)) = some (0, 1) := by
  have hgs : ⌊round32 (2 / edgeParticle.rMax)⌋ = 4 := gridSize32_half
  rw [update32_of_grid fuel pow sqrtf edgeParticle 4 hgs (by norm_num)]
  have hn : edgeParticle.n = 1 := rfl
  rw [hn, velocities_of_empty, positions32_one]
  · have hx : boundary32 fuel (round32 ((edgeParticle.particles.get 0).x +
        round32 ((edgeParticle.particles.get 0).vx * edgeParticle.dt))) = some belowOne := by
      show boundary32 fuel (round32 (belowOne + round32 (0 * (1 / 64)))) = some belowOne
      rw [zero_mul, round32_zero, add_zero, round32_belowOne]
      exact boundary32_of_mem fuel _ (by unfold belowOne; norm_num) (by unfold belowOne; norm_num)
    have hy : boundary32 fuel (round32 ((edgeParticle.particles.get 0).y +
        round32 ((edgeParticle.particles.get 0).vy * edgeParticle.dt))) = some (49 / 64) := by
      show boundary32 fuel (round32 (3 / 4 + round32 (1 * (1 / 64)))) = some (49 / 64)
      rw [round32_edge_y]
      exact boundary32_of_mem fuel _ (by norm_num) (by norm_num)
    rw [positionStep32_some fuel _ _ 0 _ _ hx hy]
    simp only [Option.map_some', Arr.get_set, if_true]
    rfl
  · intro c hc0 hc
    rw [edgeParticle_offsets _ _ c hc0 (by omega),
      edgeParticle_offsets _ _ (c + 1) (by omega) (by omega)]

end EdgeParticleClaims

section MisfiledPairFacts

theorem misfiledPair_get_zero :
    misfiledPair.particles.get 0 = ⟨0, belowOne - 3 / 16, -1 / 4, 0, 0⟩ := rfl

theorem misfiledPair_get_one : misfiledPair.particles.get 1 = ⟨0, belowOne, 0, 0, 0⟩ := rfl

theorem misfiledPair_get_of_ne (i : Int) (h : i ≠ 0) :
    misfiledPair.particles.get i = ⟨0, belowOne, 0, 0, 0⟩ := by
  show (if i = 0 then _ else _) = _
  rw [if_neg h]

/-- In `float` arithmetic particle 0 of `misfiledPair` is filed in cell (3, 1). -/
theorem misfiledPair_index32_zero : gridIndexOf32 4 (misfiledPair.particles.get 0) = 7 := by
  rw [misfiledPair_get_zero]
  unfold gridIndexOf32
  simp only [cellCoord32_near_top, cellCoord32_neg_quarter]
  norm_num

/-- In `float` arithmetic particle 1 of `misfiledPair` gets the column 4 and
the row 2, and is filed under the index 12, which is the cell (0, 3). -/
theorem misfiledPair_index32_one : gridIndexOf32 4 (misfiledPair.particles.get 1) = 12 := by
  rw [misfiledPair_get_one]
  unfold gridIndexOf32
  simp only [cellCoord32_belowOne, cellCoord32_zero]
  norm_num

theorem cellCoord_near_top : cellCoord 4 (belowOne - 3 / 16) = 3 := by
  unfold cellCoord belowOne
  rw [Int.floor_eq_iff]
  norm_num

theorem cellCoord_neg_quarter : cellCoord 4 (-1 / 4 : ℚ) = 1 := by
  unfold cellCoord
  rw [Int.floor_eq_iff]
  norm_num

theorem pairFiled_index_zero : gridIndexOf 4 (pairFiled.get 0) = 7 := by
  show gridIndexOf 4 ⟨0, belowOne - 3 / 16, -1 / 4, 0, 0⟩ = 7
  unfold gridIndexOf
  simp only [cellCoord_near_top, cellCoord_neg_quarter]
  norm_num

theorem pairFiled_get_of_ne (i : Int) (h : i ≠ 0) :
    pairFiled.get i = ⟨0, -7 / 8, 5 / 8, 0, 0⟩ := by
  show (if i = 0 then _ else _) = _
  rw [if_neg h]

theorem pairFiled_index_of_ne (i : Int) (h : i ≠ 0) : gridIndexOf 4 (pairFiled.get i) = 12 := by
  have e1 : cellCoord 4 (-7 / 8 : ℚ) = 0 := by
    unfold cellCoord
    rw [Int.floor_eq_iff]
    norm_num
  have e2 : cellCoord 4 (5 / 8 : ℚ) = 3 := by
    unfold cellCoord
    rw [Int.floor_eq_iff]
    norm_num
  rw [pairFiled_get_of_ne i h]
  unfold gridIndexOf
  simp only [e1, e2]
  norm_num

theorem misfiledPair_cells (i : Int) :
    gridIndexOf32 4 (misfiledPair.particles.get i) = gridIndexOf 4 (pairFiled.get i) := by
  by_cases h : i = 0
  · rw [h, misfiledPair_index32_zero, pairFiled_index_zero]
  · rw [pairFiled_index_of_ne i h, misfiledPair_get_of_ne i h, ← misfiledPair_get_one,
      misfiledPair_index32_one]

theorem misfiledPair_build (grid gridMap : Arr Int) :
    buildGrid32 2 misfiledPair.particles 4 grid gridMap = buildGrid 2 pairFiled 4 grid gridMap :=
  buildGrid32_eq _ _ _ _ _ _ misfiledPair_cells

theorem misfiledGrid_eq :
    misfiledGrid = buildGrid 2 pairFiled 4 misfiledPair.grid misfiledPair.gridMap :=
  misfiledPair_build _ _

theorem pairFiled_pos (j : Int) (_ : 0 ≤ j) (_ : j < 2) :
    (-1 ≤ (pairFiled.get j).x ∧ (pairFiled.get j).x < 1) ∧
    (-1 ≤ (pairFiled.get j).y ∧ (pairFiled.get j).y < 1) := by
  by_cases h : j = 0
  · rw [h]
    show (-1 ≤ belowOne - 3 / 16 ∧ belowOne - 3 / 16 < 1) ∧
      (-1 ≤ (-1 / 4 : ℚ) ∧ (-1 / 4 : ℚ) < 1)
    unfold belowOne
    norm_num
  · rw [pairFiled_get_of_ne j h]
    norm_num

theorem pairFiled_cell (j : Int) (h0 : 0 ≤ j) (h2 : j < 2) :
    0 ≤ gridIndexOf 4 (pairFiled.get j) ∧ gridIndexOf 4 (pairFiled.get j) < 4 * 4 :=
  gridIndexOf_mem 4 (by norm_num) _ (pairFiled_pos j h0 h2).1 (pairFiled_pos j h0 h2).2

/-- The index 12 is none of the nine cells scanned around the cell (3, 1). -/
theorem twelve_not_near : (12 : Int) ∉ neighbourCells 4 3 1 := by
  rw [mem_neighbourCells]
  rintro ⟨dx, dy, hdx, hdy, h⟩
  unfold wrapCell at h
  rcases hdx with rfl | rfl | rfl <;> rcases hdy with rfl | rfl | rfl <;> norm_num at h

/-- The index 7 is none of the nine cells scanned around the cell (0, 3). -/
theorem seven_not_near : (7 : Int) ∉ neighbourCells 4 0 3 := by
  rw [mem_neighbourCells]
  rintro ⟨dx, dy, hdx, hdy, h⟩
  unfold wrapCell at h
  rcases hdx with rfl | rfl | rfl <;> rcases hdy with rfl | rfl | rfl <;> norm_num at h

/-- With the cells of `pairFiled`, the scan collects no force for either
particle: the only particle it visits is the particle itself. -/
theorem pairFiled_scan_sum (sqrtf : ℚ → ℚ) (rMax : ℚ) (m : Int) (matrix : Arr ℚ)
    (ps : Arr (Particle ℚ)) (j : Int) (hj0 : 0 ≤ j) (hj2 : j < 2) :
    (((intRange 0 2).filter
        (fun k => gridIndexOf 4 (pairFiled.get k) ∈
          neighbourCells 4 (cellCoord 4 (pairFiled.get j).x) (cellCoord 4 (pairFiled.get j).y))).map
      (contribution sqrtf rMax m matrix ps j)).sum = 0 := by
  have hself : contribution sqrtf rMax m matrix ps j j = 0 := by
    unfold contribution
    rw [if_pos rfl]
  have h1 : gridIndexOf 4 (pairFiled.get 1) = 12 := pairFiled_index_of_ne 1 (by norm_num)
  rw [intRange_zero_two]
  have hj : j = 0 ∨ j = 1 := by omega
  rcases hj with rfl | rfl
  · have ex : cellCoord 4 (pairFiled.get 0).x = 3 := cellCoord_near_top
    have ey : cellCoord 4 (pairFiled.get 0).y = 1 := cellCoord_neg_quarter
    rw [ex, ey]
    simp only [List.filter_cons, List.filter_nil, h1, pairFiled_index_zero, twelve_not_near,
      decide_False, Bool.false_eq_true, if_false]
    split_ifs <;> simp [hself]
  · have ex : cellCoord 4 (pairFiled.get 1).x = 0 := by
      rw [pairFiled_get_of_ne 1 (by norm_num)]
      unfold cellCoord
      rw [Int.floor_eq_iff]
      norm_num
    have ey : cellCoord 4 (pairFiled.get 1).y = 3 := by
      rw [pairFiled_get_of_ne 1 (by norm_num)]
      unfold cellCoord
      rw [Int.floor_eq_iff]
      norm_num
    rw [ex, ey]
    simp only [List.filter_cons, List.filter_nil, h1, pairFiled_index_zero, seven_not_near,
      decide_False, Bool.false_eq_true, if_false]
    split_ifs <;> simp [hself]

/-- The particles of `misfiledPair` are at the periodic distance 5/16. -/
theorem misfiledPair_distance :
    Rat.sqrt
      (boundary ((misfiledPair.particles.get 1).x - (misfiledPair.particles.get 0).x) *
          boundary ((misfiledPair.particles.get 1).x - (misfiledPair.particles.get 0).x) +
        boundary ((misfiledPair.particles.get 1).y - (misfiledPair.particles.get 0).y) *
          boundary ((misfiledPair.particles.get 1).y - (misfiledPair.particles.get 0).y)) =
      5 / 16 := by
  rw [misfiledPair_get_zero, misfiledPair_get_one]
  have hx : boundary (belowOne - (belowOne - 3 / 16)) = 3 / 16 :=
    boundary_eq_of _ _ (by norm_num) (by norm_num) 0 (by norm_num)
  have hy : boundary ((0 : ℚ) - -1 / 4) = 1 / 4 :=
    boundary_eq_of _ _ (by norm_num) (by norm_num) 0 (by norm_num)
  simp only [hx, hy]
  rw [show (3 / 16 * (3 / 16) + 1 / 4 * (1 / 4) : ℚ) = 5 / 16 * (5 / 16) by norm_num,
    Rat.sqrt_eq]
  norm_num [abs_of_pos]

/-- The reference force sum on particle 0 of `misfiledPair`: the one neighbour
at distance 5/16 pulls with force(5/8, 1) = 13/14 along (3/5, 4/5). -/
theorem misfiledPair_reference :
    referenceForce Rat.sqrt misfiledPair.rMax misfiledPair.m misfiledPair.matrix misfiledPair.n
      misfiledPair.particles 0 = (39 / 70, 26 / 35) := by
  have hn : misfiledPair.n = 2 := rfl
  rw [hn, (referenceForce_pair Rat.sqrt _ _ _ _).1, contribution_of_ne _ _ _ _ _ _ _ (by norm_num)]
  unfold pairForce
  simp only [misfiledPair_distance]
  have hx : boundary ((misfiledPair.particles.get 1).x - (misfiledPair.particles.get 0).x)
      = 3 / 16 := by
    rw [misfiledPair_get_zero, misfiledPair_get_one]
    exact boundary_eq_of _ _ (by norm_num) (by norm_num) 0 (by norm_num)
  have hy : boundary ((misfiledPair.particles.get 1).y - (misfiledPair.particles.get 0).y)
      = 1 / 4 := by
    rw [misfiledPair_get_zero, misfiledPair_get_one]
    exact boundary_eq_of _ _ (by norm_num) (by norm_num) 0 (by norm_num)
  have hr : misfiledPair.rMax = 1 / 2 := rfl
  have hm : misfiledPair.matrix.get
      ((misfiledPair.particles.get 0).type * misfiledPair.m +
        (misfiledPair.particles.get 1).type) = 1 := rfl
  rw [hx, hy, hr, hm, if_pos (by norm_num)]
  have hf : force (5 / 16 / (1 / 2) : ℚ) 1 = 13 / 14 := by
    unfold force beta
    rw [if_neg (by norm_num), if_pos (by norm_num)]
    rw [show (2 * (5 / 16 / (1 / 2)) - 1 - 3 / 10 : ℚ) = -(1 / 20) by norm_num, abs_neg,
      abs_of_pos (by norm_num)]
    norm_num
  rw [hf]
  norm_num

end MisfiledPairFacts

section MisfiledPairClaims

/-- C2, evaluated at the failing input `misfiledPair` (particle 0 at
(0.81249994f, -0.25f), particle 1 at (0.99999994f, 0), rMax = 0.5, so gridSize
is 4, both positions in [-1, 1), periodic distance 5/16 below rMax): in `float`
arithmetic the build phase files particle 0 alone in the slots of cell 7, the
cell (3, 1); the scan of the nine cells around (3, 1) does not visit particle
1, and the force sum it accumulates for particle 0 is (0, 0), whatever `sqrtf`
returns, while the reference sum is (39/70, 26/35). -/
theorem scan32_misses_neighbour :
    ⌊round32 (2 / misfiledPair.rMax)⌋ = 4 ∧
    Rat.sqrt
      (boundary ((misfiledPair.particles.get 1).x - (misfiledPair.particles.get 0).x) *
          boundary ((misfiledPair.particles.get 1).x - (misfiledPair.particles.get 0).x) +
        boundary ((misfiledPair.particles.get 1).y - (misfiledPair.particles.get 0).y) *
          boundary ((misfiledPair.particles.get 1).y - (misfiledPair.particles.get 0).y)) =
      5 / 16 ∧
    (5 / 16 : ℚ) < misfiledPair.rMax ∧
    (intRange (misfiledGrid.1.get 7) (misfiledGrid.1.get 8)).map misfiledGrid.2.get = [0] ∧
    1 ∉ scanList 4 misfiledGrid.1 misfiledGrid.2 3 1 ∧
    (∀ sqrtf : ℚ → ℚ,
      totalForce sqrtf misfiledPair.rMax misfiledPair.m misfiledPair.matrix 4 misfiledGrid.1
        misfiledGrid.2 misfiledPair.particles 3 1 0 = (0, 0)) ∧
    referenceForce Rat.sqrt misfiledPair.rMax misfiledPair.m misfiledPair.matrix misfiledPair.n
      misfiledPair.particles 0 = (39 / 70, 26 / 35) := by
  refine ⟨gridSize32_half, misfiledPair_distance, ?_, ?_, ?_, ?_, misfiledPair_reference⟩
  · show (5 / 16 : ℚ) < 1 / 2
    norm_num
  · rw [misfiledGrid_eq]
    have := (buildGrid_spec 2 pairFiled 4 misfiledPair.grid misfiledPair.gridMap (by norm_num)
      pairFiled_cell).2 7 (by norm_num) (by norm_num)
    rw [show (8 : Int) = 7 + 1 by norm_num, this, intRange_zero_two]
    simp [List.filter_cons, pairFiled_index_zero, pairFiled_index_of_ne 1 (by norm_num)]
  · rw [misfiledGrid_eq, scanList_built 2 pairFiled 4 _ _ (by norm_num) pairFiled_cell 3 1
      (by norm_num) (by norm_num)]
    intro h
    rw [List.mem_flatMap] at h
    obtain ⟨c, hc, hmem⟩ := h
    rw [List.mem_filter] at hmem
    have hc12 := hmem.2
    simp only [decide_eq_true_eq] at hc12
    rw [pairFiled_index_of_ne 1 (by norm_num)] at hc12
    rw [← hc12] at hc
    exact twelve_not_near hc
  · intro sqrtf
    rw [misfiledGrid_eq, totalForce_filed sqrtf _ _ _ 2 pairFiled _ 4 (by norm_num) _ _
      (by norm_num) pairFiled_cell 3 1 (by norm_num) (by norm_num) 0]
    have := pairFiled_scan_sum sqrtf misfiledPair.rMax misfiledPair.m misfiledPair.matrix
      misfiledPair.particles 0 (by norm_num) (by norm_num)
    rw [show cellCoord 4 (pairFiled.get 0).x = 3 from cellCoord_near_top,
      show cellCoord 4 (pairFiled.get 0).y = 1 from cellCoord_neg_quarter] at this
    rw [this]
    rfl

/-- C4, evaluated at the failing input `misfiledPair` (two particles at rest
at the periodic distance 5/16 below rMax = 0.5, positions in [-1, 1), gridSize
4): `update` returns with both velocities still (0, 0), whatever `pow` and
`sqrtf` return, because in `float` arithmetic particle 1 is filed in a cell
that the scan around particle 0 does not reach, and the other way round; the
velocity of the claim for particle 0, `v * 0.5^(dt/frictionHalfLife) + F * rMax
* forceFactor * dt` with the force sum F = (39/70, 26/35) of the pre-step
positions, is (39/896, 13/224). -/
theorem update32_skips_impulse :
    (∀ (fuel : Nat) (pow : ℚ → ℚ → ℚ) (sqrtf : ℚ → ℚ),
      (update32 fuel pow sqrtf misfiledPair).map
          (fun t => ((t.particles.get 0).vx, (t.particles.get 0).vy,
            (t.particles.get 1).vx, (t.particles.get 1).vy)) = some (0, 0, 0, 0)) ∧
    (∀ pow : ℚ → ℚ → ℚ,
      (withNewVelocity misfiledPair.rMax misfiledPair.forceFactor misfiledPair.dt
          (pow (1 / 2) (misfiledPair.dt / misfiledPair.frictionHalfLife))
          (misfiledPair.particles.get 0)
          (referenceForce Rat.sqrt misfiledPair.rMax misfiledPair.m misfiledPair.matrix
            misfiledPair.n misfiledPair.particles 0)).vx = 39 / 896 ∧
      (withNewVelocity misfiledPair.rMax misfiledPair.forceFactor misfiledPair.dt
          (pow (1 / 2) (misfiledPair.dt / misfiledPair.frictionHalfLife))
          (misfiledPair.particles.get 0)
          (referenceForce Rat.sqrt misfiledPair.rMax misfiledPair.m misfiledPair.matrix
            misfiledPair.n misfiledPair.particles 0)).vy = 13 / 224) := by
  constructor
  · intro fuel pow sqrtf
    have hgs : ⌊round32 (2 / misfiledPair.rMax)⌋ = 4 := gridSize32_half
    rw [update32_of_grid fuel pow sqrtf misfiledPair 4 hgs (by norm_num)]
    have hn : misfiledPair.n = 2 := rfl
    rw [hn, misfiledPair_build]
    have hv : ∀ j, (velocities sqrtf misfiledPair.rMax misfiledPair.forceFactor misfiledPair.dt
        (pow (1 / 2) (misfiledPair.dt / misfiledPair.frictionHalfLife)) misfiledPair.m
        misfiledPair.matrix 4 (buildGrid 2 pairFiled 4 misfiledPair.grid misfiledPair.gridMap).1
        (buildGrid 2 pairFiled 4 misfiledPair.grid misfiledPair.gridMap).2
        misfiledPair.particles).get j = misfiledPair.particles.get j := by
      intro j
      rw [velocities_filed_get _ _ _ _ _ _ _ 2 pairFiled misfiledPair.particles 4
        (by norm_num) _ _ (by norm_num) pairFiled_pos j]
      by_cases hj : 0 ≤ j ∧ j < 2
      · rw [if_pos hj, pairFiled_scan_sum _ _ _ _ _ j hj.1 hj.2]
        unfold withNewVelocity
        by_cases h0 : j = 0
        · rw [h0, misfiledPair_get_zero]
          simp
        · rw [misfiledPair_get_of_ne j h0]
          simp
      · rw [if_neg hj]
    have hvel := Arr.ext_get hv
    rw [hvel, positions32_two]
    have hx0 : boundary32 fuel (round32 ((misfiledPair.particles.get 0).x +
        round32 ((misfiledPair.particles.get 0).vx * misfiledPair.dt))) =
        some (belowOne - 3 / 16) := by
      show boundary32 fuel (round32 (belowOne - 3 / 16 + round32 (0 * (1 / 64)))) = _
      rw [zero_mul, round32_zero, add_zero, round32_near_top_x]
      exact boundary32_of_mem fuel _ (by unfold belowOne; norm_num) (by unfold belowOne; norm_num)
    have hy0 : boundary32 fuel (round32 ((misfiledPair.particles.get 0).y +
        round32 ((misfiledPair.particles.get 0).vy * misfiledPair.dt))) = some (-1 / 4) := by
      show boundary32 fuel (round32 (-1 / 4 + round32 (0 * (1 / 64)))) = _
      rw [zero_mul, round32_zero, add_zero, round32_neg_quarter]
      exact boundary32_of_mem fuel _ (by norm_num) (by norm_num)
    rw [positionStep32_some fuel _ _ 0 _ _ hx0 hy0, Option.some_bind]
    have hx1 : boundary32 fuel (round32 (((misfiledPair.particles.set 0
        { misfiledPair.particles.get 0 with x := belowOne - 3 / 16, y := -1 / 4 }).get 1).x +
        round32 (((misfiledPair.particles.set 0
        { misfiledPair.particles.get 0 with x := belowOne - 3 / 16, y := -1 / 4 }).get 1).vx *
          misfiledPair.dt))) = some belowOne := by
      rw [Arr.get_set, if_neg (by norm_num)]
      show boundary32 fuel (round32 (belowOne + round32 (0 * (1 / 64)))) = _
      rw [zero_mul, round32_zero, add_zero, round32_belowOne]
      exact boundary32_of_mem fuel _ (by unfold belowOne; norm_num) (by unfold belowOne; norm_num)
    have hy1 : boundary32 fuel (round32 (((misfiledPair.particles.set 0
        { misfiledPair.particles.get 0 with x := belowOne - 3 / 16, y := -1 / 4 }).get 1).y +
        round32 (((misfiledPair.particles.set 0
        { misfiledPair.particles.get 0 with x := belowOne - 3 / 16, y := -1 / 4 }).get 1).vy *
          misfiledPair.dt))) = some 0 := by
      rw [Arr.get_set, if_neg (by norm_num)]
      show boundary32 fuel (round32 (0 + round32 (0 * (1 / 64)))) = _
      rw [zero_mul, round32_zero, add_zero, round32_zero]
      exact boundary32_of_mem fuel _ (by norm_num) (by norm_num)
    rw [positionStep32_some fuel _ _ 1 _ _ hx1 hy1]
    simp only [Option.map_some', Arr.get_set]
    rfl
  · intro pow
    rw [misfiledPair_reference]
    unfold withNewVelocity
    rw [misfiledPair_get_zero]
    show (0 * pow (1 / 2) ((1 / 64 : ℚ) / (1 / 32)) + 39 / 70 * ((1 / 2) * 10) * (1 / 64)
        = 39 / 896) ∧
      (0 * pow (1 / 2) ((1 / 64 : ℚ) / (1 / 32)) + 26 / 35 * ((1 / 2) * 10) * (1 / 64)
        = 13 / 224)
    constructor <;> norm_num

/-- C19, evaluated at the failing input p = (0.81249994f, -0.25f),
q = (0.99999994f, 0) with rMax = 0.5 (the particles of `misfiledPair`): both
points are in [-1, 1)², their periodic distance is below rMax and gridSize is
4, but in `float` arithmetic `floor((coord+1)/2 * gridSize)` gives q the column
4, which is no column of the grid and none of the wrapped columns around the
column 3 of p, and the cell index 12 that `update` files q under is none of the
nine cells it visits around the cell (3, 1) of p.  In exact arithmetic the
column of q is 3. -/
theorem cellCoord32_not_adjacent :
    ⌊round32 (2 / misfiledPair.rMax)⌋ = 4 ∧
    ((-1 ≤ (misfiledPair.particles.get 0).x ∧ (misfiledPair.particles.get 0).x < 1) ∧
      (-1 ≤ (misfiledPair.particles.get 0).y ∧ (misfiledPair.particles.get 0).y < 1)) ∧
    ((-1 ≤ (misfiledPair.particles.get 1).x ∧ (misfiledPair.particles.get 1).x < 1) ∧
      (-1 ≤ (misfiledPair.particles.get 1).y ∧ (misfiledPair.particles.get 1).y < 1)) ∧
    Rat.sqrt
      (boundary ((misfiledPair.particles.get 1).x - (misfiledPair.particles.get 0).x) *
          boundary ((misfiledPair.particles.get 1).x - (misfiledPair.particles.get 0).x) +
        boundary ((misfiledPair.particles.get 1).y - (misfiledPair.particles.get 0).y) *
          boundary ((misfiledPair.particles.get 1).y - (misfiledPair.particles.get 0).y)) <
      misfiledPair.rMax ∧
    cellCoord32 4 (misfiledPair.particles.get 0).x = 3 ∧
    cellCoord32 4 (misfiledPair.particles.get 0).y = 1 ∧
    cellCoord32 4 (misfiledPair.particles.get 1).x = 4 ∧
    cellCoord32 4 (misfiledPair.particles.get 1).y = 2 ∧
    (∀ d : Int, d = -1 ∨ d = 0 ∨ d = 1 →
      cellCoord32 4 (misfiledPair.particles.get 1).x ≠
        wrapCell 4 (cellCoord32 4 (misfiledPair.particles.get 0).x + d)) ∧
    gridIndexOf32 4 (misfiledPair.particles.get 1) ∉
      neighbourCells 4 (cellCoord32 4 (misfiledPair.particles.get 0).x)
        (cellCoord32 4 (misfiledPair.particles.get 0).y) ∧
    cellCoord 4 (misfiledPair.particles.get 1).x = 3 := by
  have c0x : cellCoord32 4 (misfiledPair.particles.get 0).x = 3 := cellCoord32_near_top
  have c0y : cellCoord32 4 (misfiledPair.particles.get 0).y = 1 := cellCoord32_neg_quarter
  have c1x : cellCoord32 4 (misfiledPair.particles.get 1).x = 4 := cellCoord32_belowOne
  have c1y : cellCoord32 4 (misfiledPair.particles.get 1).y = 2 := cellCoord32_zero
  refine ⟨gridSize32_half, ?_, ?_, ?_, c0x, c0y, c1x, c1y, ?_, ?_, ?_⟩
  · rw [misfiledPair_get_zero]
    unfold belowOne
    norm_num
  · rw [misfiledPair_get_one]
    unfold belowOne
    norm_num
  · rw [misfiledPair_distance]
    show (5 / 16 : ℚ) < 1 / 2
    norm_num
  · intro d hd
    rw [c0x, c1x]
    unfold wrapCell
    rcases hd with rfl | rfl | rfl <;> norm_num
  · rw [misfiledPair_index32_one, c0x, c0y]
    exact twelve_not_near
  · rw [misfiledPair_get_one]
    unfold cellCoord belowOne
    rw [Int.floor_eq_iff]
    norm_num

end MisfiledPairClaims

end ParticleLife
